import Mathlib

/-!
# chippy: the CHIP-8 interpreter core (`src/cpu.c`, `src/cpu.h`)

A shallow embedding of the interpreter core and theorems about it.

Conventions of the embedding.

* `struct chip8` becomes the structure `Chip8`.  The C arrays (`mem`, `v`,
  `stack`, `disp`) are total functions from an index to a value; an array
  write is `upd`.  Reading outside the bounds of the C array is undefined in
  C; the theorems on sprite reads carry the bound `I + n <= 4096` under which
  the C access is defined.
* The only writes whose index the code does not bound are the stores
  `cpu->mem[cpu->i + k] = ...` of `instr_fx33` and `instr_fx55`.  They go
  through `mem_store`: a store past the last byte of `mem` lands on the member
  of `struct chip8` that lies at that byte offset.
* Machine integers are natural numbers.  A store into a `uint8_t` is taken
  `% 256` and a store into a `uint16_t` is taken `% 65536` wherever the C
  expression can leave the range.
* `assert` failures and `exit` abort the process: handlers return
  `Except Fault Chip8`.
* `rand()` belongs to libc; the stream of its future outputs is carried in the
  state as `rand_out`.
-/

namespace Chippy

/-- Reasons for which the interpreter aborts. -/
inductive Fault where
  /-- An argument assertion of a helper failed (`opcode2nib`, `nibs2addr`,
  `nibs2byte`, `cpu_set_key_state`). -/
  | AssertFailed
  /-- The assertion of `instr_00ee` failed: return without a stacked address. -/
  | StackUnderflow
  /-- The assertion of `instr_2nnn` failed: call with no stack slot left. -/
  | StackOverflow
  /-- Function `dummy_instr` ran: the opcode matches no handler. -/
  | DecodeError
  /-- The size assertion of `cpu_load_rom` failed: the image does not fit. -/
  | LoadError
  deriving DecidableEq, Repr

/-- The machine state, `struct chip8` of `cpu.h`, with the libc generator. -/
structure Chip8 where
  /-- memory, `uint8_t mem[4096]` -/
  mem : Nat → Nat
  /-- general purpose registers, `uint8_t v[16]` -/
  v : Nat → Nat
  /-- address register, `uint16_t` -/
  i : Nat
  /-- delay timer, `uint8_t` -/
  dt : Nat
  /-- sound timer, `uint8_t` -/
  st : Nat
  /-- stack pointer, `uint8_t` -/
  sp : Nat
  /-- call stack, `uint16_t stack[16]` -/
  stack : Nat → Nat
  /-- program counter, `uint16_t` -/
  pc : Nat
  /-- keypad keys, `uint16_t` bit mask -/
  keys : Nat
  /-- display, `uint8_t disp[8*32]`, 64x32 bits -/
  disp : Nat → Nat
  /-- waiting for key event, `uint8_t` -/
  wait_key : Nat
  /-- index of the register that receives the pressed key, `uint8_t` -/
  key_vx : Nat
  /-- future outputs of libc `rand()`: `rand_out 0` is the next one -/
  rand_out : Nat → Nat

/-- Array write `a[k] = val`. -/
def upd (a : Nat → Nat) (k val : Nat) : Nat → Nat :=
  fun j => if j = k then val else a j

/-- Effect of `memset(a, 0, n)` on an array of one-byte or two-byte cells
(`n` counts cells). -/
def memset0 (a : Nat → Nat) (n : Nat) : Nat → Nat :=
  fun j => if j < n then 0 else a j

def BASE_ADDR : Nat := 0x200

def DIGIT_SPRITES_ADDR : Nat := 0x100

def digit_sprites : List Nat :=
  [0xF0, 0x90, 0x90, 0x90, 0xF0,
   0x20, 0x60, 0x20, 0x20, 0x70,
   0xF0, 0x10, 0xF0, 0x80, 0xF0,
   0xF0, 0x10, 0xF0, 0x10, 0xF0,
   0x90, 0x90, 0xF0, 0x10, 0x10,
   0xF0, 0x80, 0xF0, 0x10, 0xF0,
   0xF0, 0x80, 0xF0, 0x90, 0xF0,
   0xF0, 0x10, 0x20, 0x40, 0x40,
   0xF0, 0x90, 0xF0, 0x90, 0xF0,
   0xF0, 0x90, 0xF0, 0x10, 0xF0,
   0xF0, 0x90, 0xF0, 0x90, 0x90,
   0xE0, 0x90, 0xE0, 0x90, 0xE0,
   0xF0, 0x80, 0x80, 0x80, 0xF0,
   0xE0, 0x90, 0x90, 0x90, 0xE0,
   0xF0, 0x80, 0xF0, 0x80, 0xF0,
   0xF0, 0x80, 0xF0, 0x80, 0x80]

/-- Nibble `n` of the opcode; `n = 0` is the leftmost nibble. -/
def opcode2nib (opcode n : Nat) : Except Fault Nat :=
  if n ≤ 3 then .ok (((opcode >>> (4 * (3 - n))) &&& 0xf) % 256)
  else .error .AssertFailed

/-- Four nibbles to a 16-bit address; `nib0` is the leftmost nibble. -/
def nibs2addr (nib0 nib1 nib2 nib3 : Nat) : Except Fault Nat :=
  if nib0 &&& 0xf0 = 0 then
    if nib1 &&& 0xf0 = 0 then
      if nib2 &&& 0xf0 = 0 then
        if nib3 &&& 0xf0 = 0 then
          .ok (((nib0 <<< (4*3)) ||| (nib1 <<< (4*2)) ||| (nib2 <<< 4) ||| nib3) % 65536)
        else .error .AssertFailed
      else .error .AssertFailed
    else .error .AssertFailed
  else .error .AssertFailed

def bytes2opcode (high low : Nat) : Nat :=
  let tmp := high
  let tmp := (tmp <<< 8) % 65536
  (tmp ||| low) % 65536

/-- Two nibbles to a byte; `nib0` is the leftmost nibble. -/
def nibs2byte (nib0 nib1 : Nat) : Except Fault Nat :=
  if nib0 &&& 0xf0 = 0 then
    if nib1 &&& 0xf0 = 0 then .ok (((nib0 <<< 4) ||| nib1) % 256)
    else .error .AssertFailed
  else .error .AssertFailed

def write_with_carry (cpu : Chip8) (dest val carry : Nat) : Chip8 :=
  let cpu := { cpu with v := upd cpu.v dest val }
  { cpu with v := upd cpu.v 0xf carry }

/-- 0nnn - SYS addr: ignored. -/
def instr_0nnn (cpu : Chip8) (_nib0 _nib1 _nib2 : Nat) : Except Fault Chip8 :=
  .ok cpu

/-- 00E0 - CLS. -/
def instr_00e0 (cpu : Chip8) (_nib0 _nib1 _nib2 : Nat) : Except Fault Chip8 :=
  .ok { cpu with disp := memset0 cpu.disp (8*32) }

/-- 00EE - RET. -/
def instr_00ee (cpu : Chip8) (_nib0 _nib1 _nib2 : Nat) : Except Fault Chip8 :=
  if cpu.sp > 0 ∧ cpu.sp ≤ 0xf then
    let cpu := { cpu with pc := cpu.stack (cpu.sp - 1) }
    .ok { cpu with sp := cpu.sp - 1 }
  else .error .StackUnderflow

/-- 1nnn - JP addr. -/
def instr_1nnn (cpu : Chip8) (nib0 nib1 nib2 : Nat) : Except Fault Chip8 := do
  let addr ← nibs2addr 0 nib0 nib1 nib2
  .ok { cpu with pc := addr }

/-- 2nnn - CALL addr. -/
def instr_2nnn (cpu : Chip8) (nib0 nib1 nib2 : Nat) : Except Fault Chip8 :=
  if cpu.sp ≥ 0 ∧ cpu.sp < 0xf then do
    let cpu := { cpu with sp := (cpu.sp + 1) % 256 }
    let cpu := { cpu with stack := upd cpu.stack (cpu.sp - 1) cpu.pc }
    let addr ← nibs2addr 0 nib0 nib1 nib2
    .ok { cpu with pc := addr }
  else .error .StackOverflow

/-- 3xkk - SE Vx, byte. -/
def instr_3xkk (cpu : Chip8) (nib0 nib1 nib2 : Nat) : Except Fault Chip8 := do
  let kk ← nibs2byte nib1 nib2
  if cpu.v nib0 = kk then .ok { cpu with pc := (cpu.pc + 2) % 65536 }
  else .ok cpu

/-- 4xkk - SNE Vx, byte. -/
def instr_4xkk (cpu : Chip8) (nib0 nib1 nib2 : Nat) : Except Fault Chip8 := do
  let kk ← nibs2byte nib1 nib2
  if cpu.v nib0 ≠ kk then .ok { cpu with pc := (cpu.pc + 2) % 65536 }
  else .ok cpu

/-- 5xy0 - SE Vx, Vy. -/
def instr_5xy0 (cpu : Chip8) (nib0 nib1 _nib2 : Nat) : Except Fault Chip8 :=
  if cpu.v nib0 = cpu.v nib1 then .ok { cpu with pc := (cpu.pc + 2) % 65536 }
  else .ok cpu

/-- 6xkk - LD Vx, byte. -/
def instr_6xkk (cpu : Chip8) (nib0 nib1 nib2 : Nat) : Except Fault Chip8 := do
  let kk ← nibs2byte nib1 nib2
  .ok { cpu with v := upd cpu.v nib0 kk }

/-- 7xkk - ADD Vx, byte. -/
def instr_7xkk (cpu : Chip8) (nib0 nib1 nib2 : Nat) : Except Fault Chip8 := do
  let kk ← nibs2byte nib1 nib2
  let result := (cpu.v nib0 + kk) % 256
  .ok { cpu with v := upd cpu.v nib0 result }

/-- 8xy0 - LD Vx, Vy. -/
def instr_8xy0 (cpu : Chip8) (nib0 nib1 _nib2 : Nat) : Except Fault Chip8 :=
  .ok { cpu with v := upd cpu.v nib0 (cpu.v nib1) }

/-- 8xy1 - OR Vx, Vy. -/
def instr_8xy1 (cpu : Chip8) (nib0 nib1 _nib2 : Nat) : Except Fault Chip8 :=
  .ok { cpu with v := upd cpu.v nib0 (cpu.v nib0 ||| cpu.v nib1) }

/-- 8xy2 - AND Vx, Vy. -/
def instr_8xy2 (cpu : Chip8) (nib0 nib1 _nib2 : Nat) : Except Fault Chip8 :=
  .ok { cpu with v := upd cpu.v nib0 (cpu.v nib0 &&& cpu.v nib1) }

/-- 8xy3 - XOR Vx, Vy. -/
def instr_8xy3 (cpu : Chip8) (nib0 nib1 _nib2 : Nat) : Except Fault Chip8 :=
  .ok { cpu with v := upd cpu.v nib0 (cpu.v nib0 ^^^ cpu.v nib1) }

/-- 8xy4 - ADD Vx, Vy; VF = carry. -/
def instr_8xy4 (cpu : Chip8) (nib0 nib1 _nib2 : Nat) : Except Fault Chip8 :=
  let tmp := cpu.v nib0
  let tmp := (tmp + cpu.v nib1) % 65536
  let cpu := { cpu with v := upd cpu.v nib0 (tmp &&& 0xff) }
  .ok { cpu with v := upd cpu.v 0xf (if tmp &&& 0xff00 ≠ 0 then 1 else 0) }

/-- 8xy5 - SUB Vx, Vy; VF = NOT borrow.  The difference is computed in `int`
and converted to `uint8_t` at the call. -/
def instr_8xy5 (cpu : Chip8) (nib0 nib1 _nib2 : Nat) : Except Fault Chip8 :=
  .ok (write_with_carry cpu nib0
    (((cpu.v nib0 : Int) - (cpu.v nib1 : Int)) % 256).toNat
    (if cpu.v nib0 ≥ cpu.v nib1 then 1 else 0))

/-- 8xy6 - SHR Vx. -/
def instr_8xy6 (cpu : Chip8) (nib0 _nib1 _nib2 : Nat) : Except Fault Chip8 :=
  .ok (write_with_carry cpu nib0
    ((cpu.v nib0 >>> 1) % 256)
    ((cpu.v nib0 &&& 0x1) % 256))

/-- 8xy7 - SUBN Vx, Vy; VF = NOT borrow. -/
def instr_8xy7 (cpu : Chip8) (nib0 nib1 _nib2 : Nat) : Except Fault Chip8 :=
  .ok (write_with_carry cpu nib0
    (((cpu.v nib1 : Int) - (cpu.v nib0 : Int)) % 256).toNat
    (if cpu.v nib1 ≥ cpu.v nib0 then 1 else 0))

/-- 8xyE - SHL Vx: shifts `v[nib1]`. -/
def instr_8xye (cpu : Chip8) (nib0 nib1 _nib2 : Nat) : Except Fault Chip8 :=
  .ok (write_with_carry cpu nib0
    ((cpu.v nib1 <<< 1) % 256)
    (((cpu.v nib1 >>> 7) &&& 0x1) % 256))

/-- 9xy0 - SNE Vx, Vy. -/
def instr_9xy0 (cpu : Chip8) (nib0 nib1 _nib2 : Nat) : Except Fault Chip8 :=
  if cpu.v nib0 ≠ cpu.v nib1 then .ok { cpu with pc := (cpu.pc + 2) % 65536 }
  else .ok cpu

/-- Annn - LD I, addr. -/
def instr_annn (cpu : Chip8) (nib0 nib1 nib2 : Nat) : Except Fault Chip8 := do
  let addr ← nibs2addr 0 nib0 nib1 nib2
  .ok { cpu with i := addr }

/-- Bnnn - JP V0, addr. -/
def instr_bnnn (cpu : Chip8) (nib0 nib1 nib2 : Nat) : Except Fault Chip8 := do
  let nnn ← nibs2addr 0 nib0 nib1 nib2
  let addr := (nnn + cpu.v 0) % 65536
  .ok { cpu with pc := addr }

/-- Cxkk - RND Vx, byte. -/
def instr_cxkk (cpu : Chip8) (nib0 nib1 nib2 : Nat) : Except Fault Chip8 := do
  let mask ← nibs2byte nib1 nib2
  let r := cpu.rand_out 0
  let cpu := { cpu with rand_out := fun k => cpu.rand_out (k + 1) }
  .ok { cpu with v := upd cpu.v nib0 (((r % 0xff) &&& mask) % 256) }

/-- XOR the display bit of pixel `x`, `y` with 1 and return the new masked
byte (non-zero when the pixel is lit afterwards). -/
def xor_pixel (cpu : Chip8) (x y : Nat) : Chip8 × Nat :=
  let x := x % 64
  let y := y % 32
  let target_byte := (y * 8) + (x / 8)
  let value_mask := (128 >>> (x % 8)) % 256
  let cpu := { cpu with disp := upd cpu.disp target_byte (cpu.disp target_byte ^^^ value_mask) }
  (cpu, cpu.disp target_byte &&& value_mask)

/-- Body of the inner loop of `instr_dxyn` for one `px`. -/
def dxyn_px (start_x start_y row sprite_row : Nat) (cpu : Chip8) (px : Nat) : Chip8 :=
  if sprite_row &&& (128 >>> px) ≠ 0 then
    let x := start_x + px
    let y := start_y + row
    let (cpu, result) := xor_pixel cpu x y
    if result = 0 then { cpu with v := upd cpu.v 0xf 1 } else cpu
  else cpu

/-- Body of the outer loop of `instr_dxyn` for one `row`. -/
def dxyn_row (start_x start_y : Nat) (cpu : Chip8) (row : Nat) : Chip8 :=
  let sprite_row := cpu.mem (cpu.i + row)
  (List.range 8).foldl (dxyn_px start_x start_y row sprite_row) cpu

/-- Dxyn - DRW Vx, Vy, nibble. -/
def instr_dxyn (cpu : Chip8) (nib0 nib1 nib2 : Nat) : Except Fault Chip8 :=
  let start_x := cpu.v nib0
  let start_y := cpu.v nib1
  let cpu := { cpu with v := upd cpu.v 0xf 0 }
  .ok ((List.range nib2).foldl (dxyn_row start_x start_y) cpu)

/-- Ex9E - SKP Vx. -/
def instr_ex9e (cpu : Chip8) (nib0 _nib1 _nib2 : Nat) : Except Fault Chip8 :=
  let mask := (0x1 <<< cpu.v nib0) % 65536
  if cpu.keys &&& mask ≠ 0 then .ok { cpu with pc := (cpu.pc + 2) % 65536 }
  else .ok cpu

/-- ExA1 - SKNP Vx. -/
def instr_exa1 (cpu : Chip8) (nib0 _nib1 _nib2 : Nat) : Except Fault Chip8 :=
  let mask := (0x1 <<< cpu.v nib0) % 65536
  if cpu.keys &&& mask = 0 then .ok { cpu with pc := (cpu.pc + 2) % 65536 }
  else .ok cpu

/-- Fx07 - LD Vx, DT. -/
def instr_fx07 (cpu : Chip8) (nib0 _nib1 _nib2 : Nat) : Except Fault Chip8 :=
  .ok { cpu with v := upd cpu.v nib0 cpu.dt }

/-- Fx0A - LD Vx, K. -/
def instr_fx0a (cpu : Chip8) (nib0 _nib1 _nib2 : Nat) : Except Fault Chip8 :=
  let cpu := { cpu with wait_key := 1 }
  .ok { cpu with key_vx := nib0 }

/-- Fx15 - LD DT, Vx. -/
def instr_fx15 (cpu : Chip8) (nib0 _nib1 _nib2 : Nat) : Except Fault Chip8 :=
  .ok { cpu with dt := cpu.v nib0 }

/-- Fx18 - LD ST, Vx. -/
def instr_fx18 (cpu : Chip8) (nib0 _nib1 _nib2 : Nat) : Except Fault Chip8 :=
  .ok { cpu with st := cpu.v nib0 }

/-- Fx1E - ADD I, Vx. -/
def instr_fx1e (cpu : Chip8) (nib0 _nib1 _nib2 : Nat) : Except Fault Chip8 :=
  .ok { cpu with i := (cpu.i + cpu.v nib0) % 65536 }

/-- Fx29 - LD F, Vx. -/
def instr_fx29 (cpu : Chip8) (nib0 _nib1 _nib2 : Nat) : Except Fault Chip8 :=
  .ok { cpu with i := (DIGIT_SPRITES_ADDR + (cpu.v nib0 * 5)) % 65536 }

/-- The 16-bit value `w` with its low byte replaced by the byte `b`. -/
def set_low_byte (w b : Nat) : Nat := (w / 256) * 256 + b

/-- The 16-bit value `w` with its high byte replaced by the byte `b`. -/
def set_high_byte (w b : Nat) : Nat := b * 256 + w % 256

/-- The byte store `cpu->mem[addr] = val` of `instr_fx33` and `instr_fx55`,
which do not check `addr`.  Array `mem` is the first member of `struct chip8`
and has 4096 bytes, so a store with `addr >= 4096` lands on the member that
lies at byte offset `addr` of the structure.  The members follow `mem` in
declaration order (`cpu.h`), 16-bit members 2-aligned and stored low byte
first: `v` at 4096..4111, `i` at 4112..4113, `dt` at 4114, `st` at 4115, `sp`
at 4116, one padding byte, `stack` at 4118..4149, `pc` at 4150..4151, `keys` at
4152..4153, `disp` at 4154..4409, `wait_key` at 4410 and `key_vx` at 4411.  A
store past the structure leaves the machine state as it is. -/
def mem_store (cpu : Chip8) (addr val : Nat) : Chip8 :=
  if addr < 4096 then { cpu with mem := upd cpu.mem addr val }
  else if addr < 4112 then { cpu with v := upd cpu.v (addr - 4096) val }
  else if addr = 4112 then { cpu with i := set_low_byte cpu.i val }
  else if addr = 4113 then { cpu with i := set_high_byte cpu.i val }
  else if addr = 4114 then { cpu with dt := val }
  else if addr = 4115 then { cpu with st := val }
  else if addr = 4116 then { cpu with sp := val }
  else if addr = 4117 then cpu
  else if addr < 4150 then
    let slot := (addr - 4118) / 2
    if (addr - 4118) % 2 = 0 then
      { cpu with stack := upd cpu.stack slot (set_low_byte (cpu.stack slot) val) }
    else { cpu with stack := upd cpu.stack slot (set_high_byte (cpu.stack slot) val) }
  else if addr = 4150 then { cpu with pc := set_low_byte cpu.pc val }
  else if addr = 4151 then { cpu with pc := set_high_byte cpu.pc val }
  else if addr = 4152 then { cpu with keys := set_low_byte cpu.keys val }
  else if addr = 4153 then { cpu with keys := set_high_byte cpu.keys val }
  else if addr < 4410 then { cpu with disp := upd cpu.disp (addr - 4154) val }
  else if addr = 4410 then { cpu with wait_key := val }
  else if addr = 4411 then { cpu with key_vx := val }
  else cpu

/-- Fx33 - LD B, Vx. -/
def instr_fx33 (cpu : Chip8) (nib0 _nib1 _nib2 : Nat) : Except Fault Chip8 :=
  let cpu := mem_store cpu cpu.i ((cpu.v nib0 / 100) % 10)
  let cpu := mem_store cpu (cpu.i + 1) ((cpu.v nib0 / 10) % 10)
  .ok (mem_store cpu (cpu.i + 2) (cpu.v nib0 % 10))

/-- Fx55 - LD [I], Vx. -/
def instr_fx55 (cpu : Chip8) (nib0 _nib1 _nib2 : Nat) : Except Fault Chip8 :=
  .ok ((List.range (nib0 + 1)).foldl
    (fun cpu i => mem_store cpu (cpu.i + i) (cpu.v i)) cpu)

/-- Fx65 - LD Vx, [I]. -/
def instr_fx65 (cpu : Chip8) (nib0 _nib1 _nib2 : Nat) : Except Fault Chip8 :=
  .ok ((List.range (nib0 + 1)).foldl
    (fun cpu i => { cpu with v := upd cpu.v i (cpu.mem (cpu.i + i)) }) cpu)

/-- Prints "Instruction not implemented!" and exits. -/
def dummy_instr (_cpu : Chip8) (_nib0 _nib1 _nib2 : Nat) : Except Fault Chip8 :=
  .error .DecodeError

/-- The handlers a decoded opcode can point to (`instrp_t`). -/
inductive Instrp where
  | p_0nnn | p_00e0 | p_00ee | p_1nnn | p_2nnn | p_3xkk | p_4xkk | p_5xy0
  | p_6xkk | p_7xkk | p_8xy0 | p_8xy1 | p_8xy2 | p_8xy3 | p_8xy4 | p_8xy5
  | p_8xy6 | p_8xy7 | p_8xye | p_9xy0 | p_annn | p_bnnn | p_cxkk | p_dxyn
  | p_ex9e | p_exa1 | p_fx07 | p_fx0a | p_fx15 | p_fx18 | p_fx1e | p_fx29
  | p_fx33 | p_fx55 | p_fx65 | p_dummy
  deriving DecidableEq, Repr

/-- Call through the function pointer: `(*instr)(cpu, a, b, c)`. -/
def Instrp.call (instr : Instrp) (cpu : Chip8) (a b c : Nat) : Except Fault Chip8 :=
  match instr with
  | .p_0nnn => instr_0nnn cpu a b c
  | .p_00e0 => instr_00e0 cpu a b c
  | .p_00ee => instr_00ee cpu a b c
  | .p_1nnn => instr_1nnn cpu a b c
  | .p_2nnn => instr_2nnn cpu a b c
  | .p_3xkk => instr_3xkk cpu a b c
  | .p_4xkk => instr_4xkk cpu a b c
  | .p_5xy0 => instr_5xy0 cpu a b c
  | .p_6xkk => instr_6xkk cpu a b c
  | .p_7xkk => instr_7xkk cpu a b c
  | .p_8xy0 => instr_8xy0 cpu a b c
  | .p_8xy1 => instr_8xy1 cpu a b c
  | .p_8xy2 => instr_8xy2 cpu a b c
  | .p_8xy3 => instr_8xy3 cpu a b c
  | .p_8xy4 => instr_8xy4 cpu a b c
  | .p_8xy5 => instr_8xy5 cpu a b c
  | .p_8xy6 => instr_8xy6 cpu a b c
  | .p_8xy7 => instr_8xy7 cpu a b c
  | .p_8xye => instr_8xye cpu a b c
  | .p_9xy0 => instr_9xy0 cpu a b c
  | .p_annn => instr_annn cpu a b c
  | .p_bnnn => instr_bnnn cpu a b c
  | .p_cxkk => instr_cxkk cpu a b c
  | .p_dxyn => instr_dxyn cpu a b c
  | .p_ex9e => instr_ex9e cpu a b c
  | .p_exa1 => instr_exa1 cpu a b c
  | .p_fx07 => instr_fx07 cpu a b c
  | .p_fx0a => instr_fx0a cpu a b c
  | .p_fx15 => instr_fx15 cpu a b c
  | .p_fx18 => instr_fx18 cpu a b c
  | .p_fx1e => instr_fx1e cpu a b c
  | .p_fx29 => instr_fx29 cpu a b c
  | .p_fx33 => instr_fx33 cpu a b c
  | .p_fx55 => instr_fx55 cpu a b c
  | .p_fx65 => instr_fx65 cpu a b c
  | .p_dummy => dummy_instr cpu a b c

/-- Fetch the big-endian opcode at `pc` and advance `pc` by 2. -/
def fetch (cpu : Chip8) : Nat × Chip8 :=
  let result := bytes2opcode (cpu.mem cpu.pc) (cpu.mem (cpu.pc + 1))
  (result, { cpu with pc := (cpu.pc + 2) % 65536 })

/-- The `switch` of `decode` on the four nibbles. -/
def decode_nibs (nib0 nib1 nib2 nib3 : Nat) : Instrp :=
  if nib0 = 0x0 then
    if nib1 = 0x0 ∧ nib2 = 0xe ∧ nib3 = 0x0 then .p_00e0
    else if nib1 = 0x0 ∧ nib2 = 0xe ∧ nib3 = 0xe then .p_00ee
    else .p_0nnn
  else if nib0 = 0x1 then .p_1nnn
  else if nib0 = 0x2 then .p_2nnn
  else if nib0 = 0x3 then .p_3xkk
  else if nib0 = 0x4 then .p_4xkk
  else if nib0 = 0x5 then
    if nib3 = 0x0 then .p_5xy0 else .p_dummy
  else if nib0 = 0x6 then .p_6xkk
  else if nib0 = 0x7 then .p_7xkk
  else if nib0 = 0x8 then
    if nib3 = 0x0 then .p_8xy0
    else if nib3 = 0x1 then .p_8xy1
    else if nib3 = 0x2 then .p_8xy2
    else if nib3 = 0x3 then .p_8xy3
    else if nib3 = 0x4 then .p_8xy4
    else if nib3 = 0x5 then .p_8xy5
    else if nib3 = 0x6 then .p_8xy6
    else if nib3 = 0x7 then .p_8xy7
    else if nib3 = 0xe then .p_8xye
    else .p_dummy
  else if nib0 = 0x9 then
    if nib3 = 0x0 then .p_9xy0 else .p_dummy
  else if nib0 = 0xa then .p_annn
  else if nib0 = 0xb then .p_bnnn
  else if nib0 = 0xc then .p_cxkk
  else if nib0 = 0xd then .p_dxyn
  else if nib0 = 0xe then
    if nib2 = 0x9 ∧ nib3 = 0xe then .p_ex9e
    else if nib2 = 0xa ∧ nib3 = 0x1 then .p_exa1
    else .p_dummy
  else if nib0 = 0xf then
    if nib2 = 0x0 ∧ nib3 = 0x7 then .p_fx07
    else if nib2 = 0x0 ∧ nib3 = 0xa then .p_fx0a
    else if nib2 = 0x1 ∧ nib3 = 0x5 then .p_fx15
    else if nib2 = 0x1 ∧ nib3 = 0x8 then .p_fx18
    else if nib2 = 0x1 ∧ nib3 = 0xe then .p_fx1e
    else if nib2 = 0x2 ∧ nib3 = 0x9 then .p_fx29
    else if nib2 = 0x3 ∧ nib3 = 0x3 then .p_fx33
    else if nib2 = 0x5 ∧ nib3 = 0x5 then .p_fx55
    else if nib2 = 0x6 ∧ nib3 = 0x5 then .p_fx65
    else .p_dummy
  else .p_dummy

def decode (opcode : Nat) : Except Fault Instrp := do
  let nib0 ← opcode2nib opcode 0
  let nib1 ← opcode2nib opcode 1
  let nib2 ← opcode2nib opcode 2
  let nib3 ← opcode2nib opcode 3
  .ok (decode_nibs nib0 nib1 nib2 nib3)

def execute (cpu : Chip8) (instr : Instrp) (opcode : Nat) : Except Fault Chip8 := do
  let nib1 ← opcode2nib opcode 1
  let nib2 ← opcode2nib opcode 2
  let nib3 ← opcode2nib opcode 3
  instr.call cpu nib1 nib2 nib3

def cpu_cycle (cpu : Chip8) : Except Fault Chip8 :=
  if cpu.wait_key ≠ 0 then .ok cpu
  else
    let (opcode, cpu) := fetch cpu
    do
      let instr ← decode opcode
      execute cpu instr opcode

def cpu_tick60hz (cpu : Chip8) : Chip8 :=
  let cpu := if cpu.dt > 0 then { cpu with dt := cpu.dt - 1 } else cpu
  if cpu.st > 0 then { cpu with st := cpu.st - 1 } else cpu

def cpu_reset (cpu : Chip8) : Chip8 :=
  let cpu := { cpu with v := memset0 cpu.v 0xf }
  let cpu := { cpu with stack := memset0 cpu.stack 0xf }
  let cpu := { cpu with disp := memset0 cpu.disp (8*32) }
  let cpu := { cpu with mem := fun a =>
    if DIGIT_SPRITES_ADDR ≤ a ∧ a < DIGIT_SPRITES_ADDR + digit_sprites.length
    then digit_sprites.getD (a - DIGIT_SPRITES_ADDR) 0 else cpu.mem a }
  { cpu with i := 0, dt := 0, st := 0, sp := 0, pc := BASE_ADDR, keys := 0,
             wait_key := 0, key_vx := 0 }

/-- Function `cpu_init`; `seeded` is the output stream of libc `rand()` after
`srand(1234)`. -/
def cpu_init (cpu : Chip8) (seeded : Nat → Nat) : Chip8 :=
  let cpu := { cpu with mem := memset0 cpu.mem 0xfff }
  let cpu := cpu_reset cpu
  { cpu with rand_out := seeded }

/-- Function `cpu_get_pixel` on non-negative coordinates. -/
def cpu_get_pixel (cpu : Chip8) (x y : Nat) : Nat :=
  let x := x % 64
  let y := y % 32
  let target_byte := (y * 8) + (x / 8)
  let value_mask := (128 >>> (x % 8)) % 256
  let result := cpu.disp target_byte &&& value_mask
  result

/-- Function `cpu_set_key_state`; `~(1 << key)` is a 32-bit `int`. -/
def cpu_set_key_state (cpu : Chip8) (key state : Nat) : Except Fault Chip8 :=
  if key ≥ 0x0 ∧ key ≤ 0xf then
    if state ≠ 0 then
      let cpu := { cpu with keys := (cpu.keys ||| (1 <<< key)) % 65536 }
      if cpu.wait_key ≠ 0 then
        let cpu := { cpu with v := upd cpu.v cpu.key_vx key }
        .ok { cpu with wait_key := 0 }
      else .ok cpu
    else
      .ok { cpu with keys := (cpu.keys &&& (0xFFFFFFFF ^^^ (1 <<< key))) % 65536 }
  else .error .AssertFailed

/-- A machine with all fields zero and the program counter at `BASE_ADDR`;
the starting point of the concrete runs below. -/
def blank : Chip8 :=
  { mem := fun _ => 0, v := fun _ => 0, i := 0, dt := 0, st := 0, sp := 0,
    stack := fun _ => 0, pc := BASE_ADDR, keys := 0, disp := fun _ => 0,
    wait_key := 0, key_vx := 0, rand_out := fun _ => 0 }

/-- The machine `cpu` with the bytes `prog` placed at `BASE_ADDR`. -/
def with_program (cpu : Chip8) (prog : List Nat) : Chip8 :=
  { cpu with mem := fun a =>
      if BASE_ADDR ≤ a ∧ a < BASE_ADDR + prog.length then prog.getD (a - BASE_ADDR) 0
      else cpu.mem a }

/-- The machine `cpu` with every register holding `val`. -/
def with_regs (cpu : Chip8) (val : Nat → Nat) : Chip8 :=
  { cpu with v := val }

/-- Run `cpu_cycle` `n` times, stopping at the first fault. -/
def cycles : Nat → Chip8 → Except Fault Chip8
  | 0, cpu => .ok cpu
  | n + 1, cpu =>
    match cpu_cycle cpu with
    | .ok cpu1 => cycles n cpu1
    | .error e => .error e

/-! ## Concrete machines and specification-side definitions -/

/-- Every register holds 1 and the program is the single word `8F04`. -/
def c1_state : Chip8 := with_program (with_regs blank (fun _ => 1)) [0x8F, 0x04]

/-- Registers 1 and 2 hold 200 and 100; the program is the single word `8124`. -/
def add_state : Chip8 :=
  with_program (with_regs blank (fun r => if r = 1 then 200 else if r = 2 then 100 else 0))
    [0x81, 0x24]

/-- Registers 1 and 2 hold 5 and 9; the program is the single word `8125`. -/
def sub_state : Chip8 :=
  with_program (with_regs blank (fun r => if r = 1 then 5 else if r = 2 then 9 else 0))
    [0x81, 0x25]

/-- Registers 1 and 2 hold 5 and 9; the program is the single word `8127`. -/
def subn_state : Chip8 :=
  with_program (with_regs blank (fun r => if r = 1 then 5 else if r = 2 then 9 else 0))
    [0x81, 0x27]

/-- Registers 1 and 2 hold 0x81 and 0xC3; the program is the single word `8126`. -/
def shr_state : Chip8 :=
  with_program (with_regs blank (fun r => if r = 1 then 0x81 else if r = 2 then 0xC3 else 0))
    [0x81, 0x26]

/-- Registers 1 and 2 hold 0x81 and 0xC3; the program is the single word `812E`. -/
def shl_state : Chip8 :=
  with_program (with_regs blank (fun r => if r = 1 then 0x81 else if r = 2 then 0xC3 else 0))
    [0x81, 0x2E]

/-- A reset machine whose program at `0x200` is `2200`: a call to itself, so
that every cycle is one more nested call. -/
def call_loop : Chip8 := cpu_reset (with_program blank [0x22, 0x00])

/-- A machine with an empty call stack whose program is `00EE`. -/
def ret_state : Chip8 := with_program blank [0x00, 0xEE]

/-- Whether the display pixel at column `x`, row `y` is lit, as `cpu_get_pixel`
reports it. -/
def pixel_on (cpu : Chip8) (x y : Nat) : Bool :=
  decide (cpu_get_pixel cpu x y ≠ 0)

/-- Whether the `n`-row sprite at `I`, drawn at (`v[x]`, `v[y]`) with
wraparound, has a set bit on display pixel (`c`, `r`). -/
def sprite_bit (s : Chip8) (x y n c r : Nat) : Bool :=
  (List.range n).any fun row => (List.range 8).any fun px =>
    decide ((s.v x + px) % 64 = c) && decide ((s.v y + row) % 32 = r) &&
      (s.mem (s.i + row)).testBit (7 - px)

/-- The loop positions (`row`, `px`) of `instr_dxyn` that lie before the
position (`k`, `j`). -/
def Drawn (k j row px : Nat) : Prop :=
  px < 8 ∧ (row < k ∨ (row = k ∧ px < j))

/-- Bit `b` of display byte `idx` is the target of a set sprite bit at one of
the loop positions in `D`. -/
def Hit (mem : Nat → Nat) (i sx sy : Nat) (D : Nat → Nat → Prop) (idx b : Nat) : Prop :=
  ∃ row px, D row px ∧ (mem (i + row)).testBit (7 - px) = true ∧
    ((sy + row) % 32) * 8 + ((sx + px) % 64) / 8 = idx ∧ 7 - ((sx + px) % 64) % 8 = b

/-- Loop invariant of `instr_dxyn`: `t` is the state reached from `s0` once the
loop positions in `D` are done. -/
structure DrawInv (s0 : Chip8) (sx sy : Nat) (D : Nat → Nat → Prop) (t : Chip8) : Prop where
  frame : { t with disp := s0.disp, v := s0.v } = s0
  regs : ∀ r, r ≠ 0xf → t.v r = s0.v r
  bits : ∀ idx b, ((t.disp idx).testBit b = !((s0.disp idx).testBit b)) ↔
    Hit s0.mem s0.i sx sy D idx b
  flag01 : t.v 0xf = 0 ∨ t.v 0xf = 1
  flag : t.v 0xf = 1 ↔
    ∃ idx b, Hit s0.mem s0.i sx sy D idx b ∧ (s0.disp idx).testBit b = true

/-- Whether some set bit of the `n`-row sprite at `I`, drawn at (`v[x]`,
`v[y]`) with wraparound, falls on a display pixel that is lit in `s`. -/
def sprite_collides (s : Chip8) (x y n : Nat) : Bool :=
  (List.range n).any fun row => (List.range 8).any fun px =>
    (s.mem (s.i + row)).testBit (7 - px) &&
      pixel_on s ((s.v x + px) % 64) ((s.v y + row) % 32)

/-- Registers 1 and 2 hold 60 and 30, `I` points at four sprite rows `FF`
stored after the program, which is the word `D124` twice; the display is
clear. -/
def draw_state : Chip8 :=
  { with_program (with_regs blank (fun r => if r = 1 then 60 else if r = 2 then 30 else 0))
      [0xD1, 0x24, 0xD1, 0x24, 0xFF, 0xFF, 0xFF, 0xFF] with i := 0x204 }

/-- The state after the first `D124` of `draw_state`. -/
def draw_once : Chip8 :=
  match cpu_cycle draw_state with
  | .ok t => t
  | .error _ => draw_state

/-- A machine stalled on a key, with some registers and timers set. -/
def stalled_state : Chip8 :=
  { with_program (with_regs blank (fun r => r + 1)) [0x81, 0x24] with
    wait_key := 1, key_vx := 3, dt := 7, st := 9 }

/-- The program is `F30A` followed by `6A55`. -/
def key_state : Chip8 := with_program blank [0xF3, 0x0A, 0x6A, 0x55]

/-! ## Program loading, reachability and the opcode table -/

/-- Function `cpu_load_rom`; `file` is the content of the file at `path`, all
of which arrives through the `fread` loop. -/
def cpu_load_rom (cpu : Chip8) (file : List Nat) : Except Fault Chip8 :=
  let fsize := file.length
  if fsize ≤ 0xfff - BASE_ADDR then
    let loaded : Nat → Nat := fun a =>
      if BASE_ADDR ≤ a ∧ a < BASE_ADDR + fsize then file.getD (a - BASE_ADDR) 0
      else cpu.mem a
    .ok { cpu with mem := loaded }
  else .error .LoadError

/-- The states reachable from `cpu_reset` by non-failing `cpu_cycle`,
`cpu_tick60hz` and `cpu_set_key_state` calls, with memory contents replaced
at will (which covers `cpu_load_rom`). -/
inductive Reachable : Chip8 → Prop where
  | reset (s : Chip8) : Reachable (cpu_reset s)
  | cycle {s s' : Chip8} : Reachable s → cpu_cycle s = .ok s' → Reachable s'
  | tick {s : Chip8} : Reachable s → Reachable (cpu_tick60hz s)
  | key {s s' : Chip8} (k d : Nat) : Reachable s → cpu_set_key_state s k d = .ok s' →
      Reachable s'
  | mem {s : Chip8} (m : Nat → Nat) : Reachable s → Reachable { s with mem := m }

/-- The next cycle of `cpu` stores inside `mem`: when the latch is clear and
the word fetched is `0xFx33` then `I + 2 < 4096`, and when it is `0xFx55` then
`I + x < 4096`. -/
def store_in_bounds (cpu : Chip8) : Prop :=
  cpu.wait_key = 0 →
    ((fetch cpu).1 / 0x1000 = 0xF ∧ (fetch cpu).1 % 0x100 = 0x33 → cpu.i + 2 < 4096) ∧
    ((fetch cpu).1 / 0x1000 = 0xF ∧ (fetch cpu).1 % 0x100 = 0x55 →
      cpu.i + (fetch cpu).1 / 0x100 % 0x10 < 4096)

/-- The states of `Reachable` that are reached by cycles whose `0xFx33` and
`0xFx55` stores all stay inside `mem`. -/
inductive ReachableIn : Chip8 → Prop where
  | reset (s : Chip8) : ReachableIn (cpu_reset s)
  | cycle {s s' : Chip8} : ReachableIn s → store_in_bounds s → cpu_cycle s = .ok s' →
      ReachableIn s'
  | tick {s : Chip8} : ReachableIn s → ReachableIn (cpu_tick60hz s)
  | key {s s' : Chip8} (k d : Nat) : ReachableIn s → cpu_set_key_state s k d = .ok s' →
      ReachableIn s'
  | mem {s : Chip8} (m : Nat → Nat) : ReachableIn s → ReachableIn { s with mem := m }

/-- A reset machine loaded with the program `AFFF 6015 F01E 60FF F055`: it
sets `I` to `0xFFF + 0x15 = 4116` and register 0 to `0xFF`, then stores
register 0 at `I`. -/
def oob_state : Chip8 :=
  with_program (cpu_reset blank) [0xAF, 0xFF, 0x60, 0x15, 0xF0, 0x1E, 0x60, 0xFF, 0xF0, 0x55]

/-- The row of the opcode table of the specification that the 16-bit word `w`
matches, given as the handler of that row, and `p_dummy` when no row matches.
The patterns are those of the table: the whole word for `00E0` and `00EE`,
the first nibble, the last nibble `N` and the low byte `kk`. -/
def table_row (w : Nat) : Instrp :=
  let n0 := w / 0x1000
  let N := w % 0x10
  let kk := w % 0x100
  if w = 0x00E0 then .p_00e0
  else if w = 0x00EE then .p_00ee
  else if n0 = 0x0 then .p_0nnn
  else if n0 = 0x1 then .p_1nnn
  else if n0 = 0x2 then .p_2nnn
  else if n0 = 0x3 then .p_3xkk
  else if n0 = 0x4 then .p_4xkk
  else if n0 = 0x5 then (if N = 0x0 then .p_5xy0 else .p_dummy)
  else if n0 = 0x6 then .p_6xkk
  else if n0 = 0x7 then .p_7xkk
  else if n0 = 0x8 then
    (if N = 0x0 then .p_8xy0 else if N = 0x1 then .p_8xy1 else if N = 0x2 then .p_8xy2
     else if N = 0x3 then .p_8xy3 else if N = 0x4 then .p_8xy4 else if N = 0x5 then .p_8xy5
     else if N = 0x6 then .p_8xy6 else if N = 0x7 then .p_8xy7 else if N = 0xE then .p_8xye
     else .p_dummy)
  else if n0 = 0x9 then (if N = 0x0 then .p_9xy0 else .p_dummy)
  else if n0 = 0xA then .p_annn
  else if n0 = 0xB then .p_bnnn
  else if n0 = 0xC then .p_cxkk
  else if n0 = 0xD then .p_dxyn
  else if n0 = 0xE then
    (if kk = 0x9E then .p_ex9e else if kk = 0xA1 then .p_exa1 else .p_dummy)
  else if n0 = 0xF then
    (if kk = 0x07 then .p_fx07 else if kk = 0x0A then .p_fx0a else if kk = 0x15 then .p_fx15
     else if kk = 0x18 then .p_fx18 else if kk = 0x1E then .p_fx1e
     else if kk = 0x29 then .p_fx29 else if kk = 0x33 then .p_fx33
     else if kk = 0x55 then .p_fx55 else if kk = 0x65 then .p_fx65 else .p_dummy)
  else .p_dummy

/-- The words that match no row of the opcode table. -/
def no_table_row (w : Nat) : Prop :=
  (w / 0x1000 = 0x5 ∧ w % 0x10 ≠ 0) ∨
  (w / 0x1000 = 0x8 ∧ (w % 0x10 = 0x8 ∨ w % 0x10 = 0x9 ∨ w % 0x10 = 0xA ∨ w % 0x10 = 0xB ∨
    w % 0x10 = 0xC ∨ w % 0x10 = 0xD ∨ w % 0x10 = 0xF)) ∨
  (w / 0x1000 = 0x9 ∧ w % 0x10 ≠ 0) ∨
  (w / 0x1000 = 0xE ∧ w % 0x100 ≠ 0x9E ∧ w % 0x100 ≠ 0xA1) ∨
  (w / 0x1000 = 0xF ∧ w % 0x100 ≠ 0x07 ∧ w % 0x100 ≠ 0x0A ∧ w % 0x100 ≠ 0x15 ∧
    w % 0x100 ≠ 0x18 ∧ w % 0x100 ≠ 0x1E ∧ w % 0x100 ≠ 0x29 ∧ w % 0x100 ≠ 0x33 ∧
    w % 0x100 ≠ 0x55 ∧ w % 0x100 ≠ 0x65)

/-- A machine stalled on register 3 while key `0xB` is already recorded as
down. -/
def held_state : Chip8 :=
  { blank with wait_key := 1, key_vx := 3, keys := 1 <<< 0xb }

/-- The program is the single word `5121`, which matches no table row. -/
def bad_opcode_state : Chip8 := with_program blank [0x51, 0x21]

/-- Register F and stack entry 15 are non-zero, everything else is as in
`blank`. -/
def dirty_state : Chip8 :=
  { blank with v := fun r => if r = 0xf then 1 else 0,
               stack := fun k => if k = 15 then 0x222 else 0 }

/-- The last memory byte, at `0xFFF`, holds `0xAB`. -/
def last_byte_state : Chip8 :=
  { blank with mem := fun a => if a = 0xFFF then 0xAB else 0 }

/-- Key 4 is down, register 1 holds 4 and the program is `E19E`. -/
def skp_state : Chip8 :=
  { with_program (with_regs blank (fun r => if r = 1 then 4 else 0)) [0xE1, 0x9E] with
    keys := 0x10 }

/-- Key 4 is down, register 1 holds 4 and the program is `E1A1`. -/
def sknp_state : Chip8 :=
  { with_program (with_regs blank (fun r => if r = 1 then 4 else 0)) [0xE1, 0xA1] with
    keys := 0x10 }

/-- An image of `n` bytes, each 7. -/
def image (n : Nat) : List Nat := List.replicate n 7

/-- What `cpu_load_rom` leaves in memory when it accepts the image. -/
def loaded_mem (cpu : Chip8) (file : List Nat) : Nat → Nat := fun a =>
  if BASE_ADDR ≤ a ∧ a < BASE_ADDR + file.length then file.getD (a - BASE_ADDR) 0
  else cpu.mem a

/-! ## Machines for the font, store, random and call examples -/

/-- A reset machine whose register 1 was then set to `0xF`; the program is the
single word `F129`. -/
def font_state : Chip8 :=
  { cpu_reset (with_program blank [0xF1, 0x29]) with v := fun r => if r = 1 then 0xF else 0 }

/-- Register 1 holds 234, `I` is `0x300` and the program is `F133`. -/
def bcd_state : Chip8 :=
  { with_program (with_regs blank (fun r => if r = 1 then 234 else 0)) [0xF1, 0x33] with
    i := 0x300 }

/-- Register `r` holds `r + 1`, `I` is `0x300` and the program is `F355`
followed by `F365`. -/
def save_state : Chip8 :=
  { with_program (with_regs blank (fun r => r + 1)) [0xF3, 0x55, 0xF3, 0x65] with i := 0x300 }

/-- The state after the `F355` of `save_state`. -/
def save_once : Chip8 :=
  match cpu_cycle save_state with
  | .ok t => t
  | .error _ => save_state

/-- The state `save_once` with every register overwritten by `0xEE`. -/
def clobbered_state : Chip8 := { save_once with v := fun _ => 0xEE }

/-- The next outputs of `rand()` are 509, 510, ...; the program is `C1FF`. -/
def rnd_state : Chip8 :=
  { with_program blank [0xC1, 0xFF] with rand_out := fun k => 509 + k }

/-- The program at `0x200` is `2300` (call `0x300`) and the word at `0x300` is
`00EE`. -/
def call_state : Chip8 :=
  { blank with mem := fun a =>
      if a = 0x200 then 0x23 else if a = 0x301 then 0xEE else 0 }

/-- Register F holds 200, register 2 holds 100, and the program is the word
`8F2n` with last nibble `n`. -/
def flag_state (n : Nat) : Chip8 :=
  with_program (with_regs blank (fun r => if r = 0xf then 200 else if r = 2 then 100 else 0))
    [0x8F, 0x20 + n]

/-- Function `cpu_get_pixel` with the machine state it leaves made explicit:
the function only reads `disp` through its pointer argument and writes
nothing. -/
def cpu_get_pixel_run (cpu : Chip8) (x y : Nat) : Nat × Chip8 :=
  (cpu_get_pixel cpu x y, cpu)

/-! ## Decoding lemmas -/

theorem opcode2nib_word (a b c d : Nat) (ha : a < 16) (hb : b < 16) (hc : c < 16)
    (hd : d < 16) :
    opcode2nib (0x1000 * a + 0x100 * b + 0x10 * c + d) 0 = .ok a ∧
    opcode2nib (0x1000 * a + 0x100 * b + 0x10 * c + d) 1 = .ok b ∧
    opcode2nib (0x1000 * a + 0x100 * b + 0x10 * c + d) 2 = .ok c ∧
    opcode2nib (0x1000 * a + 0x100 * b + 0x10 * c + d) 3 = .ok d := by
  have h15 : (0xf : Nat) = 2 ^ 4 - 1 := by norm_num
  refine ⟨?_, ?_, ?_, ?_⟩ <;>
  · simp only [opcode2nib]
    rw [h15, Nat.and_pow_two_sub_one_eq_mod, Nat.shiftRight_eq_div_pow]
    norm_num
    omega

/-- A cycle with the latch clear that fetches the word `abcd` calls the
handler selected by `decode_nibs` on the post-fetch state. -/
theorem cpu_cycle_word (s : Chip8) (a b c d : Nat) (ha : a < 16) (hb : b < 16)
    (hc : c < 16) (hd : d < 16) (hw : s.wait_key = 0)
    (hop : (fetch s).1 = 0x1000 * a + 0x100 * b + 0x10 * c + d) :
    cpu_cycle s = (decode_nibs a b c d).call (fetch s).2 b c d := by
  obtain ⟨h0, h1, h2, h3⟩ := opcode2nib_word a b c d ha hb hc hd
  simp only [cpu_cycle, hw, ne_eq, not_true_eq_false, if_false, hop, decode, execute,
    h0, h1, h2, h3]
  rfl

/-! ## Arithmetic instructions -/

theorem and_0xff (t : Nat) : t &&& 0xff = t % 256 := by
  have h : (0xff : Nat) = 2 ^ 8 - 1 := by norm_num
  rw [h, Nat.and_pow_two_sub_one_eq_mod]

theorem and_0xff00_eq_zero (t : Nat) (ht : t < 65536) : t &&& 0xff00 = 0 ↔ t < 256 := by
  constructor
  · intro h
    by_contra hge
    have hb : ∃ k, 8 ≤ k ∧ k < 16 ∧ t.testBit k = true := by
      by_contra hno
      have hlt : t < 2 ^ 8 := by
        apply Nat.lt_pow_two_of_testBit
        intro k hk
        by_cases hk16 : k < 16
        · by_contra hbit
          exact hno ⟨k, hk, hk16, by simpa using hbit⟩
        · exact Nat.testBit_lt_two_pow
            (lt_of_lt_of_le ht (Nat.pow_le_pow_right (by norm_num : 0 < 2) (by omega : 16 ≤ k)))
      omega
    obtain ⟨k, hk8, hk16, hbit⟩ := hb
    have hz : (t &&& 0xff00).testBit k = false := by rw [h]; simp
    rw [Nat.testBit_and, hbit] at hz
    have hm : Nat.testBit 0xff00 k = true := by
      interval_cases k <;> decide
    rw [hm] at hz
    simp at hz
  · intro h
    apply Nat.eq_of_testBit_eq
    intro k
    rw [Nat.testBit_and]
    by_cases hk : k < 8
    · have hm : Nat.testBit 0xff00 k = false := by
        interval_cases k <;> decide
      simp [hm]
    · have ht0 : t.testBit k = false :=
        Nat.testBit_lt_two_pow
          (lt_of_lt_of_le h (Nat.pow_le_pow_right (by norm_num : 0 < 2) (by omega : 8 ≤ k)))
      simp [ht0]

/-- Claim C1 as stated fails for `x = 0xF`: with every register holding 1, the
cycle executing `8F04` leaves 0 (the carry) in register F, which is register
`x`, where the claim asks for `(1 + 1) mod 256 = 2`. -/
theorem c1_dest_F_counterexample :
    ∃ s', cpu_cycle c1_state = .ok s' ∧ s'.v 0xf = 0 ∧
      (c1_state.v 0xf + c1_state.v 0x0) % 256 = 2 :=
  ⟨_, rfl, rfl, rfl⟩

/-- Claim C1, amended: for all register indices `x`, `y` and 8-bit register
contents `a = v[x]`, `b = v[y]`, the cycle that executes `0x8xy4` succeeds and
leaves register F equal to 1 if `a + b > 255` and 0 otherwise; when `x` is not
`0xF`, register `x` holds `(a + b) mod 256`. -/
theorem c1_add_carry (s : Chip8) (x y : Nat) (hx : x < 16) (hy : y < 16)
    (hw : s.wait_key = 0) (ha : s.v x < 256) (hb : s.v y < 256)
    (hop : (fetch s).1 = 0x8004 + 0x100 * x + 0x10 * y) :
    ∃ s', cpu_cycle s = .ok s' ∧
      s'.v 0xf = (if s.v x + s.v y > 255 then 1 else 0) ∧
      (x ≠ 0xf → s'.v x = (s.v x + s.v y) % 256) := by
  have hop' : (fetch s).1 = 0x1000 * 8 + 0x100 * x + 0x10 * y + 4 := by rw [hop]; omega
  rw [cpu_cycle_word s 8 x y 4 (by norm_num) hx hy (by norm_num) hw hop']
  have hsum : (s.v x + s.v y) % 65536 = s.v x + s.v y := Nat.mod_eq_of_lt (by omega)
  refine ⟨_, rfl, ?_, ?_⟩
  · simp only [fetch, upd, if_true, hsum]
    by_cases hc : s.v x + s.v y > 255
    · have : ¬ ((s.v x + s.v y) &&& 0xff00 = 0) := by
        rw [and_0xff00_eq_zero _ (by omega)]; omega
      simp [hc, this]
    · have : (s.v x + s.v y) &&& 0xff00 = 0 := by
        rw [and_0xff00_eq_zero _ (by omega)]; omega
      simp [hc, this]
  · intro hxf
    simp only [fetch, upd, hsum, hxf, if_false, if_true, and_0xff]

theorem c1_add_carry_witness :
    ∃ s', cpu_cycle add_state = .ok s' ∧
      s'.v 0xf = (if add_state.v 1 + add_state.v 2 > 255 then 1 else 0) ∧
      (1 ≠ 0xf → s'.v 1 = (add_state.v 1 + add_state.v 2) % 256) :=
  c1_add_carry add_state 1 2 (by decide) (by decide) rfl (by decide) (by decide) rfl

/-- Claim C2: for `x` other than `0xF` and `a = v[x]`, `b = v[y]` read before
the instruction, `0x8xy5` sets register F to 1 iff `a >= b` and register `x`
to `(a - b) mod 256`; `0x8xy7` sets register F to 1 iff `b >= a` and register
`x` to `(b - a) mod 256`.  The flag is computed from the old values. -/
theorem c2_sub_borrow (s : Chip8) (x y : Nat) (hx : x < 16) (hxf : x ≠ 0xf) (hy : y < 16)
    (hw : s.wait_key = 0) :
    ((fetch s).1 = 0x8005 + 0x100 * x + 0x10 * y →
      ∃ s', cpu_cycle s = .ok s' ∧
        s'.v 0xf = (if s.v x ≥ s.v y then 1 else 0) ∧
        (s'.v x : Int) = ((s.v x : Int) - (s.v y : Int)) % 256) ∧
    ((fetch s).1 = 0x8007 + 0x100 * x + 0x10 * y →
      ∃ s', cpu_cycle s = .ok s' ∧
        s'.v 0xf = (if s.v y ≥ s.v x then 1 else 0) ∧
        (s'.v x : Int) = ((s.v y : Int) - (s.v x : Int)) % 256) := by
  constructor
  · intro hop
    have hop' : (fetch s).1 = 0x1000 * 8 + 0x100 * x + 0x10 * y + 5 := by rw [hop]; omega
    rw [cpu_cycle_word s 8 x y 5 (by norm_num) hx hy (by norm_num) hw hop']
    refine ⟨_, rfl, ?_, ?_⟩
    · simp [fetch, write_with_carry, upd]
    · simp only [fetch, write_with_carry, upd, hxf, if_false, if_true]
      exact Int.toNat_of_nonneg (Int.emod_nonneg _ (by norm_num))
  · intro hop
    have hop' : (fetch s).1 = 0x1000 * 8 + 0x100 * x + 0x10 * y + 7 := by rw [hop]; omega
    rw [cpu_cycle_word s 8 x y 7 (by norm_num) hx hy (by norm_num) hw hop']
    refine ⟨_, rfl, ?_, ?_⟩
    · simp [fetch, write_with_carry, upd]
    · simp only [fetch, write_with_carry, upd, hxf, if_false, if_true]
      exact Int.toNat_of_nonneg (Int.emod_nonneg _ (by norm_num))

theorem c2_sub_borrow_witness :
    (∃ s', cpu_cycle sub_state = .ok s' ∧
        s'.v 0xf = (if sub_state.v 1 ≥ sub_state.v 2 then 1 else 0) ∧
        (s'.v 1 : Int) = ((sub_state.v 1 : Int) - (sub_state.v 2 : Int)) % 256) ∧
    (∃ s', cpu_cycle subn_state = .ok s' ∧
        s'.v 0xf = (if subn_state.v 2 ≥ subn_state.v 1 then 1 else 0) ∧
        (s'.v 1 : Int) = ((subn_state.v 2 : Int) - (subn_state.v 1 : Int)) % 256) :=
  ⟨(c2_sub_borrow sub_state 1 2 (by decide) (by decide) (by decide) rfl).1 rfl,
   (c2_sub_borrow subn_state 1 2 (by decide) (by decide) (by decide) rfl).2 rfl⟩

theorem write_with_carry_flag (cpu : Chip8) (dest val carry : Nat) :
    (write_with_carry cpu dest val carry).v 0xf = carry := by
  simp [write_with_carry, upd]

theorem write_with_carry_dest (cpu : Chip8) (dest val carry : Nat) (h : dest ≠ 0xf) :
    (write_with_carry cpu dest val carry).v dest = val := by
  simp [write_with_carry, upd, h]

/-- Claim C3: for `x` other than `0xF` and every `y`, `0x8xy6` sets register F
to bit 0 of the old register `x` and register `x` to the old register `x`
shifted right by one, and any other run of `0x8xy'6` whose register `x` holds
the same value gives the same two results whatever `y'` and register `y'` are;
`0x8xyE` sets register F to bit 7 of the old register `y` and register `x` to
the old register `y` shifted left by one modulo 256, and any other run of
`0x8xyE` whose register `y` holds the same value gives the same two results
whatever register `x` held. -/
theorem c3_shift_asymmetry (s : Chip8) (x y : Nat) (hx : x < 16) (hxf : x ≠ 0xf)
    (hy : y < 16) (hw : s.wait_key = 0) :
    ((fetch s).1 = 0x8006 + 0x100 * x + 0x10 * y → s.v x < 256 →
      ∃ s', cpu_cycle s = .ok s' ∧
        s'.v 0xf = s.v x % 2 ∧ s'.v x = s.v x >>> 1 ∧
        ∀ (s2 : Chip8) (y2 : Nat), y2 < 16 → s2.wait_key = 0 →
          (fetch s2).1 = 0x8006 + 0x100 * x + 0x10 * y2 → s2.v x = s.v x →
          ∃ s2', cpu_cycle s2 = .ok s2' ∧ s2'.v 0xf = s'.v 0xf ∧ s2'.v x = s'.v x) ∧
    ((fetch s).1 = 0x800E + 0x100 * x + 0x10 * y →
      ∃ s', cpu_cycle s = .ok s' ∧
        s'.v 0xf = (s.v y / 2 ^ 7) % 2 ∧ s'.v x = (s.v y <<< 1) % 256 ∧
        ∀ (s2 : Chip8), s2.wait_key = 0 →
          (fetch s2).1 = 0x800E + 0x100 * x + 0x10 * y → s2.v y = s.v y →
          ∃ s2', cpu_cycle s2 = .ok s2' ∧ s2'.v 0xf = s'.v 0xf ∧ s2'.v x = s'.v x) := by
  constructor
  · intro hop ha
    have hop' : (fetch s).1 = 0x1000 * 8 + 0x100 * x + 0x10 * y + 6 := by rw [hop]; omega
    rw [cpu_cycle_word s 8 x y 6 (by norm_num) hx hy (by norm_num) hw hop']
    have hsh : (s.v x >>> 1) % 256 = s.v x >>> 1 := by
      rw [Nat.shiftRight_eq_div_pow]; apply Nat.mod_eq_of_lt; omega
    have hbit : (s.v x &&& 1) % 256 = s.v x % 2 := by
      rw [Nat.and_one_is_mod]; apply Nat.mod_eq_of_lt; omega
    have hF : (write_with_carry (fetch s).2 x ((s.v x >>> 1) % 256) ((s.v x &&& 1) % 256)).v 0xf
        = s.v x % 2 := by rw [write_with_carry_flag, hbit]
    have hX : (write_with_carry (fetch s).2 x ((s.v x >>> 1) % 256) ((s.v x &&& 1) % 256)).v x
        = s.v x >>> 1 := by rw [write_with_carry_dest _ _ _ _ hxf, hsh]
    refine ⟨_, rfl, hF, hX, ?_⟩
    intro s2 y2 hy2 hw2 hop2 heq
    have hop2' : (fetch s2).1 = 0x1000 * 8 + 0x100 * x + 0x10 * y2 + 6 := by
      rw [hop2]; omega
    rw [cpu_cycle_word s2 8 x y2 6 (by norm_num) hx hy2 (by norm_num) hw2 hop2']
    refine ⟨_, rfl, ?_, ?_⟩
    · show (write_with_carry (fetch s2).2 x ((s2.v x >>> 1) % 256) ((s2.v x &&& 1) % 256)).v 0xf
        = (write_with_carry (fetch s).2 x ((s.v x >>> 1) % 256) ((s.v x &&& 1) % 256)).v 0xf
      rw [write_with_carry_flag, write_with_carry_flag, heq]
    · show (write_with_carry (fetch s2).2 x ((s2.v x >>> 1) % 256) ((s2.v x &&& 1) % 256)).v x
        = (write_with_carry (fetch s).2 x ((s.v x >>> 1) % 256) ((s.v x &&& 1) % 256)).v x
      rw [write_with_carry_dest _ _ _ _ hxf, write_with_carry_dest _ _ _ _ hxf, heq]
  · intro hop
    have hop' : (fetch s).1 = 0x1000 * 8 + 0x100 * x + 0x10 * y + 0xe := by rw [hop]; omega
    rw [cpu_cycle_word s 8 x y 0xe (by norm_num) hx hy (by norm_num) hw hop']
    have hbit : ((s.v y >>> 7) &&& 1) % 256 = (s.v y / 2 ^ 7) % 2 := by
      rw [Nat.and_one_is_mod, Nat.shiftRight_eq_div_pow]; apply Nat.mod_eq_of_lt; omega
    have hF : (write_with_carry (fetch s).2 x ((s.v y <<< 1) % 256)
        (((s.v y >>> 7) &&& 1) % 256)).v 0xf = (s.v y / 2 ^ 7) % 2 := by
      rw [write_with_carry_flag, hbit]
    have hX : (write_with_carry (fetch s).2 x ((s.v y <<< 1) % 256)
        (((s.v y >>> 7) &&& 1) % 256)).v x = (s.v y <<< 1) % 256 := by
      rw [write_with_carry_dest _ _ _ _ hxf]
    refine ⟨_, rfl, hF, hX, ?_⟩
    intro s2 hw2 hop2 heq
    have hop2' : (fetch s2).1 = 0x1000 * 8 + 0x100 * x + 0x10 * y + 0xe := by
      rw [hop2]; omega
    rw [cpu_cycle_word s2 8 x y 0xe (by norm_num) hx hy (by norm_num) hw2 hop2']
    refine ⟨_, rfl, ?_, ?_⟩
    · show (write_with_carry (fetch s2).2 x ((s2.v y <<< 1) % 256)
          (((s2.v y >>> 7) &&& 1) % 256)).v 0xf
        = (write_with_carry (fetch s).2 x ((s.v y <<< 1) % 256)
          (((s.v y >>> 7) &&& 1) % 256)).v 0xf
      rw [write_with_carry_flag, write_with_carry_flag, heq]
    · show (write_with_carry (fetch s2).2 x ((s2.v y <<< 1) % 256)
          (((s2.v y >>> 7) &&& 1) % 256)).v x
        = (write_with_carry (fetch s).2 x ((s.v y <<< 1) % 256)
          (((s.v y >>> 7) &&& 1) % 256)).v x
      rw [write_with_carry_dest _ _ _ _ hxf, write_with_carry_dest _ _ _ _ hxf, heq]

theorem c3_shift_asymmetry_witness :
    (∃ s', cpu_cycle shr_state = .ok s' ∧
        s'.v 0xf = shr_state.v 1 % 2 ∧ s'.v 1 = shr_state.v 1 >>> 1 ∧
        ∀ (s2 : Chip8) (y2 : Nat), y2 < 16 → s2.wait_key = 0 →
          (fetch s2).1 = 0x8006 + 0x100 * 1 + 0x10 * y2 → s2.v 1 = shr_state.v 1 →
          ∃ s2', cpu_cycle s2 = .ok s2' ∧ s2'.v 0xf = s'.v 0xf ∧ s2'.v 1 = s'.v 1) ∧
    (∃ s', cpu_cycle shl_state = .ok s' ∧
        s'.v 0xf = (shl_state.v 2 / 2 ^ 7) % 2 ∧ s'.v 1 = (shl_state.v 2 <<< 1) % 256 ∧
        ∀ (s2 : Chip8), s2.wait_key = 0 →
          (fetch s2).1 = 0x800E + 0x100 * 1 + 0x10 * 2 → s2.v 2 = shl_state.v 2 →
          ∃ s2', cpu_cycle s2 = .ok s2' ∧ s2'.v 0xf = s'.v 0xf ∧ s2'.v 1 = s'.v 1) :=
  ⟨(c3_shift_asymmetry shr_state 1 2 (by decide) (by decide) (by decide) rfl).1 rfl
      (by decide),
   (c3_shift_asymmetry shl_state 1 2 (by decide) (by decide) (by decide) rfl).2 rfl⟩

/-! ## Call stack -/

/-- Claim C4 on the code: from a reset machine, fifteen nested `0x2nnn` calls
succeed, each pushing the post-fetch program counter (here `0x202`), and leave
the stack pointer at 15; the sixteenth nested call already aborts with the
stack-overflow assertion of `instr_2nnn` (`sp < 0xf`), where the claim has it
succeed. -/
theorem c4_sixteenth_call_aborts :
    (∃ s', cycles 15 call_loop = .ok s' ∧ s'.sp = 15 ∧ s'.pc = 0x200 ∧
      s'.stack 0 = 0x202 ∧ s'.stack 14 = 0x202) ∧
    cycles 16 call_loop = .error .StackOverflow :=
  ⟨⟨_, rfl, rfl, rfl, rfl, rfl⟩, rfl⟩

/-- Claim C5: in every state whose stack pointer is 0, executing `0x00EE`
aborts with a stack underflow: the cycle fetching `00EE` returns the fault and
no state (so neither the stack pointer nor the program counter is changed
from the stack), and so does the handler itself whatever its arguments. -/
theorem c5_ret_on_empty_stack (s : Chip8) (hsp : s.sp = 0) :
    (s.wait_key = 0 → (fetch s).1 = 0x00EE → cpu_cycle s = .error .StackUnderflow) ∧
    ∀ a b c, instr_00ee s a b c = .error .StackUnderflow := by
  constructor
  · intro hw hop
    have hop' : (fetch s).1 = 0x1000 * 0 + 0x100 * 0 + 0x10 * 0xe + 0xe := by rw [hop]
    rw [cpu_cycle_word s 0 0 0xe 0xe (by norm_num) (by norm_num) (by norm_num)
      (by norm_num) hw hop']
    show instr_00ee (fetch s).2 0 0xe 0xe = _
    have h : (fetch s).2.sp = 0 := hsp
    simp [instr_00ee, h]
  · intro a b c
    simp [instr_00ee, hsp]

theorem c5_ret_on_empty_stack_witness :
    cpu_cycle ret_state = .error .StackUnderflow ∧
    ∀ a b c, instr_00ee ret_state a b c = .error .StackUnderflow :=
  ⟨(c5_ret_on_empty_stack ret_state rfl).1 rfl rfl,
   (c5_ret_on_empty_stack ret_state rfl).2⟩

/-! ## Drawing -/

theorem mask_eq_two_pow (k : Nat) (hk : k < 8) : (128 >>> k) % 256 = 2 ^ (7 - k) := by
  interval_cases k <;> rfl

theorem sprite_test (sr px : Nat) (hpx : px < 8) :
    sr &&& (128 >>> px) ≠ 0 ↔ sr.testBit (7 - px) = true := by
  have h : (128 >>> px) = 2 ^ (7 - px) := by interval_cases px <;> rfl
  rw [h, Nat.and_two_pow]
  cases hb : sr.testBit (7 - px) <;> simp

theorem xor_mask_and_mask (d j : Nat) :
    (d ^^^ 2 ^ j) &&& 2 ^ j = 0 ↔ d.testBit j = true := by
  rw [Nat.and_two_pow, Nat.testBit_xor, Nat.testBit_two_pow]
  cases hb : d.testBit j <;> simp

/-- One step of the inner loop of `instr_dxyn`, in closed form. -/
theorem dxyn_px_eq (sx sy row sr px : Nat) (t : Chip8) (hpx : px < 8) :
    dxyn_px sx sy row sr t px =
      if sr.testBit (7 - px) = true then
        { t with
          disp := upd t.disp (((sy + row) % 32) * 8 + ((sx + px) % 64) / 8)
            (t.disp (((sy + row) % 32) * 8 + ((sx + px) % 64) / 8)
              ^^^ 2 ^ (7 - ((sx + px) % 64) % 8)),
          v := if (t.disp (((sy + row) % 32) * 8 + ((sx + px) % 64) / 8)).testBit
                (7 - ((sx + px) % 64) % 8) = true then upd t.v 0xf 1 else t.v }
      else t := by
  have hk : ((sx + px) % 64) % 8 < 8 := Nat.mod_lt _ (by norm_num)
  by_cases hb : sr.testBit (7 - px) = true
  · have hne : sr &&& (128 >>> px) ≠ 0 := (sprite_test sr px hpx).2 hb
    simp only [dxyn_px, hne, ne_eq, not_false_eq_true, if_true, xor_pixel, hb,
      mask_eq_two_pow _ hk]
    simp only [upd, if_true]
    by_cases hd : (t.disp (((sy + row) % 32) * 8 + ((sx + px) % 64) / 8)).testBit
        (7 - ((sx + px) % 64) % 8) = true
    · have h0 := (xor_mask_and_mask _ _).2 hd
      simp only [h0, hd, if_true]
    · have h0 : ¬ ((t.disp (((sy + row) % 32) * 8 + ((sx + px) % 64) / 8)
          ^^^ 2 ^ (7 - ((sx + px) % 64) % 8)) &&& 2 ^ (7 - ((sx + px) % 64) % 8) = 0) :=
        fun h => hd ((xor_mask_and_mask _ _).1 h)
      simp only [h0, hd, if_false, Bool.false_eq_true]
  · have hne : ¬ (sr &&& (128 >>> px) ≠ 0) := fun h => hb ((sprite_test sr px hpx).1 h)
    simp only [dxyn_px, hne, hb, if_false, Bool.false_eq_true]

theorem bool_ne_not (A B : Bool) : ¬ (A = !B) ↔ A = B := by
  cases A <;> cases B <;> simp

theorem hit_insert (mem : Nat → Nat) (i sx sy row px : Nat) (D : Nat → Nat → Prop)
    (idx b : Nat) :
    Hit mem i sx sy (fun r p => D r p ∨ (r = row ∧ p = px)) idx b ↔
      Hit mem i sx sy D idx b ∨
        ((mem (i + row)).testBit (7 - px) = true ∧
          ((sy + row) % 32) * 8 + ((sx + px) % 64) / 8 = idx ∧
          7 - ((sx + px) % 64) % 8 = b) := by
  constructor
  · rintro ⟨r, p, hd | ⟨hr, hp⟩, hbit, h1, h2⟩
    · exact Or.inl ⟨r, p, hd, hbit, h1, h2⟩
    · subst hr; subst hp; exact Or.inr ⟨hbit, h1, h2⟩
  · rintro (⟨r, p, hd, hbit, h1, h2⟩ | ⟨hbit, h1, h2⟩)
    · exact ⟨r, p, Or.inl hd, hbit, h1, h2⟩
    · exact ⟨row, px, Or.inr ⟨rfl, rfl⟩, hbit, h1, h2⟩

/-- The invariant is kept by one step of the inner loop. -/
theorem dxyn_px_inv (s0 t : Chip8) (sx sy row px : Nat) (D : Nat → Nat → Prop)
    (hrow : row < 16) (hpx : px < 8)
    (hD : ∀ r p, D r p → r < 16 ∧ p < 8 ∧ ¬ (r = row ∧ p = px))
    (inv : DrawInv s0 sx sy D t) :
    DrawInv s0 sx sy (fun r p => D r p ∨ (r = row ∧ p = px))
      (dxyn_px sx sy row (s0.mem (s0.i + row)) t px) := by
  rw [dxyn_px_eq _ _ _ _ _ _ hpx]
  by_cases hb : (s0.mem (s0.i + row)).testBit (7 - px) = true
  · rw [if_pos hb]
    have fresh : ¬ Hit s0.mem s0.i sx sy D (((sy + row) % 32) * 8 + ((sx + px) % 64) / 8)
        (7 - ((sx + px) % 64) % 8) := by
      rintro ⟨r, p, hd, _, h1, h2⟩
      obtain ⟨hr, hp, hne⟩ := hD r p hd
      apply hne
      omega
    have old : (t.disp (((sy + row) % 32) * 8 + ((sx + px) % 64) / 8)).testBit
          (7 - ((sx + px) % 64) % 8)
        = (s0.disp (((sy + row) % 32) * 8 + ((sx + px) % 64) / 8)).testBit
          (7 - ((sx + px) % 64) % 8) :=
      (bool_ne_not _ _).1 (fun h => fresh ((inv.bits _ _).1 h))
    refine ⟨inv.frame, ?_, ?_, ?_, ?_⟩
    · intro r hr
      show (if _ then upd t.v 0xf 1 else t.v) r = s0.v r
      split
      · simp only [upd, hr, if_false]; exact inv.regs r hr
      · exact inv.regs r hr
    · intro idx b
      rw [hit_insert]
      show ((upd t.disp _ _ idx).testBit b = _) ↔ _
      by_cases hi : idx = ((sy + row) % 32) * 8 + ((sx + px) % 64) / 8
      · simp only [upd, hi, if_true]
        rw [Nat.testBit_xor, Nat.testBit_two_pow]
        by_cases hbk : 7 - ((sx + px) % 64) % 8 = b
        · subst hbk
          rw [old]
          simp [hb]
        · have := inv.bits (((sy + row) % 32) * 8 + ((sx + px) % 64) / 8) b
          simp [hbk, this]
      · have := inv.bits idx b
        have hi' : ¬ (((sy + row) % 32) * 8 + ((sx + px) % 64) / 8 = idx) := fun h => hi h.symm
        simp only [upd, hi, if_false, this, hi', false_and, and_false, or_false]
    · show (if _ then upd t.v 0xf 1 else t.v) 0xf = 0 ∨ (if _ then upd t.v 0xf 1 else t.v) 0xf = 1
      split
      · right; simp [upd]
      · exact inv.flag01
    · show (if _ then upd t.v 0xf 1 else t.v) 0xf = 1 ↔ _
      by_cases hd : (t.disp (((sy + row) % 32) * 8 + ((sx + px) % 64) / 8)).testBit
          (7 - ((sx + px) % 64) % 8) = true
      · rw [if_pos hd]
        constructor
        · intro _
          exact ⟨_, _, (hit_insert _ _ _ _ _ _ _ _ _).2 (Or.inr ⟨hb, rfl, rfl⟩), old ▸ hd⟩
        · intro _
          simp [upd]
      · rw [if_neg hd, inv.flag]
        constructor
        · rintro ⟨idx, b, hit, hs⟩
          exact ⟨idx, b, (hit_insert _ _ _ _ _ _ _ _ _).2 (Or.inl hit), hs⟩
        · rintro ⟨idx, b, hit, hs⟩
          rcases (hit_insert _ _ _ _ _ _ _ _ _).1 hit with h | ⟨_, h1, h2⟩
          · exact ⟨idx, b, h, hs⟩
          · subst h1; subst h2
            exact absurd (old.trans hs) hd
  · rw [if_neg hb]
    have hsame : ∀ idx b, Hit s0.mem s0.i sx sy (fun r p => D r p ∨ (r = row ∧ p = px)) idx b ↔
        Hit s0.mem s0.i sx sy D idx b := by
      intro idx b
      rw [hit_insert]
      constructor
      · rintro (h | ⟨h, _, _⟩)
        · exact h
        · exact absurd h hb
      · exact Or.inl
    refine ⟨inv.frame, inv.regs, ?_, inv.flag01, ?_⟩
    · intro idx b
      rw [hsame]
      exact inv.bits idx b
    · rw [inv.flag]
      constructor
      · rintro ⟨idx, b, hit, hs⟩
        exact ⟨idx, b, (hsame idx b).2 hit, hs⟩
      · rintro ⟨idx, b, hit, hs⟩
        exact ⟨idx, b, (hsame idx b).1 hit, hs⟩

theorem foldl_range_succ {σ : Type} (f : σ → Nat → σ) (t : σ) (j : Nat) :
    (List.range (j + 1)).foldl f t = f ((List.range j).foldl f t) j := by
  rw [List.range_succ, List.foldl_append]
  rfl

theorem drawn_succ (k j : Nat) (hj : j < 8) :
    (fun r p => Drawn k j r p ∨ (r = k ∧ p = j)) = Drawn k (j + 1) := by
  funext r p
  apply propext
  unfold Drawn
  omega

theorem drawn_row_done (k : Nat) : Drawn k 8 = Drawn (k + 1) 0 := by
  funext r p
  apply propext
  unfold Drawn
  omega

/-- The invariant is kept by one pass of the outer loop. -/
theorem dxyn_row_inv (s0 t : Chip8) (sx sy k : Nat) (hk : k < 16)
    (inv : DrawInv s0 sx sy (Drawn k 0) t) :
    DrawInv s0 sx sy (Drawn (k + 1) 0) (dxyn_row sx sy t k) := by
  have hmem : t.mem = s0.mem := by have h := congrArg Chip8.mem inv.frame; exact h
  have hi : t.i = s0.i := by have h := congrArg Chip8.i inv.frame; exact h
  have aux : ∀ j, j ≤ 8 → DrawInv s0 sx sy (Drawn k j)
      ((List.range j).foldl (dxyn_px sx sy k (s0.mem (s0.i + k))) t) := by
    intro j
    induction j with
    | zero => intro _; exact inv
    | succ j ih =>
      intro hj
      rw [foldl_range_succ, ← drawn_succ k j (by omega)]
      apply dxyn_px_inv s0 _ sx sy k j (Drawn k j) hk (by omega) _ (ih (by omega))
      intro r p hd
      unfold Drawn at hd
      omega
  have h8 := aux 8 (le_refl 8)
  rw [drawn_row_done] at h8
  simp only [dxyn_row, hmem, hi]
  exact h8

theorem drawinv_init (s0 : Chip8) (sx sy : Nat) :
    DrawInv s0 sx sy (Drawn 0 0) { s0 with v := upd s0.v 0xf 0 } := by
  have hno : ∀ idx b, ¬ Hit s0.mem s0.i sx sy (Drawn 0 0) idx b := by
    rintro idx b ⟨r, p, hd, _⟩
    unfold Drawn at hd
    omega
  refine ⟨rfl, ?_, ?_, Or.inl (by simp [upd]), ?_⟩
  · intro r hr
    simp [upd, hr]
  · intro idx b
    constructor
    · intro h
      cases hb : (s0.disp idx).testBit b <;> simp [hb] at h
    · intro h
      exact absurd h (hno idx b)
  · constructor
    · intro h
      simp [upd] at h
    · rintro ⟨idx, b, h, _⟩
      exact absurd h (hno idx b)

/-- The drawing instruction returns, and its result satisfies the invariant
for all `n` rows. -/
theorem instr_dxyn_inv (s0 : Chip8) (x y n : Nat) (hn : n ≤ 16) :
    ∃ t, instr_dxyn s0 x y n = .ok t ∧ DrawInv s0 (s0.v x) (s0.v y) (Drawn n 0) t := by
  refine ⟨_, rfl, ?_⟩
  have aux : ∀ k, k ≤ 16 → DrawInv s0 (s0.v x) (s0.v y) (Drawn k 0)
      ((List.range k).foldl (dxyn_row (s0.v x) (s0.v y)) { s0 with v := upd s0.v 0xf 0 }) := by
    intro k
    induction k with
    | zero => intro _; exact drawinv_init s0 _ _
    | succ k ih =>
      intro hk
      rw [foldl_range_succ]
      exact dxyn_row_inv s0 _ _ _ k (by omega) (ih (by omega))
  exact aux n hn

theorem cpu_cycle_dxyn (s : Chip8) (x y n : Nat) (hx : x < 16) (hy : y < 16) (hn : n < 16)
    (hw : s.wait_key = 0) (hop : (fetch s).1 = 0xD000 + 0x100 * x + 0x10 * y + n) :
    ∃ t, cpu_cycle s = .ok t ∧ DrawInv (fetch s).2 (s.v x) (s.v y) (Drawn n 0) t := by
  have hop' : (fetch s).1 = 0x1000 * 0xd + 0x100 * x + 0x10 * y + n := by rw [hop]
  rw [cpu_cycle_word s 0xd x y n (by norm_num) hx hy hn hw hop']
  exact instr_dxyn_inv (fetch s).2 x y n (by omega)

theorem hit_all (mem : Nat → Nat) (i sx sy n idx b : Nat) :
    Hit mem i sx sy (Drawn n 0) idx b ↔
      ∃ row, row < n ∧ ∃ px, px < 8 ∧ (mem (i + row)).testBit (7 - px) = true ∧
        ((sy + row) % 32) * 8 + ((sx + px) % 64) / 8 = idx ∧ 7 - ((sx + px) % 64) % 8 = b := by
  constructor
  · rintro ⟨r, p, hd, h⟩
    unfold Drawn at hd
    exact ⟨r, by omega, p, by omega, h⟩
  · rintro ⟨r, hr, p, hp, h⟩
    refine ⟨r, p, ?_, h⟩
    unfold Drawn
    omega

theorem pixel_on_eq (s : Chip8) (c r : Nat) :
    pixel_on s c r = (s.disp ((r % 32) * 8 + (c % 64) / 8)).testBit (7 - (c % 64) % 8) := by
  have hk : (c % 64) % 8 < 8 := Nat.mod_lt _ (by norm_num)
  simp only [pixel_on, cpu_get_pixel, mask_eq_two_pow _ hk, Nat.and_two_pow]
  cases hb : (s.disp ((r % 32) * 8 + (c % 64) / 8)).testBit (7 - (c % 64) % 8) <;> simp

theorem sprite_bit_iff (s : Chip8) (x y n c r : Nat) :
    sprite_bit s x y n c r = true ↔
      ∃ row, row < n ∧ ∃ px, px < 8 ∧ (s.v x + px) % 64 = c ∧ (s.v y + row) % 32 = r ∧
        (s.mem (s.i + row)).testBit (7 - px) = true := by
  simp only [sprite_bit, List.any_eq_true, List.mem_range, Bool.and_eq_true, decide_eq_true_eq]
  constructor
  · rintro ⟨row, hrow, px, hpx, ⟨h1, h2⟩, h3⟩
    exact ⟨row, hrow, px, hpx, h1, h2, h3⟩
  · rintro ⟨row, hrow, px, hpx, h1, h2, h3⟩
    exact ⟨row, hrow, px, hpx, ⟨h1, h2⟩, h3⟩

theorem sprite_collides_iff (s : Chip8) (x y n : Nat) :
    sprite_collides s x y n = true ↔
      ∃ row, row < n ∧ ∃ px, px < 8 ∧ (s.mem (s.i + row)).testBit (7 - px) = true ∧
        pixel_on s ((s.v x + px) % 64) ((s.v y + row) % 32) = true := by
  simp only [sprite_collides, List.any_eq_true, List.mem_range, Bool.and_eq_true]

theorem pixel_on_target (s : Chip8) (sx sy row px : Nat) :
    pixel_on s ((sx + px) % 64) ((sy + row) % 32) =
      (s.disp (((sy + row) % 32) * 8 + ((sx + px) % 64) / 8)).testBit
        (7 - ((sx + px) % 64) % 8) := by
  rw [pixel_on_eq, Nat.mod_mod, Nat.mod_mod]

theorem hit_iff_sprite_bit (s : Chip8) (x y n c r : Nat) (hc : c < 64) (_hr : r < 32) :
    Hit s.mem s.i (s.v x) (s.v y) (Drawn n 0) (r * 8 + c / 8) (7 - c % 8) ↔
      sprite_bit s x y n c r = true := by
  rw [hit_all, sprite_bit_iff]
  constructor
  · rintro ⟨row, hrow, px, hpx, hbit, h1, h2⟩
    exact ⟨row, hrow, px, hpx, by omega, by omega, hbit⟩
  · rintro ⟨row, hrow, px, hpx, h1, h2, hbit⟩
    exact ⟨row, hrow, px, hpx, hbit, by omega, by omega⟩

theorem nonzero_byte_bit (a : Nat) (h : a ≠ 0) (hlt : a < 256) :
    ∃ px, px < 8 ∧ a.testBit (7 - px) = true := by
  have hex : ∃ k, a.testBit k = true := by
    by_contra hn
    apply h
    apply Nat.eq_of_testBit_eq
    intro k
    simp
    by_contra hk
    exact hn ⟨k, by simpa using hk⟩
  obtain ⟨k, hk⟩ := hex
  have hk8 : k < 8 := by
    by_contra hge
    have : a.testBit k = false :=
      Nat.testBit_lt_two_pow
        (lt_of_lt_of_le hlt (Nat.pow_le_pow_right (by norm_num : 0 < 2) (by omega : 8 ≤ k)))
    rw [this] at hk
    exact Bool.noConfusion hk
  refine ⟨7 - k, by omega, ?_⟩
  have : 7 - (7 - k) = k := by omega
  rw [this]
  exact hk

/-- Pixel form of the display part of the invariant. -/
theorem drawinv_pixel (s t : Chip8) (x y n : Nat)
    (hbits : ∀ idx b, ((t.disp idx).testBit b = !((s.disp idx).testBit b)) ↔
      Hit s.mem s.i (s.v x) (s.v y) (Drawn n 0) idx b)
    (c r : Nat) (hc : c < 64) (hr : r < 32) :
    pixel_on t c r = xor (pixel_on s c r) (sprite_bit s x y n c r) := by
  rw [pixel_on_eq, pixel_on_eq, Nat.mod_eq_of_lt hc, Nat.mod_eq_of_lt hr]
  have h := (hbits (r * 8 + c / 8) (7 - c % 8)).trans (hit_iff_sprite_bit s x y n c r hc hr)
  cases hs : sprite_bit s x y n c r
  · have h' : ¬ ((t.disp (r * 8 + c / 8)).testBit (7 - c % 8)
        = !((s.disp (r * 8 + c / 8)).testBit (7 - c % 8))) := by
      rw [h, hs]; simp
    rw [(bool_ne_not _ _).1 h']
    simp
  · rw [h.2 hs]
    simp

/-- Claim C6: for every state with `I + n <= 4096`, after executing `0xDxyn`
every display pixel (`c`, `r`) with `c < 64` and `r < 32` equals its previous
value XOR `sprite_bit`, which is set exactly when some `row < n` and `px < 8`
have `(v[x] + px) mod 64 = c`, `(v[y] + row) mod 32 = r` and bit `7 - px` of
`mem[I + row]` set: no pixel is clipped.  In particular, for a 4-row sprite
at `x = 60`, `y = 30`, a set bit in sprite columns 4..7 and sprite rows 2..3
toggles the display pixel in columns 0..3 and rows 0..1. -/
theorem c6_draw_wraps (s : Chip8) (x y n : Nat) (hx : x < 16) (hy : y < 16) (hn : n < 16)
    (hw : s.wait_key = 0) (hop : (fetch s).1 = 0xD000 + 0x100 * x + 0x10 * y + n)
    (_hI : s.i + n ≤ 4096) :
    ∃ s', cpu_cycle s = .ok s' ∧
      (∀ c r, c < 64 → r < 32 →
        pixel_on s' c r = xor (pixel_on s c r) (sprite_bit s x y n c r)) ∧
      (∀ c r, sprite_bit s x y n c r = true ↔
        ∃ row, row < n ∧ ∃ px, px < 8 ∧ (s.v x + px) % 64 = c ∧ (s.v y + row) % 32 = r ∧
          (s.mem (s.i + row)).testBit (7 - px) = true) ∧
      (s.v x = 60 → s.v y = 30 → n = 4 →
        ∀ px row, 4 ≤ px → px < 8 → 2 ≤ row → row < 4 →
          (s.mem (s.i + row)).testBit (7 - px) = true →
          pixel_on s' (px - 4) (row - 2) = !(pixel_on s (px - 4) (row - 2))) := by
  obtain ⟨t, ht, inv⟩ := cpu_cycle_dxyn s x y n hx hy hn hw hop
  have hpix := drawinv_pixel s t x y n inv.bits
  refine ⟨t, ht, hpix, sprite_bit_iff s x y n, ?_⟩
  intro hvx hvy hn4 px row h4 h8 h2 hrow hbit
  have hs : sprite_bit s x y n (px - 4) (row - 2) = true := by
    rw [sprite_bit_iff]
    exact ⟨row, by omega, px, h8, by omega, by omega, hbit⟩
  rw [hpix (px - 4) (row - 2) (by omega) (by omega), hs]
  simp

theorem c6_draw_wraps_witness :
    ∃ s', cpu_cycle draw_state = .ok s' ∧
      (∀ c r, c < 64 → r < 32 →
        pixel_on s' c r = xor (pixel_on draw_state c r) (sprite_bit draw_state 1 2 4 c r)) ∧
      (∀ c r, sprite_bit draw_state 1 2 4 c r = true ↔
        ∃ row, row < 4 ∧ ∃ px, px < 8 ∧ (draw_state.v 1 + px) % 64 = c ∧
          (draw_state.v 2 + row) % 32 = r ∧
          (draw_state.mem (draw_state.i + row)).testBit (7 - px) = true) ∧
      (draw_state.v 1 = 60 → draw_state.v 2 = 30 → 4 = 4 →
        ∀ px row, 4 ≤ px → px < 8 → 2 ≤ row → row < 4 →
          (draw_state.mem (draw_state.i + row)).testBit (7 - px) = true →
          pixel_on s' (px - 4) (row - 2) = !(pixel_on draw_state (px - 4) (row - 2))) :=
  c6_draw_wraps draw_state 1 2 4 (by decide) (by decide) (by decide) rfl rfl (by decide)

/-- Flag form of the invariant. -/
theorem drawinv_flag (s t : Chip8) (x y n : Nat)
    (h01 : t.v 0xf = 0 ∨ t.v 0xf = 1)
    (hflag : t.v 0xf = 1 ↔
      ∃ idx b, Hit s.mem s.i (s.v x) (s.v y) (Drawn n 0) idx b ∧
        (s.disp idx).testBit b = true) :
    t.v 0xf = (if sprite_collides s x y n = true then 1 else 0) := by
  have hiff : t.v 0xf = 1 ↔ sprite_collides s x y n = true := by
    rw [hflag, sprite_collides_iff]
    constructor
    · rintro ⟨idx, b, hit, hs⟩
      obtain ⟨row, hrow, px, hpx, hbit, h1, h2⟩ := (hit_all _ _ _ _ _ _ _).1 hit
      refine ⟨row, hrow, px, hpx, hbit, ?_⟩
      rw [pixel_on_target, h1, h2]
      exact hs
    · rintro ⟨row, hrow, px, hpx, hbit, hp⟩
      rw [pixel_on_target] at hp
      exact ⟨_, _, (hit_all _ _ _ _ _ _ _).2 ⟨row, hrow, px, hpx, hbit, rfl, rfl⟩, hp⟩
  by_cases hc : sprite_collides s x y n = true
  · rw [if_pos hc]; exact hiff.2 hc
  · rw [if_neg hc]
    rcases h01 with h | h
    · exact h
    · exact absurd (hiff.1 h) hc

/-- Claim C7: for every state with `I + n <= 4096`, after executing `0xDxyn`
register F is 1 if some set sprite bit was XORed onto a display pixel that was
lit before the instruction, and 0 otherwise; in particular register F is 0
when `n = 0` or all `n` sprite bytes are zero, whatever it held before. -/
theorem c7_collision_flag (s : Chip8) (x y n : Nat) (hx : x < 16) (hy : y < 16)
    (hn : n < 16) (hw : s.wait_key = 0)
    (hop : (fetch s).1 = 0xD000 + 0x100 * x + 0x10 * y + n) (_hI : s.i + n ≤ 4096) :
    ∃ s', cpu_cycle s = .ok s' ∧
      s'.v 0xf = (if sprite_collides s x y n = true then 1 else 0) ∧
      (sprite_collides s x y n = true ↔
        ∃ row, row < n ∧ ∃ px, px < 8 ∧ (s.mem (s.i + row)).testBit (7 - px) = true ∧
          pixel_on s ((s.v x + px) % 64) ((s.v y + row) % 32) = true) ∧
      ((n = 0 ∨ ∀ row, row < n → s.mem (s.i + row) = 0) → s'.v 0xf = 0) := by
  obtain ⟨t, ht, inv⟩ := cpu_cycle_dxyn s x y n hx hy hn hw hop
  have hF := drawinv_flag s t x y n inv.flag01 inv.flag
  refine ⟨t, ht, hF, sprite_collides_iff s x y n, ?_⟩
  intro hz
  have hno : ¬ (sprite_collides s x y n = true) := by
    rw [sprite_collides_iff]
    rintro ⟨row, hrow, px, hpx, hbit, _⟩
    rcases hz with h0 | hall
    · omega
    · rw [hall row hrow] at hbit
      simp at hbit
  rw [hF, if_neg hno]

theorem c7_collision_flag_witness :
    ∃ s', cpu_cycle draw_state = .ok s' ∧
      s'.v 0xf = (if sprite_collides draw_state 1 2 4 = true then 1 else 0) ∧
      (sprite_collides draw_state 1 2 4 = true ↔
        ∃ row, row < 4 ∧ ∃ px, px < 8 ∧
          (draw_state.mem (draw_state.i + row)).testBit (7 - px) = true ∧
          pixel_on draw_state ((draw_state.v 1 + px) % 64) ((draw_state.v 2 + row) % 32)
            = true) ∧
      (((4 : Nat) = 0 ∨ ∀ row, row < 4 → draw_state.mem (draw_state.i + row) = 0) →
        s'.v 0xf = 0) :=
  c7_collision_flag draw_state 1 2 4 (by decide) (by decide) (by decide) rfl rfl (by decide)

/-- Claim C8: for every state with `I + n <= 4096` and `x`, `y` both other
than `0xF`, executing the same `0xDxyn` twice in succession leaves the display
exactly as it was before the first draw; and when the sprite has a non-zero
byte and its target pixels were all off before the first draw, register F is
1 after the second draw. -/
theorem c8_draw_twice (s s1 : Chip8) (x y n : Nat) (hx : x < 16) (hy : y < 16)
    (hn : n < 16) (hxf : x ≠ 0xf) (hyf : y ≠ 0xf) (hw : s.wait_key = 0)
    (hop : (fetch s).1 = 0xD000 + 0x100 * x + 0x10 * y + n) (_hI : s.i + n ≤ 4096)
    (h1 : cpu_cycle s = .ok s1)
    (hop2 : (fetch s1).1 = 0xD000 + 0x100 * x + 0x10 * y + n) :
    ∃ s2, cpu_cycle s1 = .ok s2 ∧ s2.disp = s.disp ∧
      ((∀ row, row < n → s.mem (s.i + row) < 256) →
       (∃ row, row < n ∧ s.mem (s.i + row) ≠ 0) →
       (∀ row, row < n → ∀ px, px < 8 → (s.mem (s.i + row)).testBit (7 - px) = true →
          pixel_on s ((s.v x + px) % 64) ((s.v y + row) % 32) = false) →
       s2.v 0xf = 1) := by
  obtain ⟨t1, ht1, inv1⟩ := cpu_cycle_dxyn s x y n hx hy hn hw hop
  rw [ht1] at h1
  have hs1 : t1 = s1 := by injection h1
  subst hs1
  have hw1 : t1.wait_key = 0 := by
    have h := congrArg Chip8.wait_key inv1.frame
    exact h.trans hw
  have hmem : t1.mem = s.mem := by
    have h := congrArg Chip8.mem inv1.frame
    exact h
  have hi : t1.i = s.i := by
    have h := congrArg Chip8.i inv1.frame
    exact h
  have hvx : t1.v x = s.v x := inv1.regs x hxf
  have hvy : t1.v y = s.v y := inv1.regs y hyf
  obtain ⟨t2, ht2, inv2⟩ := cpu_cycle_dxyn t1 x y n hx hy hn hw1 hop2
  have b1 : ∀ idx b, ((t1.disp idx).testBit b = !((s.disp idx).testBit b)) ↔
      Hit s.mem s.i (s.v x) (s.v y) (Drawn n 0) idx b := inv1.bits
  have b2 : ∀ idx b, ((t2.disp idx).testBit b = !((t1.disp idx).testBit b)) ↔
      Hit s.mem s.i (s.v x) (s.v y) (Drawn n 0) idx b := by
    intro idx b
    have h := inv2.bits idx b
    rw [hvx, hvy] at h
    have h' : ((t2.disp idx).testBit b = !((t1.disp idx).testBit b)) ↔
        Hit t1.mem t1.i (s.v x) (s.v y) (Drawn n 0) idx b := h
    rw [hmem, hi] at h'
    exact h'
  have f2 : t2.v 0xf = 1 ↔ ∃ idx b, Hit s.mem s.i (s.v x) (s.v y) (Drawn n 0) idx b ∧
      (t1.disp idx).testBit b = true := by
    have h := inv2.flag
    rw [hvx, hvy] at h
    have h' : t2.v 0xf = 1 ↔ ∃ idx b, Hit t1.mem t1.i (s.v x) (s.v y) (Drawn n 0) idx b ∧
        (t1.disp idx).testBit b = true := h
    rw [hmem, hi] at h'
    exact h'
  refine ⟨t2, ht2, ?_, ?_⟩
  · funext idx
    apply Nat.eq_of_testBit_eq
    intro b
    by_cases hh : Hit s.mem s.i (s.v x) (s.v y) (Drawn n 0) idx b
    · rw [(b2 idx b).2 hh, (b1 idx b).2 hh, Bool.not_not]
    · have e2 := (bool_ne_not _ _).1 (fun h => hh ((b2 idx b).1 h))
      have e1 := (bool_ne_not _ _).1 (fun h => hh ((b1 idx b).1 h))
      rw [e2, e1]
  · rintro hbyte ⟨row, hrow, hne⟩ hoff
    obtain ⟨px, hpx, hbit⟩ := nonzero_byte_bit _ hne (hbyte row hrow)
    have hit : Hit s.mem s.i (s.v x) (s.v y) (Drawn n 0)
        (((s.v y + row) % 32) * 8 + ((s.v x + px) % 64) / 8)
        (7 - ((s.v x + px) % 64) % 8) :=
      (hit_all _ _ _ _ _ _ _).2 ⟨row, hrow, px, hpx, hbit, rfl, rfl⟩
    have h0 := hoff row hrow px hpx hbit
    rw [pixel_on_target] at h0
    have hon := (b1 _ _).2 hit
    rw [h0] at hon
    exact f2.2 ⟨_, _, hit, hon⟩

theorem c8_draw_twice_witness :
    ∃ s2, cpu_cycle draw_once = .ok s2 ∧ s2.disp = draw_state.disp ∧ s2.v 0xf = 1 :=
  match c8_draw_twice draw_state draw_once 1 2 4 (by decide) (by decide) (by decide)
      (by decide) (by decide) rfl rfl (by decide) rfl rfl with
  | ⟨s2, h, hd, hf⟩ =>
    ⟨s2, h, hd,
      hf (by intro row hrow; interval_cases row <;> decide)
        ⟨0, by decide, by decide⟩
        (by
          intro row _ px _ _
          simp [pixel_on, cpu_get_pixel, draw_state, with_program, with_regs, blank])⟩

/-- What the first draw of `draw_state` leaves on the display: the 8x4 block
at (60, 30) wraps to the four corners. -/
theorem draw_state_example :
    pixel_on draw_once 60 30 = true ∧ pixel_on draw_once 63 31 = true ∧
    pixel_on draw_once 0 0 = true ∧ pixel_on draw_once 3 1 = true ∧
    pixel_on draw_once 0 30 = true ∧ pixel_on draw_once 63 1 = true ∧
    pixel_on draw_once 4 0 = false ∧ pixel_on draw_once 59 30 = false ∧
    pixel_on draw_once 0 2 = false ∧ pixel_on draw_once 60 29 = false ∧
    draw_once.v 0xf = 0 := by
  decide

/-! ## Waiting for a key -/

theorem cpu_cycle_latched (s : Chip8) (h : s.wait_key ≠ 0) : cpu_cycle s = .ok s := by
  simp [cpu_cycle, h]

theorem cycles_latched (s : Chip8) (h : s.wait_key ≠ 0) (m : Nat) : cycles m s = .ok s := by
  induction m with
  | zero => rfl
  | succ m ih => simp only [cycles, cpu_cycle_latched s h, ih]

theorem cpu_set_key_state_down (t : Chip8) (k down : Nat) (hk : k ≤ 0xf) (hd : down ≠ 0)
    (hl : t.wait_key ≠ 0) :
    cpu_set_key_state t k down =
      .ok { t with keys := (t.keys ||| (1 <<< k)) % 65536, v := upd t.v t.key_vx k,
                   wait_key := 0 } := by
  simp [cpu_set_key_state, hk, hd, hl]

theorem cpu_set_key_state_up (t : Chip8) (k : Nat) (hk : k ≤ 0xf) :
    cpu_set_key_state t k 0 =
      .ok { t with keys := (t.keys &&& (0xFFFFFFFF ^^^ (1 <<< k))) % 65536 } := by
  simp [cpu_set_key_state, hk]

theorem cpu_cycle_running (s : Chip8) (h : s.wait_key = 0) :
    cpu_cycle s =
      (decode (fetch s).1 >>= fun instr => execute (fetch s).2 instr (fetch s).1) := by
  simp [cpu_cycle, h]

/-- Claim C9: when the wait-key latch is set, `cpu_cycle` returns the machine
state unchanged: nothing is fetched and no field changes. -/
theorem c9_stalled_cycle_is_identity (s : Chip8) (h : s.wait_key ≠ 0) :
    cpu_cycle s = .ok s :=
  cpu_cycle_latched s h

theorem c9_stalled_cycle_is_identity_witness : cpu_cycle stalled_state = .ok stalled_state :=
  c9_stalled_cycle_is_identity stalled_state (by decide)

/-- Claim C10: for every `x` and key `k` in `0x0..0xF`, the cycle executing
`0xFx0A` sets the latch with target `x`; any number of further cycles return
the same state (the program counter stays right after the `0xFx0A`); a
following `set_key_state(k, down)` with `down` non-zero writes `k` to register
`x` and clears the latch, and the next cycle fetches the word right after the
`0xFx0A` and executes it; `set_key_state(k, 0)` on any state keeps the latch
and all registers. -/
theorem c10_key_wait_resume (s : Chip8) (x k : Nat) (hx : x < 16) (hk : k ≤ 0xf)
    (hw : s.wait_key = 0) (hop : (fetch s).1 = 0xF00A + 0x100 * x) :
    ∃ s1, cpu_cycle s = .ok s1 ∧ s1.wait_key ≠ 0 ∧ s1.key_vx = x ∧
      s1.pc = (s.pc + 2) % 65536 ∧
      (∀ m, cycles m s1 = .ok s1) ∧
      (∀ down, down ≠ 0 →
        ∃ s2, cpu_set_key_state s1 k down = .ok s2 ∧ s2.v x = k ∧ s2.wait_key = 0 ∧
          s2.pc = (s.pc + 2) % 65536 ∧
          (fetch s2).1 = bytes2opcode (s.mem ((s.pc + 2) % 65536))
            (s.mem ((s.pc + 2) % 65536 + 1)) ∧
          cpu_cycle s2 =
            (decode (fetch s2).1 >>= fun instr => execute (fetch s2).2 instr (fetch s2).1)) ∧
      (∀ t : Chip8, ∃ t', cpu_set_key_state t k 0 = .ok t' ∧
        t'.wait_key = t.wait_key ∧ t'.v = t.v) := by
  have hop' : (fetch s).1 = 0x1000 * 0xf + 0x100 * x + 0x10 * 0 + 0xa := by rw [hop]; omega
  have hcyc := cpu_cycle_word s 0xf x 0 0xa (by norm_num) hx (by norm_num) (by norm_num) hw hop'
  have hcall : (decode_nibs 0xf x 0 0xa).call (fetch s).2 x 0 0xa
      = .ok { (fetch s).2 with wait_key := 1, key_vx := x } := rfl
  rw [hcall] at hcyc
  have hl : ({ (fetch s).2 with wait_key := 1, key_vx := x } : Chip8).wait_key ≠ 0 :=
    Nat.one_ne_zero
  refine ⟨_, hcyc, hl, rfl, rfl, ?_, ?_, ?_⟩
  · intro m
    exact cycles_latched _ hl m
  · intro down hdown
    refine ⟨_, cpu_set_key_state_down _ k down hk hdown hl, ?_, rfl, rfl, rfl, ?_⟩
    · show upd _ x k x = k
      simp [upd]
    · exact cpu_cycle_running _ rfl
  · intro t
    exact ⟨_, cpu_set_key_state_up t k hk, rfl, rfl⟩

theorem c10_key_wait_resume_witness :
    ∃ s1, cpu_cycle key_state = .ok s1 ∧ s1.wait_key ≠ 0 ∧ s1.key_vx = 3 ∧
      s1.pc = (key_state.pc + 2) % 65536 ∧
      (∀ m, cycles m s1 = .ok s1) ∧
      (∀ down, down ≠ 0 →
        ∃ s2, cpu_set_key_state s1 0xb down = .ok s2 ∧ s2.v 3 = 0xb ∧ s2.wait_key = 0 ∧
          s2.pc = (key_state.pc + 2) % 65536 ∧
          (fetch s2).1 = bytes2opcode (key_state.mem ((key_state.pc + 2) % 65536))
            (key_state.mem ((key_state.pc + 2) % 65536 + 1)) ∧
          cpu_cycle s2 =
            (decode (fetch s2).1 >>= fun instr => execute (fetch s2).2 instr (fetch s2).1)) ∧
      (∀ t : Chip8, ∃ t', cpu_set_key_state t 0xb 0 = .ok t' ∧
        t'.wait_key = t.wait_key ∧ t'.v = t.v) :=
  c10_key_wait_resume key_state 3 0xb (by decide) (by decide) rfl rfl

/-- The run of `key_state`: stall on `F30A`, press key `0xB`, then `6A55`
executes. -/
theorem key_state_example :
    ∃ s1 s2 s3, cycles 5 key_state = .ok s1 ∧ s1.pc = 0x202 ∧
      cpu_set_key_state s1 0xb 1 = .ok s2 ∧ s2.v 3 = 0xb ∧
      cpu_cycle s2 = .ok s3 ∧ s3.pc = 0x204 ∧ s3.v 0xa = 0x55 :=
  ⟨_, _, _, rfl, rfl, rfl, rfl, rfl, rfl, rfl⟩

/-! ## Key latch, revisited -/

/-- Claim C11 as stated fails: with the latch active and key `0xB` already
recorded as down, `set_key_state(0xB, 1)` is no transition (the bitmask is
unchanged), yet it writes `0xB` to the target register 3 and clears the
latch. -/
theorem c11_held_key_counterexample :
    held_state.wait_key = 1 ∧ held_state.keys.testBit 0xb = true ∧ held_state.v 3 = 0 ∧
    ∃ s', cpu_set_key_state held_state 0xb 1 = .ok s' ∧ s'.keys = held_state.keys ∧
      s'.wait_key = 0 ∧ s'.v 3 = 0xb :=
  ⟨rfl, rfl, rfl, _, rfl, rfl, rfl, rfl⟩

/-- Claim C11, amended: while the latch is active, every call
`set_key_state(k, down)` with `down` non-zero, whether key `k` was recorded as
up or as down before, writes `k` to the target register and clears the latch;
a call with `down = 0` keeps the latch and the registers. -/
theorem c11_latch_resolved_by_level (t : Chip8) (k down : Nat) (hk : k ≤ 0xf)
    (hl : t.wait_key ≠ 0) :
    (down ≠ 0 → ∃ t', cpu_set_key_state t k down = .ok t' ∧
      t'.v t.key_vx = k ∧ t'.wait_key = 0 ∧ ∀ r, r ≠ t.key_vx → t'.v r = t.v r) ∧
    (∃ t', cpu_set_key_state t k 0 = .ok t' ∧ t'.wait_key = t.wait_key ∧ t'.v = t.v) := by
  constructor
  · intro hd
    refine ⟨_, cpu_set_key_state_down t k down hk hd hl, ?_, rfl, ?_⟩
    · show upd t.v t.key_vx k t.key_vx = k
      simp [upd]
    · intro r hr
      show upd t.v t.key_vx k r = t.v r
      simp [upd, hr]
  · exact ⟨_, cpu_set_key_state_up t k hk, rfl, rfl⟩

theorem c11_latch_resolved_by_level_witness :
    (1 ≠ 0 → ∃ t', cpu_set_key_state held_state 0xb 1 = .ok t' ∧
      t'.v held_state.key_vx = 0xb ∧ t'.wait_key = 0 ∧
      ∀ r, r ≠ held_state.key_vx → t'.v r = held_state.v r) ∧
    (∃ t', cpu_set_key_state held_state 0xb 0 = .ok t' ∧
      t'.wait_key = held_state.wait_key ∧ t'.v = held_state.v) :=
  c11_latch_resolved_by_level held_state 0xb 1 (by decide) (by decide)

/-! ## Decoding table -/

theorem word_nibbles (w : Nat) :
    w = 0x1000 * (w / 0x1000) + 0x100 * (w / 0x100 % 0x10) + 0x10 * (w / 0x10 % 0x10)
      + w % 0x10 := by
  omega

/-- Function `decode` never fails on a 16-bit word: it returns what the `switch`
returns on the four nibbles of the word. -/
theorem decode_word (w : Nat) (hw : w < 65536) :
    decode w = .ok (decode_nibs (w / 0x1000) (w / 0x100 % 0x10) (w / 0x10 % 0x10)
      (w % 0x10)) := by
  obtain ⟨h0, h1, h2, h3⟩ := opcode2nib_word (w / 0x1000) (w / 0x100 % 0x10)
    (w / 0x10 % 0x10) (w % 0x10) (by omega) (by omega) (by omega) (by omega)
  rw [← word_nibbles w] at h0 h1 h2 h3
  simp only [decode, h0, h1, h2, h3]
  rfl

theorem decode_nibs_table_aux (w a b c d : Nat) (ha : w / 0x1000 = a) (hd : w % 0x10 = d)
    (hk : w % 0x100 = 0x10 * c + d) (hw : w = 0x1000 * a + 0x100 * b + 0x10 * c + d) :
    decode_nibs a b c d = table_row w := by
  have e0 : (w = 0x00E0) = (a = 0 ∧ b = 0x0 ∧ c = 0xe ∧ d = 0x0) := by apply propext; omega
  have e1 : (w = 0x00EE) = (a = 0 ∧ b = 0x0 ∧ c = 0xe ∧ d = 0xe) := by apply propext; omega
  have k1 : (0x10 * c + d = 0x9E) = (c = 0x9 ∧ d = 0xe) := by apply propext; omega
  have k2 : (0x10 * c + d = 0xA1) = (c = 0xa ∧ d = 0x1) := by apply propext; omega
  have f1 : (0x10 * c + d = 0x07) = (c = 0x0 ∧ d = 0x7) := by apply propext; omega
  have f2 : (0x10 * c + d = 0x0A) = (c = 0x0 ∧ d = 0xa) := by apply propext; omega
  have f3 : (0x10 * c + d = 0x15) = (c = 0x1 ∧ d = 0x5) := by apply propext; omega
  have f4 : (0x10 * c + d = 0x18) = (c = 0x1 ∧ d = 0x8) := by apply propext; omega
  have f5 : (0x10 * c + d = 0x1E) = (c = 0x1 ∧ d = 0xe) := by apply propext; omega
  have f6 : (0x10 * c + d = 0x29) = (c = 0x2 ∧ d = 0x9) := by apply propext; omega
  have f7 : (0x10 * c + d = 0x33) = (c = 0x3 ∧ d = 0x3) := by apply propext; omega
  have f8 : (0x10 * c + d = 0x55) = (c = 0x5 ∧ d = 0x5) := by apply propext; omega
  have f9 : (0x10 * c + d = 0x65) = (c = 0x6 ∧ d = 0x5) := by apply propext; omega
  unfold table_row decode_nibs
  dsimp only
  rw [ha, hd, hk]
  simp only [e0, e1, k1, k2, f1, f2, f3, f4, f5, f6, f7, f8, f9]
  by_cases h0 : a = 0
  · simp only [h0, if_true, true_and]
  · simp only [h0, if_false, false_and]

theorem decode_nibs_table (w : Nat) :
    decode_nibs (w / 0x1000) (w / 0x100 % 0x10) (w / 0x10 % 0x10) (w % 0x10)
      = table_row w :=
  decode_nibs_table_aux w _ _ _ _ rfl rfl (by omega) (word_nibbles w)

set_option maxHeartbeats 1000000 in
theorem table_row_dummy (w : Nat) (hw : w < 65536) :
    table_row w = .p_dummy ↔ no_table_row w := by
  obtain ⟨a, ha⟩ : ∃ a, w / 0x1000 = a := ⟨_, rfl⟩
  have ha16 : a < 16 := by omega
  unfold table_row no_table_row
  simp only [ha]
  interval_cases a <;>
    simp only [↓reduceIte, Nat.reduceEqDiff, false_and, true_and, false_or, or_false] <;>
    split_ifs <;> constructor <;> intro h <;>
    first
    | rfl
    | (exact Instrp.noConfusion h)
    | (exact False.elim h)
    | omega

/-- Claim C12: on every 16-bit word `decode` returns the handler of the table
row the word matches; it returns the halting handler `dummy_instr` exactly for
the words of `no_table_row` (5xyN with N != 0, 8xyN with N in 8..D or F, 9xyN
with N != 0, Exkk with kk not 9E or A1, Fxkk with kk outside the nine listed
bytes), so every `0nnn` is dispatched.  A cycle that fetches the word runs the
handler of its row, and aborts with the decode error when there is none. -/
theorem c12_decode_table (w : Nat) (hw : w < 65536) :
    decode w = .ok (table_row w) ∧
    (decode w = .ok .p_dummy ↔ no_table_row w) ∧
    (w / 0x1000 = 0 → decode w ≠ .ok .p_dummy) ∧
    (∀ s : Chip8, s.wait_key = 0 → (fetch s).1 = w →
      cpu_cycle s = (table_row w).call (fetch s).2 (w / 0x100 % 0x10) (w / 0x10 % 0x10)
        (w % 0x10) ∧
      (no_table_row w → cpu_cycle s = .error .DecodeError)) := by
  have hdec : decode w = .ok (table_row w) := by
    rw [decode_word w hw, decode_nibs_table w]
  have hiff : decode w = .ok .p_dummy ↔ no_table_row w := by
    rw [hdec, ← table_row_dummy w hw]
    constructor
    · intro h; injection h
    · intro h; rw [h]
  refine ⟨hdec, hiff, ?_, ?_⟩
  · intro h0 hd
    have := hiff.1 hd
    unfold no_table_row at this
    omega
  · intro s hs hf
    have hcyc : cpu_cycle s = (table_row w).call (fetch s).2 (w / 0x100 % 0x10)
        (w / 0x10 % 0x10) (w % 0x10) := by
      have h := cpu_cycle_word s (w / 0x1000) (w / 0x100 % 0x10) (w / 0x10 % 0x10)
        (w % 0x10) (by omega) (by omega) (by omega) (by omega) hs
        (by rw [hf]; exact word_nibbles w)
      rw [h, decode_nibs_table w]
    refine ⟨hcyc, ?_⟩
    intro hno
    rw [hcyc, (table_row_dummy w hw).2 hno]
    rfl

theorem c12_decode_table_witness :
    decode 0x5121 = .ok (table_row 0x5121) ∧
    (decode 0x5121 = .ok .p_dummy ↔ no_table_row 0x5121) ∧
    (0x5121 / 0x1000 = 0 → decode 0x5121 ≠ .ok .p_dummy) ∧
    (∀ s : Chip8, s.wait_key = 0 → (fetch s).1 = 0x5121 →
      cpu_cycle s = (table_row 0x5121).call (fetch s).2 (0x5121 / 0x100 % 0x10)
        (0x5121 / 0x10 % 0x10) (0x5121 % 0x10) ∧
      (no_table_row 0x5121 → cpu_cycle s = .error .DecodeError)) :=
  c12_decode_table 0x5121 (by decide)

/-- The cycle of `bad_opcode_state` fetches `5121` and aborts. -/
theorem bad_opcode_example : cpu_cycle bad_opcode_state = .error .DecodeError := rfl
/-! ## Timers -/

/-- Claim C13: `cpu_tick60hz` maps the delay timer `d` to `d - 1` when `d > 0`
and to 0 when `d = 0`, independently does the same to the sound timer, and
changes no other field, whatever the wait-key latch holds.  From a delay timer
of 2, two ticks reach 0 and a third stays at 0; a timer never grows, so it
never wraps to 255. -/
theorem c13_tick_floors_at_zero (s : Chip8) :
    (cpu_tick60hz s).dt = (if s.dt > 0 then s.dt - 1 else 0) ∧
    (cpu_tick60hz s).st = (if s.st > 0 then s.st - 1 else 0) ∧
    { cpu_tick60hz s with dt := s.dt, st := s.st } = s ∧
    (s.dt = 2 → (cpu_tick60hz (cpu_tick60hz s)).dt = 0 ∧
      (cpu_tick60hz (cpu_tick60hz (cpu_tick60hz s))).dt = 0) ∧
    (cpu_tick60hz s).dt ≤ s.dt ∧ (cpu_tick60hz s).st ≤ s.st := by
  have hdt : (cpu_tick60hz s).dt = (if s.dt > 0 then s.dt - 1 else 0) := by
    unfold cpu_tick60hz
    by_cases h1 : s.dt > 0 <;> by_cases h2 : s.st > 0 <;> simp [h1, h2] <;> omega
  have hst : (cpu_tick60hz s).st = (if s.st > 0 then s.st - 1 else 0) := by
    unfold cpu_tick60hz
    by_cases h1 : s.dt > 0 <;> by_cases h2 : s.st > 0 <;> simp [h1, h2] <;> omega
  have hdt' : ∀ t : Chip8, (cpu_tick60hz t).dt = t.dt - 1 := by
    intro t
    unfold cpu_tick60hz
    by_cases h1 : t.dt > 0 <;> by_cases h2 : t.st > 0 <;> simp [h1, h2] <;> omega
  refine ⟨hdt, hst, ?_, ?_, ?_, ?_⟩
  · unfold cpu_tick60hz
    by_cases h1 : s.dt > 0 <;> by_cases h2 : s.st > 0 <;> simp [h1, h2]
  · intro h2
    have e1 : (cpu_tick60hz s).dt = 1 := by rw [hdt', h2]
    have e2 : (cpu_tick60hz (cpu_tick60hz s)).dt = 0 := by rw [hdt', e1]
    have e3 : (cpu_tick60hz (cpu_tick60hz (cpu_tick60hz s))).dt = 0 := by rw [hdt', e2]
    exact ⟨e2, e3⟩
  · rw [hdt]; split <;> omega
  · rw [hst]; split <;> omega

/-! ## Loading, reset and initialisation -/

theorem cpu_load_rom_rejects (cpu : Chip8) (file : List Nat)
    (h : 0xfff - BASE_ADDR < file.length) : cpu_load_rom cpu file = .error .LoadError := by
  have h' : ¬ (file.length ≤ 0xfff - BASE_ADDR) := by omega
  simp only [cpu_load_rom, h', if_false]

theorem cpu_load_rom_accepts (cpu : Chip8) (file : List Nat)
    (h : file.length ≤ 0xfff - BASE_ADDR) :
    cpu_load_rom cpu file = .ok { cpu with mem := loaded_mem cpu file } := by
  simp only [cpu_load_rom, h, if_true]
  rfl

theorem loaded_state_mem (cpu : Chip8) (file : List Nat) (a : Nat) :
    ({ cpu with mem := loaded_mem cpu file } : Chip8).mem a = loaded_mem cpu file a := rfl

theorem image_length (n : Nat) : (image n).length = n := List.length_replicate _ _

theorem image_getD (n k : Nat) (h : k < n) : (image n).getD k 0 = 7 := by
  unfold image
  rw [List.getD_eq_getElem?_getD, List.getElem?_replicate, if_pos h]
  rfl

theorem loaded_mem_image_in (cpu : Chip8) (n a : Nat) (h1 : BASE_ADDR ≤ a)
    (h2 : a < BASE_ADDR + n) : loaded_mem cpu (image n) a = 7 := by
  unfold loaded_mem
  rw [image_length, if_pos ⟨h1, h2⟩]
  exact image_getD _ _ (by omega)

theorem loaded_mem_image_out (cpu : Chip8) (n a : Nat)
    (h : a < BASE_ADDR ∨ BASE_ADDR + n ≤ a) : loaded_mem cpu (image n) a = cpu.mem a := by
  unfold loaded_mem
  rw [image_length, if_neg (by omega)]

/-- Claim C15 on the code: `cpu_load_rom` asserts `fsize <= 0xfff - BASE_ADDR`,
that is 3583, so an image of 3584 bytes, which fits the 4096-byte memory from
`0x200`, is rejected with the load error; an image of 3583 bytes is accepted
and copied to `0x200..0xFFE`, leaving `mem[0xFFF]` and `mem[0x1FF]` as they
were. -/
theorem c15_full_size_image_rejected :
    (image 3584).length = 4096 - 0x200 ∧
    cpu_load_rom blank (image 3584) = .error .LoadError ∧
    ∃ s', cpu_load_rom blank (image 3583) = .ok s' ∧
      s'.mem 0x200 = 7 ∧ s'.mem 0xFFE = 7 ∧ s'.mem 0xFFF = 0 ∧ s'.mem 0x1FF = 0 := by
  have hB : BASE_ADDR = 0x200 := rfl
  have h1 : 0xfff - BASE_ADDR < (image 3584).length := by
    rw [image_length, hB]; decide
  have h2 : (image 3583).length ≤ 0xfff - BASE_ADDR := by
    rw [image_length, hB]
  have a1 : BASE_ADDR ≤ 0x200 ∧ 0x200 < BASE_ADDR + 3583 := by rw [hB]; decide
  have a2 : BASE_ADDR ≤ 0xFFE ∧ 0xFFE < BASE_ADDR + 3583 := by rw [hB]; decide
  have a3 : 0xFFF < BASE_ADDR ∨ BASE_ADDR + 3583 ≤ 0xFFF := by rw [hB]; decide
  have a4 : 0x1FF < BASE_ADDR ∨ BASE_ADDR + 3583 ≤ 0x1FF := by rw [hB]; decide
  have m1 := loaded_mem_image_in blank 3583 0x200 a1.1 a1.2
  have m2 := loaded_mem_image_in blank 3583 0xFFE a2.1 a2.2
  have m3 := loaded_mem_image_out blank 3583 0xFFF a3
  have m4 := loaded_mem_image_out blank 3583 0x1FF a4
  exact ⟨image_length _, cpu_load_rom_rejects _ _ h1,
    { blank with mem := loaded_mem blank (image 3583) }, cpu_load_rom_accepts _ _ h2,
    (loaded_state_mem _ _ _).trans m1, (loaded_state_mem _ _ _).trans m2,
    (loaded_state_mem _ _ _).trans m3, (loaded_state_mem _ _ _).trans m4⟩

/-- Claim C16: after `cpu_reset`, registers `0x0..0xE` are 0, `I`, both timers,
the stack pointer, the key bitmask and the latch are 0, the program counter is
`0x200`, all 256 display bytes are 0, `mem[0x100..0x14F]` holds the 80-byte
font table, and every memory byte outside `0x100..0x14F` is unchanged. -/
theorem c16_reset_baseline (s : Chip8) :
    (∀ r, r < 0xf → (cpu_reset s).v r = 0) ∧
    (cpu_reset s).i = 0 ∧ (cpu_reset s).dt = 0 ∧ (cpu_reset s).st = 0 ∧
    (cpu_reset s).sp = 0 ∧ (cpu_reset s).pc = 0x200 ∧ (cpu_reset s).keys = 0 ∧
    (cpu_reset s).wait_key = 0 ∧
    (∀ k, k < 256 → (cpu_reset s).disp k = 0) ∧
    digit_sprites.length = 80 ∧
    (∀ k, k < 80 → (cpu_reset s).mem (0x100 + k) = digit_sprites.getD k 0) ∧
    (∀ a, a < 0x100 ∨ 0x14F < a → (cpu_reset s).mem a = s.mem a) := by
  refine ⟨?_, rfl, rfl, rfl, rfl, rfl, rfl, rfl, ?_, rfl, ?_, ?_⟩
  · intro r hr
    show memset0 s.v 0xf r = 0
    simp [memset0, hr]
  · intro k hk
    show memset0 s.disp (8 * 32) k = 0
    simp [memset0, hk]
  · intro k hk
    show (if DIGIT_SPRITES_ADDR ≤ 0x100 + k ∧ 0x100 + k < DIGIT_SPRITES_ADDR +
        digit_sprites.length then digit_sprites.getD (0x100 + k - DIGIT_SPRITES_ADDR) 0
        else s.mem (0x100 + k)) = _
    have hlen : digit_sprites.length = 80 := rfl
    have hsub : 0x100 + k - DIGIT_SPRITES_ADDR = k := by simp [DIGIT_SPRITES_ADDR]
    rw [if_pos (by rw [hlen]; simp [DIGIT_SPRITES_ADDR]; omega), hsub]
  · intro a ha
    show (if DIGIT_SPRITES_ADDR ≤ a ∧ a < DIGIT_SPRITES_ADDR + digit_sprites.length
        then digit_sprites.getD (a - DIGIT_SPRITES_ADDR) 0 else s.mem a) = _
    have hlen : digit_sprites.length = 80 := rfl
    rw [if_neg (by rw [hlen]; simp only [DIGIT_SPRITES_ADDR]; omega)]

/-- Claim C17 on the code: `dirty_state` and `blank` agree on all of memory,
yet after `cpu_reset` they differ in register F and in stack entry 15, which
the two `memset` calls of length `0xf` do not reach. -/
theorem c17_reset_keeps_reg_F_and_slot_15 :
    dirty_state.mem = blank.mem ∧
    (cpu_reset dirty_state).v 0xf = 1 ∧ (cpu_reset blank).v 0xf = 0 ∧
    (cpu_reset dirty_state).stack 15 = 0x222 ∧ (cpu_reset blank).stack 15 = 0 ∧
    (cpu_reset dirty_state).v 0xe = 0 ∧ (cpu_reset dirty_state).stack 14 = 0 :=
  ⟨rfl, rfl, rfl, rfl, rfl, rfl, rfl⟩

/-- Claim C18 on the code: `cpu_init` clears `mem[0..0xFFE]` only
(`memset(cpu->mem, 0, 0xfff)`), so a last byte `0xAB` at address `0xFFF`
survives initialisation. -/
theorem c18_init_keeps_last_byte (seeded : Nat → Nat) :
    last_byte_state.mem 0xFFF = 0xAB ∧
    (cpu_init last_byte_state seeded).mem 0xFFF = 0xAB ∧
    (cpu_init last_byte_state seeded).mem 0xFFE = 0 :=
  ⟨rfl, rfl, rfl⟩
/-! ## Pixel query and keys -/

/-- Claim C19: `cpu_get_pixel` only reads the display (it returns a number and
no state, and two states with the same display give the same result); for all
non-negative `x`, `y` its result is display byte `(y mod 32) * 8 + (x mod 64) / 8`
masked with bit `7 - (x mod 8)`, so it is non-zero exactly when that bit is
set; the byte index is below 256; and the result is unchanged by adding 64 to
`x` or 32 to `y`. -/
theorem c19_get_pixel_wraps (s : Chip8) (x y : Nat) :
    cpu_get_pixel s x y = s.disp ((y % 32) * 8 + (x % 64) / 8) &&& 2 ^ (7 - x % 8) ∧
    (cpu_get_pixel s x y ≠ 0 ↔
      (s.disp ((y % 32) * 8 + (x % 64) / 8)).testBit (7 - x % 8) = true) ∧
    (y % 32) * 8 + (x % 64) / 8 < 256 ∧
    cpu_get_pixel s (x + 64) y = cpu_get_pixel s x y ∧
    cpu_get_pixel s x (y + 32) = cpu_get_pixel s x y ∧
    (∀ t : Chip8, t.disp = s.disp → cpu_get_pixel t x y = cpu_get_pixel s x y) := by
  have hk : (x % 64) % 8 < 8 := Nat.mod_lt _ (by norm_num)
  have hx8 : (x % 64) % 8 = x % 8 := by omega
  have hval : cpu_get_pixel s x y
      = s.disp ((y % 32) * 8 + (x % 64) / 8) &&& 2 ^ (7 - x % 8) := by
    simp only [cpu_get_pixel, hx8, mask_eq_two_pow _ (by omega : x % 8 < 8)]
  refine ⟨hval, ?_, by omega, ?_, ?_, ?_⟩
  · rw [hval, Nat.and_two_pow]
    cases hb : (s.disp ((y % 32) * 8 + (x % 64) / 8)).testBit (7 - x % 8) <;> simp
  · simp only [cpu_get_pixel, Nat.add_mod_right]
  · simp only [cpu_get_pixel, Nat.add_mod_right]
  · intro t ht
    simp only [cpu_get_pixel, ht]

theorem keys_after_set (t t' : Chip8) (k d : Nat)
    (h : cpu_set_key_state t k d = .ok t') :
    t'.keys = (if d ≠ 0 then (t.keys ||| (1 <<< k)) % 65536
      else (t.keys &&& (0xFFFFFFFF ^^^ (1 <<< k))) % 65536) := by
  unfold cpu_set_key_state at h
  by_cases hk : k ≥ 0x0 ∧ k ≤ 0xf
  · by_cases hd : d ≠ 0
    · by_cases hl : t.wait_key ≠ 0
      · simp only [hk, hd, hl, if_true, and_self, ne_eq, not_false_eq_true] at h
        cases h
        simp [hd]
      · simp only [hk, hd, hl, if_true, if_false, and_self, ne_eq, not_false_eq_true] at h
        cases h
        simp [hd]
    · simp only [hk, hd, if_true, if_false, and_self] at h
      cases h
      simp [hd]
  · simp only [hk, if_false] at h
    cases h

theorem set_key_ok (t : Chip8) (k d : Nat) (hk : k ≤ 0xf) :
    ∃ t', cpu_set_key_state t k d = .ok t' := by
  unfold cpu_set_key_state
  have hk' : k ≥ 0x0 ∧ k ≤ 0xf := ⟨Nat.zero_le _, hk⟩
  by_cases hd : d ≠ 0
  · by_cases hl : t.wait_key ≠ 0
    · exact ⟨_, by simp only [hk', hd, hl, if_true, and_self, ne_eq, not_false_eq_true]; rfl⟩
    · exact ⟨_, by simp only [hk', hd, hl, if_true, if_false, and_self, ne_eq,
        not_false_eq_true]; rfl⟩
  · exact ⟨_, by simp only [hk', hd, if_true, if_false, and_self]; rfl⟩

theorem key_bits_down (keys k i : Nat) (hk : k ≤ 0xf) (hkeys : keys < 65536) :
    ((keys ||| (1 <<< k)) % 65536).testBit i = (if i = k then true else keys.testBit i) := by
  have h2 : (1 : Nat) <<< k = 2 ^ k := by rw [Nat.shiftLeft_eq, Nat.one_mul]
  have hlt : keys ||| 2 ^ k < 2 ^ 16 :=
    Nat.or_lt_two_pow (by omega) (Nat.pow_lt_pow_right (by norm_num) (by omega))
  rw [h2, Nat.mod_eq_of_lt (by omega), Nat.testBit_or, Nat.testBit_two_pow]
  by_cases hi : i = k
  · subst hi; simp
  · have : ¬ (k = i) := fun h => hi h.symm
    simp [hi, this]

theorem key_bits_up (keys k i : Nat) (hk : k ≤ 0xf) (hkeys : keys < 65536) :
    ((keys &&& (0xFFFFFFFF ^^^ (1 <<< k))) % 65536).testBit i
      = (if i = k then false else keys.testBit i) := by
  have h2 : (1 : Nat) <<< k = 2 ^ k := by rw [Nat.shiftLeft_eq, Nat.one_mul]
  have hones : (0xFFFFFFFF : Nat) = 2 ^ 32 - 1 := by norm_num
  have hle : keys &&& (0xFFFFFFFF ^^^ 2 ^ k) ≤ keys := Nat.and_le_left
  rw [h2, Nat.mod_eq_of_lt (by omega), Nat.testBit_and, Nat.testBit_xor, hones,
    Nat.testBit_two_pow_sub_one, Nat.testBit_two_pow]
  by_cases hi : i = k
  · subst hi
    have : i < 32 := by omega
    simp [this]
  · have hne : ¬ (k = i) := fun h => hi h.symm
    by_cases h32 : i < 32
    · simp [hi, hne, h32]
    · have : keys.testBit i = false :=
        Nat.testBit_lt_two_pow
          (lt_of_lt_of_le hkeys (Nat.pow_le_pow_right (by norm_num : 0 < 2) (by omega : 16 ≤ i)))
      simp [hi, this]

theorem key_mask_test (keys j : Nat) (hj : j ≤ 0xf) :
    keys &&& ((0x1 <<< j) % 65536) ≠ 0 ↔ keys.testBit j = true := by
  have h2 : (1 : Nat) <<< j = 2 ^ j := by rw [Nat.shiftLeft_eq, Nat.one_mul]
  have hlt : 2 ^ j < 65536 := by
    have : 2 ^ j < 2 ^ 16 := Nat.pow_lt_pow_right (by norm_num) (by omega)
    omega
  rw [h2, Nat.mod_eq_of_lt hlt, Nat.and_two_pow]
  cases hb : keys.testBit j <;> simp

/-- Claim C20: in every state, latched or not, for every key `k` in `0x0..0xF`
and flag `d`, `set_key_state(k, d)` changes only bit `k` of the 16-bit key
bitmask, which becomes set when `d` is non-zero and clear when `d` is 0; and
in every state whose latch is clear
with `v[x] = j <= 0xF`, the cycle executing `0xEx9E` leaves the program counter
two beyond the post-fetch counter exactly when bit `j` of the bitmask is set,
while the cycle executing `0xExA1` does so exactly when bit `j` is clear. -/
theorem c20_keys_and_skips (s : Chip8) (x j k d : Nat) :
    (k ≤ 0xf → s.keys < 65536 →
      ∃ t', cpu_set_key_state s k d = .ok t' ∧
        ∀ i, t'.keys.testBit i = (if i = k then decide (d ≠ 0) else s.keys.testBit i)) ∧
    (x < 16 → s.v x = j → j ≤ 0xf → s.wait_key = 0 →
      ((fetch s).1 = 0xE09E + 0x100 * x →
        ∃ s', cpu_cycle s = .ok s' ∧
          s'.pc = (if s.keys.testBit j = true then ((s.pc + 2) % 65536 + 2) % 65536
                   else (s.pc + 2) % 65536) ∧
          (s'.pc = ((s.pc + 2) % 65536 + 2) % 65536 ↔ s.keys.testBit j = true)) ∧
      ((fetch s).1 = 0xE0A1 + 0x100 * x →
        ∃ s', cpu_cycle s = .ok s' ∧
          s'.pc = (if s.keys.testBit j = true then (s.pc + 2) % 65536
                   else ((s.pc + 2) % 65536 + 2) % 65536) ∧
          (s'.pc = ((s.pc + 2) % 65536 + 2) % 65536 ↔ s.keys.testBit j = false))) := by
  have hpc : ((s.pc + 2) % 65536 + 2) % 65536 ≠ (s.pc + 2) % 65536 := by omega
  refine ⟨fun hk hkeys => ?_, fun hx hj hj15 hw => ⟨?_, ?_⟩⟩
  · obtain ⟨t', ht'⟩ := set_key_ok s k d hk
    refine ⟨t', ht', ?_⟩
    intro i
    rw [keys_after_set s t' k d ht']
    by_cases hd : d ≠ 0
    · rw [if_pos hd, key_bits_down _ _ _ hk hkeys]
      simp [hd]
    · rw [if_neg hd, key_bits_up _ _ _ hk hkeys]
      simp [hd]
  · intro hop
    have hop' : (fetch s).1 = 0x1000 * 0xe + 0x100 * x + 0x10 * 9 + 0xe := by rw [hop]; omega
    rw [cpu_cycle_word s 0xe x 9 0xe (by norm_num) hx (by norm_num) (by norm_num) hw hop']
    show ∃ s', instr_ex9e (fetch s).2 x 9 0xe = .ok s' ∧ _
    have hv : (fetch s).2.v x = j := hj
    have hkk : (fetch s).2.keys = s.keys := rfl
    by_cases hb : s.keys.testBit j = true
    · have hm := (key_mask_test s.keys j hj15).2 hb
      refine ⟨{ (fetch s).2 with pc := ((fetch s).2.pc + 2) % 65536 }, ?_, ?_, ?_⟩
      · simp only [instr_ex9e, hv, hkk, hm, ne_eq, not_false_eq_true, if_true]
      · rw [if_pos hb]; rfl
      · exact ⟨fun _ => hb, fun _ => rfl⟩
    · have hm : ¬ (s.keys &&& ((0x1 <<< j) % 65536) ≠ 0) :=
        fun h => hb ((key_mask_test s.keys j hj15).1 h)
      refine ⟨(fetch s).2, ?_, ?_, ?_⟩
      · simp only [instr_ex9e, hv, hkk, hm, if_false]
      · rw [if_neg hb]; rfl
      · constructor
        · intro h
          exact absurd h.symm hpc
        · intro h
          exact absurd h hb
  · intro hop
    have hop' : (fetch s).1 = 0x1000 * 0xe + 0x100 * x + 0x10 * 0xa + 0x1 := by
      rw [hop]; omega
    rw [cpu_cycle_word s 0xe x 0xa 0x1 (by norm_num) hx (by norm_num) (by norm_num) hw hop']
    show ∃ s', instr_exa1 (fetch s).2 x 0xa 0x1 = .ok s' ∧ _
    have hv : (fetch s).2.v x = j := hj
    have hkk : (fetch s).2.keys = s.keys := rfl
    by_cases hb : s.keys.testBit j = true
    · have hm : ¬ (s.keys &&& ((0x1 <<< j) % 65536) = 0) := (key_mask_test s.keys j hj15).2 hb
      refine ⟨(fetch s).2, ?_, ?_, ?_⟩
      · simp only [instr_exa1, hv, hkk, hm, if_false]
      · rw [if_pos hb]; rfl
      · constructor
        · intro h
          exact absurd h.symm hpc
        · intro h
          rw [hb] at h
          exact Bool.noConfusion h
    · have hm : s.keys &&& ((0x1 <<< j) % 65536) = 0 := by
        by_contra hne
        exact hb ((key_mask_test s.keys j hj15).1 hne)
      have hbf : s.keys.testBit j = false := by
        cases h : s.keys.testBit j
        · rfl
        · exact absurd h hb
      refine ⟨{ (fetch s).2 with pc := ((fetch s).2.pc + 2) % 65536 }, ?_, ?_, ?_⟩
      · simp only [instr_exa1, hv, hkk, hm, if_true]
      · rw [if_neg hb]; rfl
      · exact ⟨fun _ => hbf, fun _ => rfl⟩

theorem c20_keys_and_skips_witness :
    (∃ t', cpu_set_key_state stalled_state 7 1 = .ok t' ∧
      ∀ i, t'.keys.testBit i =
        (if i = 7 then decide (1 ≠ 0) else stalled_state.keys.testBit i)) ∧
    (∃ s', cpu_cycle skp_state = .ok s' ∧
        s'.pc = (if skp_state.keys.testBit 4 = true
                 then ((skp_state.pc + 2) % 65536 + 2) % 65536
                 else (skp_state.pc + 2) % 65536) ∧
        (s'.pc = ((skp_state.pc + 2) % 65536 + 2) % 65536 ↔
          skp_state.keys.testBit 4 = true)) ∧
    (∃ s', cpu_cycle sknp_state = .ok s' ∧
        s'.pc = (if sknp_state.keys.testBit 4 = true then (sknp_state.pc + 2) % 65536
                 else ((sknp_state.pc + 2) % 65536 + 2) % 65536) ∧
        (s'.pc = ((sknp_state.pc + 2) % 65536 + 2) % 65536 ↔
          sknp_state.keys.testBit 4 = false)) :=
  ⟨(c20_keys_and_skips stalled_state 1 4 7 1).1 (by decide) (by decide),
   ((c20_keys_and_skips skp_state 1 4 7 1).2 (by decide) rfl (by decide) rfl).1 rfl,
   ((c20_keys_and_skips sknp_state 1 4 7 1).2 (by decide) rfl (by decide) rfl).2 rfl⟩

/-- With key 4 down and `v[1] = 4`, `E19E` skips (the counter ends at `0x204`)
and `E1A1` does not (it ends at `0x202`). -/
theorem skip_example :
    (∃ s', cpu_cycle skp_state = .ok s' ∧ s'.pc = 0x204) ∧
    (∃ s', cpu_cycle sknp_state = .ok s' ∧ s'.pc = 0x202) :=
  ⟨⟨_, rfl, rfl⟩, ⟨_, rfl, rfl⟩⟩
/-! ## Frame lemmas for the loops and the entry points -/

theorem foldl_keeps {σ α γ : Type} (f : σ → α → σ) (g : σ → γ)
    (h : ∀ t a, g (f t a) = g t) (l : List α) (t : σ) : g (l.foldl f t) = g t := by
  induction l generalizing t with
  | nil => rfl
  | cons a l ih => rw [List.foldl_cons, ih, h]

theorem dxyn_px_sp (sx sy row sr : Nat) (t : Chip8) (px : Nat) :
    (dxyn_px sx sy row sr t px).sp = t.sp := by
  unfold dxyn_px xor_pixel
  split
  · simp only []
    split <;> rfl
  · rfl

theorem dxyn_row_sp (sx sy : Nat) (t : Chip8) (row : Nat) :
    (dxyn_row sx sy t row).sp = t.sp := by
  unfold dxyn_row
  exact foldl_keeps _ Chip8.sp (dxyn_px_sp sx sy row _) _ t

/-- A cycle with the latch clear calls the decoded handler on the post-fetch
state, whatever word is fetched. -/
theorem cpu_cycle_call (s : Chip8) (hw : s.wait_key = 0) :
    ∃ instr a b c, cpu_cycle s = Instrp.call instr (fetch s).2 a b c := by
  have hlt : (fetch s).1 < 65536 := by
    show bytes2opcode _ _ < 65536
    unfold bytes2opcode
    exact Nat.mod_lt _ (by norm_num)
  exact ⟨_, _, _, _, cpu_cycle_word s _ _ _ _ (by omega) (by omega) (by omega) (by omega) hw
    (word_nibbles _)⟩

theorem cpu_tick60hz_sp (s : Chip8) : (cpu_tick60hz s).sp = s.sp := by
  unfold cpu_tick60hz
  by_cases h1 : s.dt > 0 <;> by_cases h2 : s.st > 0 <;> simp [h1, h2]

theorem cpu_set_key_state_sp (s s' : Chip8) (k d : Nat)
    (h : cpu_set_key_state s k d = .ok s') : s'.sp = s.sp := by
  unfold cpu_set_key_state at h
  by_cases hk : k ≥ 0x0 ∧ k ≤ 0xf
  · by_cases hd : d ≠ 0
    · by_cases hl : s.wait_key ≠ 0
      · simp only [hk, hd, hl, if_true, and_self, ne_eq, not_false_eq_true] at h
        cases h
        rfl
      · simp only [hk, hd, hl, if_true, if_false, and_self, ne_eq, not_false_eq_true] at h
        cases h
        rfl
    · simp only [hk, hd, if_true, if_false, and_self] at h
      cases h
      rfl
  · simp only [hk, if_false] at h
    cases h

/-! ## Operand helpers -/

theorem and_0xf0_nibble (n : Nat) (h : n < 16) : n &&& 0xf0 = 0 := by
  interval_cases n <;> rfl

theorem nibs2byte_ok (a b : Nat) (ha : a < 16) (hb : b < 16) :
    nibs2byte a b = .ok (0x10 * a + b) := by
  have e : (a <<< 4) ||| b = 0x10 * a + b := by
    rw [Nat.shiftLeft_eq, Nat.mul_comm]
    exact (Nat.mul_add_lt_is_or (by omega : b < 2 ^ 4) a).symm
  simp only [nibs2byte, and_0xf0_nibble a ha, and_0xf0_nibble b hb, if_true, e]
  rw [Nat.mod_eq_of_lt (by omega)]

theorem nibs2addr_ok (a b c : Nat) (ha : a < 16) (hb : b < 16) (hc : c < 16) :
    nibs2addr 0 a b c = .ok (0x100 * a + 0x10 * b + c) := by
  have e1 : (0 <<< (4 * 3)) ||| (a <<< (4 * 2)) = 0x100 * a := by
    rw [Nat.shiftLeft_eq, Nat.shiftLeft_eq, Nat.zero_mul, Nat.zero_or, Nat.mul_comm]
  have e2 : 0x100 * a ||| (b <<< 4) = 0x10 * (0x10 * a + b) := by
    rw [Nat.shiftLeft_eq]
    have h := Nat.mul_add_lt_is_or (by omega : b * 2 ^ 4 < 2 ^ 8) a
    have h' : (0x100 : Nat) = 2 ^ 8 := by norm_num
    rw [h', ← h]
    omega
  have e3 : 0x10 * (0x10 * a + b) ||| c = 0x100 * a + 0x10 * b + c := by
    have h := Nat.mul_add_lt_is_or (by omega : c < 2 ^ 4) (0x10 * a + b)
    have h' : (2 : Nat) ^ 4 = 0x10 := by norm_num
    rw [h'] at h
    rw [← h]
    omega
  simp only [nibs2addr, and_0xf0_nibble a ha, and_0xf0_nibble b hb, and_0xf0_nibble c hc,
    Nat.zero_and, if_true, e1, e2, e3]
  rw [Nat.mod_eq_of_lt (by omega)]

theorem cpu_reset_font (s : Chip8) (k : Nat) (hk : k < 80) :
    (cpu_reset s).mem (0x100 + k) = digit_sprites.getD k 0 := by
  show (if DIGIT_SPRITES_ADDR ≤ 0x100 + k ∧ 0x100 + k < DIGIT_SPRITES_ADDR +
      digit_sprites.length then digit_sprites.getD (0x100 + k - DIGIT_SPRITES_ADDR) 0
      else s.mem (0x100 + k)) = _
  have hlen : digit_sprites.length = 80 := rfl
  have hsub : 0x100 + k - DIGIT_SPRITES_ADDR = k := by simp [DIGIT_SPRITES_ADDR]
  rw [if_pos (by rw [hlen]; simp [DIGIT_SPRITES_ADDR]; omega), hsub]

theorem glyph_low_nibble (k : Nat) (hk : k < 80) : digit_sprites.getD k 0 % 16 = 0 := by
  interval_cases k <;> rfl

/-! ## Font, BCD and random -/

/-- Claim C21: in a state whose font region `0x100..0x14F` is as `cpu_reset`
leaves it, for every hexadecimal digit `d` and every `x`, executing `0xFx29`
with `v[x] = d` sets `I` to `0x100 + 5 * d`, and `mem[I..I+4]` are the five
glyph rows of digit `d` in the built-in table (`F0 90 90 90 F0` for 0,
`F0 80 F0 80 80` for F); every glyph byte has a zero low nibble. -/
theorem c21_font_lookup (s0 t : Chip8) (x d : Nat) (hx : x < 16) (hd : d ≤ 0xf)
    (hw : t.wait_key = 0) (hop : (fetch t).1 = 0xF029 + 0x100 * x) (hv : t.v x = d)
    (hfont : ∀ k, k < 80 → t.mem (0x100 + k) = (cpu_reset s0).mem (0x100 + k)) :
    ∃ t', cpu_cycle t = .ok t' ∧ t'.i = 0x100 + 5 * d ∧
      (∀ j, j < 5 → t'.mem (t'.i + j) = digit_sprites.getD (5 * d + j) 0) ∧
      (∀ k, k < 80 → digit_sprites.getD k 0 % 16 = 0) ∧
      digit_sprites.take 5 = [0xF0, 0x90, 0x90, 0x90, 0xF0] ∧
      digit_sprites.drop 75 = [0xF0, 0x80, 0xF0, 0x80, 0x80] := by
  have hop' : (fetch t).1 = 0x1000 * 0xf + 0x100 * x + 0x10 * 2 + 9 := by rw [hop]; omega
  rw [cpu_cycle_word t 0xf x 2 9 (by norm_num) hx (by norm_num) (by norm_num) hw hop']
  have hi : (DIGIT_SPRITES_ADDR + t.v x * 5) % 65536 = 0x100 + 5 * d := by
    rw [hv]
    simp only [DIGIT_SPRITES_ADDR]
    omega
  refine ⟨{ (fetch t).2 with i := (DIGIT_SPRITES_ADDR + t.v x * 5) % 65536 }, rfl, hi, ?_,
    glyph_low_nibble, rfl, rfl⟩
  intro j hj
  show t.mem ((DIGIT_SPRITES_ADDR + t.v x * 5) % 65536 + j) = _
  rw [hi, Nat.add_assoc, hfont _ (by omega), cpu_reset_font _ _ (by omega)]

theorem c21_font_lookup_witness :
    ∃ t', cpu_cycle font_state = .ok t' ∧ t'.i = 0x100 + 5 * 0xF ∧
      (∀ j, j < 5 → t'.mem (t'.i + j) = digit_sprites.getD (5 * 0xF + j) 0) ∧
      (∀ k, k < 80 → digit_sprites.getD k 0 % 16 = 0) ∧
      digit_sprites.take 5 = [0xF0, 0x90, 0x90, 0x90, 0xF0] ∧
      digit_sprites.drop 75 = [0xF0, 0x80, 0xF0, 0x80, 0x80] :=
  c21_font_lookup (with_program blank [0xF1, 0x29]) font_state 1 0xF (by decide) (by decide)
    rfl rfl rfl (fun _ _ => rfl)

theorem mem_store_in (cpu : Chip8) (addr val : Nat) (h : addr < 4096) :
    mem_store cpu addr val = { cpu with mem := upd cpu.mem addr val } := by
  unfold mem_store
  rw [if_pos h]

/-- With `I + 2 < 4096` the three stores of `instr_fx33` write `mem`. -/
theorem instr_fx33_in (cpu : Chip8) (x b c : Nat) (h : cpu.i + 2 < 4096) :
    instr_fx33 cpu x b c =
      .ok { cpu with mem := upd (upd (upd cpu.mem cpu.i (cpu.v x / 100 % 10))
          (cpu.i + 1) (cpu.v x / 10 % 10)) (cpu.i + 2) (cpu.v x % 10) } := by
  have h0 : cpu.i < 4096 := by omega
  have h1 : cpu.i + 1 < 4096 := by omega
  unfold instr_fx33
  dsimp only
  rw [mem_store_in cpu _ _ h0, mem_store_in _ _ _ h1, mem_store_in _ _ _ h]

/-- Claim C22: for every state with `I + 2 < 4096` and every `x` (register `x`
an 8-bit value), after `0xFx33` the bytes `h = mem[I]`, `t = mem[I+1]`,
`o = mem[I+2]` are decimal digits, `h <= 2`, with `100 h + 10 t + o` equal to
register `x`; no other memory byte, no register and not `I` is changed. -/
theorem c22_bcd_store (s : Chip8) (x : Nat) (hx : x < 16) (hw : s.wait_key = 0)
    (hop : (fetch s).1 = 0xF033 + 0x100 * x) (hv : s.v x < 256) (_hI : s.i + 2 < 4096) :
    ∃ s', cpu_cycle s = .ok s' ∧
      s'.mem s.i ≤ 2 ∧ s'.mem (s.i + 1) ≤ 9 ∧ s'.mem (s.i + 2) ≤ 9 ∧
      100 * s'.mem s.i + 10 * s'.mem (s.i + 1) + s'.mem (s.i + 2) = s.v x ∧
      (∀ a, a ≠ s.i → a ≠ s.i + 1 → a ≠ s.i + 2 → s'.mem a = s.mem a) ∧
      s'.v = s.v ∧ s'.i = s.i := by
  have hop' : (fetch s).1 = 0x1000 * 0xf + 0x100 * x + 0x10 * 3 + 3 := by rw [hop]; omega
  rw [cpu_cycle_word s 0xf x 3 3 (by norm_num) hx (by norm_num) (by norm_num) hw hop']
  have hcall : (decode_nibs 0xf x 3 3).call (fetch s).2 x 3 3
      = .ok { (fetch s).2 with mem := upd (upd (upd s.mem s.i (s.v x / 100 % 10))
          (s.i + 1) (s.v x / 10 % 10)) (s.i + 2) (s.v x % 10) } :=
    instr_fx33_in (fetch s).2 x 3 3 _hI
  rw [hcall]
  obtain ⟨m', hm'⟩ : ∃ m' : Nat → Nat, m' = upd (upd (upd s.mem s.i (s.v x / 100 % 10))
      (s.i + 1) (s.v x / 10 % 10)) (s.i + 2) (s.v x % 10) := ⟨_, rfl⟩
  have m0 : m' s.i = s.v x / 100 % 10 := by rw [hm']; simp [upd]
  have m1 : m' (s.i + 1) = s.v x / 10 % 10 := by rw [hm']; simp [upd]
  have m2 : m' (s.i + 2) = s.v x % 10 := by rw [hm']; simp [upd]
  refine ⟨{ (fetch s).2 with mem := m' }, by rw [hm'], ?_, ?_, ?_, ?_, ?_, rfl, rfl⟩
  · show m' s.i ≤ 2
    rw [m0]; omega
  · show m' (s.i + 1) ≤ 9
    rw [m1]; omega
  · show m' (s.i + 2) ≤ 9
    rw [m2]; omega
  · show 100 * m' s.i + 10 * m' (s.i + 1) + m' (s.i + 2) = s.v x
    rw [m0, m1, m2]; omega
  · intro a h0 h1 h2
    show m' a = s.mem a
    rw [hm']
    simp [upd, h0, h1, h2]

theorem c22_bcd_store_witness :
    ∃ s', cpu_cycle bcd_state = .ok s' ∧
      s'.mem bcd_state.i ≤ 2 ∧ s'.mem (bcd_state.i + 1) ≤ 9 ∧ s'.mem (bcd_state.i + 2) ≤ 9 ∧
      100 * s'.mem bcd_state.i + 10 * s'.mem (bcd_state.i + 1) + s'.mem (bcd_state.i + 2)
        = bcd_state.v 1 ∧
      (∀ a, a ≠ bcd_state.i → a ≠ bcd_state.i + 1 → a ≠ bcd_state.i + 2 →
        s'.mem a = bcd_state.mem a) ∧
      s'.v = bcd_state.v ∧ s'.i = bcd_state.i :=
  c22_bcd_store bcd_state 1 (by decide) rfl rfl (by decide) (by decide)

/-- Register 1 = 234 is stored as the digits 2, 3, 4 at `0x300..0x302`. -/
theorem bcd_example :
    ∃ s', cpu_cycle bcd_state = .ok s' ∧ s'.mem 0x300 = 2 ∧ s'.mem 0x301 = 3 ∧
      s'.mem 0x302 = 4 :=
  ⟨_, rfl, rfl, rfl, rfl⟩

theorem instr_cxkk_ok (cpu : Chip8) (x a b : Nat) (ha : a < 16) (hb : b < 16) :
    instr_cxkk cpu x a b =
      .ok { cpu with rand_out := fun k => cpu.rand_out (k + 1),
                     v := upd cpu.v x (((cpu.rand_out 0 % 0xff) &&& (0x10 * a + b)) % 256) } := by
  simp only [instr_cxkk, nibs2byte_ok a b ha hb, bind, Except.bind]

/-- Claim C24: for every next output `r` of the generator, every `x` and
every mask `kk`, the cycle that executes `0xCxkk` sets register `x` to
`(r mod 255) AND kk`: no bit outside `kk` is set, the byte drawn is below 255,
so 255 is never stored, and no other register changes (register F is
untouched unless `x = 0xF`). -/
theorem c24_random (s : Chip8) (x kk : Nat) (hx : x < 16) (hkk : kk < 256)
    (hw : s.wait_key = 0) (hop : (fetch s).1 = 0xC000 + 0x100 * x + kk) :
    ∃ s', cpu_cycle s = .ok s' ∧
      s'.v x = (s.rand_out 0 % 255) &&& kk ∧
      (∀ i, (s'.v x).testBit i = true → kk.testBit i = true) ∧
      s.rand_out 0 % 255 < 255 ∧ s'.v x < 255 ∧
      (∀ r, r ≠ x → s'.v r = s.v r) ∧
      (x ≠ 0xf → s'.v 0xf = s.v 0xf) ∧
      (∀ k, s'.rand_out k = s.rand_out (k + 1)) := by
  have hop' : (fetch s).1 = 0x1000 * 0xc + 0x100 * x + 0x10 * (kk / 16) + kk % 16 := by
    rw [hop]; omega
  rw [cpu_cycle_word s 0xc x (kk / 16) (kk % 16) (by norm_num) hx (by omega) (by omega) hw hop']
  have hcall : (decode_nibs 0xc x (kk / 16) (kk % 16)).call (fetch s).2 x (kk / 16) (kk % 16)
      = instr_cxkk (fetch s).2 x (kk / 16) (kk % 16) := rfl
  have hmask : 0x10 * (kk / 16) + kk % 16 = kk := by omega
  rw [hcall, instr_cxkk_ok _ _ _ _ (by omega) (by omega), hmask]
  have hle : (s.rand_out 0 % 255) &&& kk ≤ s.rand_out 0 % 255 := Nat.and_le_left
  have hr : s.rand_out 0 % 255 < 255 := Nat.mod_lt _ (by norm_num)
  have hval : ((s.rand_out 0 % 0xff) &&& kk) % 256 = (s.rand_out 0 % 255) &&& kk :=
    Nat.mod_eq_of_lt (by omega)
  have hX : upd s.v x (((s.rand_out 0 % 0xff) &&& kk) % 256) x = (s.rand_out 0 % 255) &&& kk := by
    rw [hval]; simp [upd]
  refine ⟨_, rfl, hX, ?_, hr, ?_, ?_, ?_, fun _ => rfl⟩
  · intro i hi
    have hi' : ((s.rand_out 0 % 255) &&& kk).testBit i = true := by rw [← hX]; exact hi
    rw [Nat.testBit_and, Bool.and_eq_true] at hi'
    exact hi'.2
  · show upd s.v x (((s.rand_out 0 % 0xff) &&& kk) % 256) x < 255
    rw [hX]; omega
  · intro r hr'
    show upd s.v x _ r = s.v r
    simp [upd, hr']
  · intro hxf
    show upd s.v x _ 0xf = s.v 0xf
    have : (0xf : Nat) ≠ x := fun h => hxf h.symm
    simp [upd, this]

theorem c24_random_witness :
    ∃ s', cpu_cycle rnd_state = .ok s' ∧
      s'.v 1 = (rnd_state.rand_out 0 % 255) &&& 0xFF ∧
      (∀ i, (s'.v 1).testBit i = true → (0xFF : Nat).testBit i = true) ∧
      rnd_state.rand_out 0 % 255 < 255 ∧ s'.v 1 < 255 ∧
      (∀ r, r ≠ 1 → s'.v r = rnd_state.v r) ∧
      (1 ≠ 0xf → s'.v 0xf = rnd_state.v 0xf) ∧
      (∀ k, s'.rand_out k = rnd_state.rand_out (k + 1)) :=
  c24_random rnd_state 1 0xFF (by decide) (by decide) rfl rfl

/-- With `rand()` returning 509 and mask `0xFF`, register 1 receives
`509 mod 255 = 254`. -/
theorem rnd_example : ∃ s', cpu_cycle rnd_state = .ok s' ∧ s'.v 1 = 254 :=
  ⟨_, rfl, rfl⟩

/-! ## Flag register as destination -/

theorem write_with_carry_F_other (cpu : Chip8) (val carry r : Nat) (h : r ≠ 0xf) :
    (write_with_carry cpu 0xf val carry).v r = cpu.v r := by
  simp [write_with_carry, upd, h]

/-- Claim C26: when the destination is register F (`x = 0xF`), after each of
`0x8Fy4`, `0x8Fy5`, `0x8Fy6`, `0x8Fy7` and `0x8FyE` register F holds the carry,
not-borrow or shifted-out bit computed from the operands as they were before
the instruction; that bit is 0 or 1, and the arithmetic or shift result is
stored nowhere: every other register keeps its value. -/
theorem c26_flag_wins (s : Chip8) (y : Nat) (hy : y < 16) (hw : s.wait_key = 0)
    (ha : s.v 0xf < 256) (hb : s.v y < 256) :
    ((fetch s).1 = 0x8F04 + 0x10 * y →
      ∃ s', cpu_cycle s = .ok s' ∧
        s'.v 0xf = (if s.v 0xf + s.v y > 255 then 1 else 0) ∧ s'.v 0xf ≤ 1 ∧
        ∀ r, r ≠ 0xf → s'.v r = s.v r) ∧
    ((fetch s).1 = 0x8F05 + 0x10 * y →
      ∃ s', cpu_cycle s = .ok s' ∧
        s'.v 0xf = (if s.v 0xf ≥ s.v y then 1 else 0) ∧ s'.v 0xf ≤ 1 ∧
        ∀ r, r ≠ 0xf → s'.v r = s.v r) ∧
    ((fetch s).1 = 0x8F06 + 0x10 * y →
      ∃ s', cpu_cycle s = .ok s' ∧
        s'.v 0xf = s.v 0xf % 2 ∧ s'.v 0xf ≤ 1 ∧
        ∀ r, r ≠ 0xf → s'.v r = s.v r) ∧
    ((fetch s).1 = 0x8F07 + 0x10 * y →
      ∃ s', cpu_cycle s = .ok s' ∧
        s'.v 0xf = (if s.v y ≥ s.v 0xf then 1 else 0) ∧ s'.v 0xf ≤ 1 ∧
        ∀ r, r ≠ 0xf → s'.v r = s.v r) ∧
    ((fetch s).1 = 0x8F0E + 0x10 * y →
      ∃ s', cpu_cycle s = .ok s' ∧
        s'.v 0xf = (s.v y / 2 ^ 7) % 2 ∧ s'.v 0xf ≤ 1 ∧
        ∀ r, r ≠ 0xf → s'.v r = s.v r) := by
  refine ⟨?_, ?_, ?_, ?_, ?_⟩
  · intro hop
    have hop' : (fetch s).1 = 0x1000 * 8 + 0x100 * 0xf + 0x10 * y + 4 := by rw [hop]; omega
    rw [cpu_cycle_word s 8 0xf y 4 (by norm_num) (by norm_num) hy (by norm_num) hw hop']
    have hsum : (s.v 0xf + s.v y) % 65536 = s.v 0xf + s.v y := Nat.mod_eq_of_lt (by omega)
    have hF : upd (upd s.v 0xf (((s.v 0xf + s.v y) % 65536) &&& 0xff)) 0xf
        (if ((s.v 0xf + s.v y) % 65536) &&& 0xff00 ≠ 0 then 1 else 0) 0xf
        = (if s.v 0xf + s.v y > 255 then 1 else 0) := by
      rw [hsum]
      by_cases hc : s.v 0xf + s.v y > 255
      · have : ¬ ((s.v 0xf + s.v y) &&& 0xff00 = 0) := by
          rw [and_0xff00_eq_zero _ (by omega)]; omega
        simp [upd, hc, this]
      · have : (s.v 0xf + s.v y) &&& 0xff00 = 0 := by
          rw [and_0xff00_eq_zero _ (by omega)]; omega
        simp [upd, hc, this]
    refine ⟨_, rfl, hF, ?_, ?_⟩
    · refine le_of_eq_of_le hF ?_
      split <;> omega
    · intro r hr
      show upd (upd s.v 0xf _) 0xf _ r = s.v r
      simp [upd, hr]
  · intro hop
    have hop' : (fetch s).1 = 0x1000 * 8 + 0x100 * 0xf + 0x10 * y + 5 := by rw [hop]; omega
    rw [cpu_cycle_word s 8 0xf y 5 (by norm_num) (by norm_num) hy (by norm_num) hw hop']
    have hF : (write_with_carry (fetch s).2 0xf
        (((s.v 0xf : Int) - (s.v y : Int)) % 256).toNat
        (if s.v 0xf ≥ s.v y then 1 else 0)).v 0xf = (if s.v 0xf ≥ s.v y then 1 else 0) :=
      write_with_carry_flag _ _ _ _
    refine ⟨_, rfl, hF, ?_, fun r hr => write_with_carry_F_other _ _ _ r hr⟩
    refine le_of_eq_of_le hF ?_
    split <;> omega
  · intro hop
    have hop' : (fetch s).1 = 0x1000 * 8 + 0x100 * 0xf + 0x10 * y + 6 := by rw [hop]; omega
    rw [cpu_cycle_word s 8 0xf y 6 (by norm_num) (by norm_num) hy (by norm_num) hw hop']
    have hbit : (s.v 0xf &&& 1) % 256 = s.v 0xf % 2 := by
      rw [Nat.and_one_is_mod]; apply Nat.mod_eq_of_lt; omega
    have hF : (write_with_carry (fetch s).2 0xf ((s.v 0xf >>> 1) % 256)
        ((s.v 0xf &&& 1) % 256)).v 0xf = s.v 0xf % 2 := by
      rw [write_with_carry_flag, hbit]
    refine ⟨_, rfl, hF, ?_, fun r hr => write_with_carry_F_other _ _ _ r hr⟩
    refine le_of_eq_of_le hF ?_
    omega
  · intro hop
    have hop' : (fetch s).1 = 0x1000 * 8 + 0x100 * 0xf + 0x10 * y + 7 := by rw [hop]; omega
    rw [cpu_cycle_word s 8 0xf y 7 (by norm_num) (by norm_num) hy (by norm_num) hw hop']
    have hF : (write_with_carry (fetch s).2 0xf
        (((s.v y : Int) - (s.v 0xf : Int)) % 256).toNat
        (if s.v y ≥ s.v 0xf then 1 else 0)).v 0xf = (if s.v y ≥ s.v 0xf then 1 else 0) :=
      write_with_carry_flag _ _ _ _
    refine ⟨_, rfl, hF, ?_, fun r hr => write_with_carry_F_other _ _ _ r hr⟩
    refine le_of_eq_of_le hF ?_
    split <;> omega
  · intro hop
    have hop' : (fetch s).1 = 0x1000 * 8 + 0x100 * 0xf + 0x10 * y + 0xe := by rw [hop]; omega
    rw [cpu_cycle_word s 8 0xf y 0xe (by norm_num) (by norm_num) hy (by norm_num) hw hop']
    have hbit : ((s.v y >>> 7) &&& 1) % 256 = (s.v y / 2 ^ 7) % 2 := by
      rw [Nat.and_one_is_mod, Nat.shiftRight_eq_div_pow]; apply Nat.mod_eq_of_lt; omega
    have hF : (write_with_carry (fetch s).2 0xf ((s.v y <<< 1) % 256)
        (((s.v y >>> 7) &&& 1) % 256)).v 0xf = (s.v y / 2 ^ 7) % 2 := by
      rw [write_with_carry_flag, hbit]
    refine ⟨_, rfl, hF, ?_, fun r hr => write_with_carry_F_other _ _ _ r hr⟩
    refine le_of_eq_of_le hF ?_
    omega

theorem c26_flag_wins_witness :
    (∃ s', cpu_cycle (flag_state 4) = .ok s' ∧
        s'.v 0xf = (if (flag_state 4).v 0xf + (flag_state 4).v 2 > 255 then 1 else 0) ∧
        s'.v 0xf ≤ 1 ∧ ∀ r, r ≠ 0xf → s'.v r = (flag_state 4).v r) ∧
    (∃ s', cpu_cycle (flag_state 5) = .ok s' ∧
        s'.v 0xf = (if (flag_state 5).v 0xf ≥ (flag_state 5).v 2 then 1 else 0) ∧
        s'.v 0xf ≤ 1 ∧ ∀ r, r ≠ 0xf → s'.v r = (flag_state 5).v r) ∧
    (∃ s', cpu_cycle (flag_state 6) = .ok s' ∧
        s'.v 0xf = (flag_state 6).v 0xf % 2 ∧
        s'.v 0xf ≤ 1 ∧ ∀ r, r ≠ 0xf → s'.v r = (flag_state 6).v r) ∧
    (∃ s', cpu_cycle (flag_state 7) = .ok s' ∧
        s'.v 0xf = (if (flag_state 7).v 2 ≥ (flag_state 7).v 0xf then 1 else 0) ∧
        s'.v 0xf ≤ 1 ∧ ∀ r, r ≠ 0xf → s'.v r = (flag_state 7).v r) ∧
    (∃ s', cpu_cycle (flag_state 0xE) = .ok s' ∧
        s'.v 0xf = ((flag_state 0xE).v 2 / 2 ^ 7) % 2 ∧
        s'.v 0xf ≤ 1 ∧ ∀ r, r ≠ 0xf → s'.v r = (flag_state 0xE).v r) :=
  ⟨(c26_flag_wins (flag_state 4) 2 (by decide) rfl (by decide) (by decide)).1 rfl,
   (c26_flag_wins (flag_state 5) 2 (by decide) rfl (by decide) (by decide)).2.1 rfl,
   (c26_flag_wins (flag_state 6) 2 (by decide) rfl (by decide) (by decide)).2.2.1 rfl,
   (c26_flag_wins (flag_state 7) 2 (by decide) rfl (by decide) (by decide)).2.2.2.1 rfl,
   (c26_flag_wins (flag_state 0xE) 2 (by decide) rfl (by decide) (by decide)).2.2.2.2 rfl⟩

/-- With register F = 200 and register 2 = 100, `8F24` leaves the carry 1 in
register F (not the sum 44), `8F25` the not-borrow 1 (not the difference 100),
`8F26` the bit 0 (not 100), `8F27` the not-borrow 0 (not 156) and `8F2E` the
bit 0 (not 200). -/
theorem flag_example :
    (∃ s', cpu_cycle (flag_state 4) = .ok s' ∧ s'.v 0xf = 1) ∧
    (∃ s', cpu_cycle (flag_state 5) = .ok s' ∧ s'.v 0xf = 1) ∧
    (∃ s', cpu_cycle (flag_state 6) = .ok s' ∧ s'.v 0xf = 0) ∧
    (∃ s', cpu_cycle (flag_state 7) = .ok s' ∧ s'.v 0xf = 0) ∧
    (∃ s', cpu_cycle (flag_state 0xE) = .ok s' ∧ s'.v 0xf = 0) :=
  ⟨⟨_, rfl, rfl⟩, ⟨_, rfl, rfl⟩, ⟨_, rfl, rfl⟩, ⟨_, rfl, rfl⟩, ⟨_, rfl, rfl⟩⟩

/-! ## Register save and restore -/

/-- Closed form of the loop of `instr_fx55` after `n` iterations that all
store inside `mem`. -/
theorem fx55_fold (cpu : Chip8) (n : Nat) (hn : cpu.i + n ≤ 4096) :
    (List.range n).foldl (fun cpu i => mem_store cpu (cpu.i + i) (cpu.v i)) cpu
    = { cpu with mem := fun a =>
          if cpu.i ≤ a ∧ a < cpu.i + n then cpu.v (a - cpu.i) else cpu.mem a } := by
  induction n with
  | zero =>
    show cpu = _
    cases cpu
    simp only [Chip8.mk.injEq, and_true]
    funext a
    rw [if_neg (by omega)]
  | succ n ih =>
    rw [foldl_range_succ, ih (by omega)]
    have hin : cpu.i + n < 4096 := by omega
    rw [mem_store_in _ _ _ hin]
    show { cpu with mem := upd _ (cpu.i + n) (cpu.v n) } = _
    congr 1
    funext a
    simp only [upd]
    by_cases h : a = cpu.i + n
    · subst h
      rw [if_pos rfl, if_pos (by omega), Nat.add_sub_cancel_left]
    · rw [if_neg h]
      by_cases h2 : cpu.i ≤ a ∧ a < cpu.i + n
      · rw [if_pos h2, if_pos (by omega)]
      · rw [if_neg h2, if_neg (by omega)]

/-- Closed form of the loop of `instr_fx65` after `n` iterations. -/
theorem fx65_fold (cpu : Chip8) (n : Nat) :
    (List.range n).foldl
      (fun cpu i => { cpu with v := upd cpu.v i (cpu.mem (cpu.i + i)) }) cpu
    = { cpu with v := fun r => if r < n then cpu.mem (cpu.i + r) else cpu.v r } := by
  induction n with
  | zero =>
    show cpu = _
    cases cpu
    simp
  | succ n ih =>
    rw [foldl_range_succ, ih]
    show { cpu with v := upd _ n (cpu.mem (cpu.i + n)) } = _
    congr 1
    funext r
    simp only [upd]
    by_cases h : r = n
    · subst h
      rw [if_pos rfl, if_pos (by omega)]
    · rw [if_neg h]
      by_cases h2 : r < n
      · rw [if_pos h2, if_pos (by omega)]
      · rw [if_neg h2, if_neg (by omega)]

/-- Claim C23: for every `x` and every state with `I + x < 4096`, `0xFx55`
sets `mem[I + k] = v[k]` for every `k` in `0..x` and changes no other memory
byte, no register and not `I`; in any later state that keeps `I` and
`mem[I..I+x]`, whatever its registers hold, `0xFx65` restores registers `0..x`
to their values at the time of the `0xFx55` and leaves registers `x+1..0xF`,
memory and `I` unchanged. -/
theorem c23_save_restore (s : Chip8) (x : Nat) (hx : x < 16) (hw : s.wait_key = 0)
    (hop : (fetch s).1 = 0xF055 + 0x100 * x) (_hI : s.i + x < 4096) :
    ∃ s', cpu_cycle s = .ok s' ∧
      (∀ k, k ≤ x → s'.mem (s.i + k) = s.v k) ∧
      (∀ a, a < s.i ∨ s.i + x < a → s'.mem a = s.mem a) ∧
      s'.v = s.v ∧ s'.i = s.i ∧
      ∀ t : Chip8, t.wait_key = 0 → (fetch t).1 = 0xF065 + 0x100 * x → t.i = s'.i →
        (∀ k, k ≤ x → t.mem (t.i + k) = s'.mem (s'.i + k)) →
        ∃ t', cpu_cycle t = .ok t' ∧
          (∀ k, k ≤ x → t'.v k = s.v k) ∧
          (∀ r, x < r → t'.v r = t.v r) ∧
          t'.mem = t.mem ∧ t'.i = t.i := by
  have hop' : (fetch s).1 = 0x1000 * 0xf + 0x100 * x + 0x10 * 5 + 5 := by rw [hop]; omega
  rw [cpu_cycle_word s 0xf x 5 5 (by norm_num) hx (by norm_num) (by norm_num) hw hop']
  have hcall : (decode_nibs 0xf x 5 5).call (fetch s).2 x 5 5
      = .ok { (fetch s).2 with mem := fun a =>
          if s.i ≤ a ∧ a < s.i + (x + 1) then s.v (a - s.i) else s.mem a } := by
    show Except.ok _ = _
    rw [fx55_fold _ _ (by show s.i + (x + 1) ≤ 4096; omega)]
    rfl
  rw [hcall]
  have hsaved : ∀ k, k ≤ x →
      (if s.i ≤ s.i + k ∧ s.i + k < s.i + (x + 1) then s.v (s.i + k - s.i) else s.mem (s.i + k))
        = s.v k := by
    intro k hk
    rw [if_pos (by omega), Nat.add_sub_cancel_left]
  refine ⟨_, rfl, hsaved, ?_, rfl, rfl, ?_⟩
  · intro a ha
    show (if s.i ≤ a ∧ a < s.i + (x + 1) then s.v (a - s.i) else s.mem a) = s.mem a
    rw [if_neg (by omega)]
  · intro t hwt hopt hti hkeep
    have hopt' : (fetch t).1 = 0x1000 * 0xf + 0x100 * x + 0x10 * 6 + 5 := by rw [hopt]; omega
    rw [cpu_cycle_word t 0xf x 6 5 (by norm_num) hx (by norm_num) (by norm_num) hwt hopt']
    have hcallt : (decode_nibs 0xf x 6 5).call (fetch t).2 x 6 5
        = .ok { (fetch t).2 with v := fun r =>
            if r < x + 1 then t.mem (t.i + r) else t.v r } := by
      show Except.ok _ = _
      rw [fx65_fold]
      rfl
    rw [hcallt]
    refine ⟨_, rfl, ?_, ?_, rfl, rfl⟩
    · intro k hk
      show (if k < x + 1 then t.mem (t.i + k) else t.v k) = s.v k
      rw [if_pos (by omega), hkeep k hk]
      exact hsaved k hk
    · intro r hr
      show (if r < x + 1 then t.mem (t.i + r) else t.v r) = t.v r
      rw [if_neg (by omega)]

theorem c23_save_restore_witness :
    ∃ s', cpu_cycle save_state = .ok s' ∧
      (∀ k, k ≤ 3 → s'.mem (save_state.i + k) = save_state.v k) ∧
      (∀ a, a < save_state.i ∨ save_state.i + 3 < a → s'.mem a = save_state.mem a) ∧
      s'.v = save_state.v ∧ s'.i = save_state.i ∧
      ∀ t : Chip8, t.wait_key = 0 → (fetch t).1 = 0xF065 + 0x100 * 3 → t.i = s'.i →
        (∀ k, k ≤ 3 → t.mem (t.i + k) = s'.mem (s'.i + k)) →
        ∃ t', cpu_cycle t = .ok t' ∧
          (∀ k, k ≤ 3 → t'.v k = save_state.v k) ∧
          (∀ r, 3 < r → t'.v r = t.v r) ∧
          t'.mem = t.mem ∧ t'.i = t.i :=
  c23_save_restore save_state 3 (by decide) rfl rfl (by decide)

/-- After `F355` on `save_state` the bytes at `0x300..0x303` are 1, 2, 3, 4 and
the byte at `0x304` is untouched; after the registers are overwritten with
`0xEE`, `F365` brings registers 0..3 back to 1, 2, 3, 4 and leaves register 4
at `0xEE`. -/
theorem save_restore_example :
    (∃ s', cpu_cycle save_state = .ok s' ∧ s'.mem 0x300 = 1 ∧ s'.mem 0x303 = 4 ∧
      s'.mem 0x304 = 0) ∧
    (∃ t', cpu_cycle clobbered_state = .ok t' ∧ t'.v 0 = 1 ∧ t'.v 1 = 2 ∧ t'.v 2 = 3 ∧
      t'.v 3 = 4 ∧ t'.v 4 = 0xEE) :=
  ⟨⟨_, rfl, rfl, rfl, rfl⟩, ⟨_, rfl, rfl, rfl, rfl, rfl, rfl⟩⟩

/-! ## Call and return -/

theorem instr_2nnn_ok (cpu : Chip8) (a b c : Nat) (ha : a < 16) (hb : b < 16) (hc : c < 16)
    (hsp : cpu.sp < 0xf) :
    instr_2nnn cpu a b c =
      .ok { cpu with sp := (cpu.sp + 1) % 256,
                     stack := upd cpu.stack ((cpu.sp + 1) % 256 - 1) cpu.pc,
                     pc := 0x100 * a + 0x10 * b + c } := by
  have h : cpu.sp ≥ 0 ∧ cpu.sp < 0xf := ⟨Nat.zero_le _, hsp⟩
  simp only [instr_2nnn, if_pos h, nibs2addr_ok a b c ha hb hc, bind, Except.bind]

/-- Claim C25: with the latch clear, program counter `p`, stack pointer below
15, the word `0x2nnn` at `mem[p], mem[p+1]` and the word `0x00EE` at
`mem[nnn], mem[nnn+1]`, the first `cpu_cycle` sets the program counter to
`nnn`, the stack pointer to `sp + 1` and pushes `p + 2`; the second returns the
program counter to `p + 2` and the stack pointer to `sp`; registers, `I`,
memory, display, timers and keys are unchanged throughout. -/
theorem c25_call_return (s : Chip8) (nnn : Nat) (hw : s.wait_key = 0) (hsp : s.sp < 15)
    (hp : s.pc + 1 < 4096) (hn : nnn + 1 < 4096)
    (hcall : bytes2opcode (s.mem s.pc) (s.mem (s.pc + 1)) = 0x2000 + nnn)
    (hret : bytes2opcode (s.mem nnn) (s.mem (nnn + 1)) = 0x00EE) :
    ∃ s1 s2, cpu_cycle s = .ok s1 ∧ cpu_cycle s1 = .ok s2 ∧
      s1.pc = nnn ∧ s1.sp = s.sp + 1 ∧ s1.stack s.sp = s.pc + 2 ∧
      s2.pc = s.pc + 2 ∧ s2.sp = s.sp ∧
      (s1.v = s.v ∧ s1.i = s.i ∧ s1.mem = s.mem ∧ s1.disp = s.disp ∧ s1.dt = s.dt ∧
        s1.st = s.st ∧ s1.keys = s.keys) ∧
      (s2.v = s.v ∧ s2.i = s.i ∧ s2.mem = s.mem ∧ s2.disp = s.disp ∧ s2.dt = s.dt ∧
        s2.st = s.st ∧ s2.keys = s.keys) := by
  have hop : (fetch s).1 = 0x1000 * 2 + 0x100 * (nnn / 0x100) + 0x10 * (nnn / 0x10 % 0x10)
      + nnn % 0x10 := by
    show bytes2opcode (s.mem s.pc) (s.mem (s.pc + 1)) = _
    rw [hcall]; omega
  have hc1 : cpu_cycle s = .ok { (fetch s).2 with
      sp := (s.sp + 1) % 256,
      stack := upd s.stack ((s.sp + 1) % 256 - 1) ((s.pc + 2) % 65536),
      pc := 0x100 * (nnn / 0x100) + 0x10 * (nnn / 0x10 % 0x10) + nnn % 0x10 } := by
    rw [cpu_cycle_word s 2 (nnn / 0x100) (nnn / 0x10 % 0x10) (nnn % 0x10) (by norm_num)
      (by omega) (by omega) (by omega) hw hop]
    exact instr_2nnn_ok (fetch s).2 _ _ _ (by omega) (by omega) (by omega) hsp
  have hpc1 : 0x100 * (nnn / 0x100) + 0x10 * (nnn / 0x10 % 0x10) + nnn % 0x10 = nnn := by
    omega
  have hsp1 : (s.sp + 1) % 256 = s.sp + 1 := Nat.mod_eq_of_lt (by omega)
  have hpush : (s.pc + 2) % 65536 = s.pc + 2 := Nat.mod_eq_of_lt (by omega)
  rw [hpc1, hsp1, hpush, Nat.add_sub_cancel] at hc1
  obtain ⟨s1, hs1⟩ : ∃ s1 : Chip8, s1 = { (fetch s).2 with
      sp := s.sp + 1, stack := upd s.stack s.sp (s.pc + 2), pc := nnn } := ⟨_, rfl⟩
  rw [← hs1] at hc1
  have hw1 : s1.wait_key = 0 := by rw [hs1]; exact hw
  have hop1 : (fetch s1).1 = 0x1000 * 0 + 0x100 * 0 + 0x10 * 0xe + 0xe := by
    show bytes2opcode (s1.mem s1.pc) (s1.mem (s1.pc + 1)) = _
    rw [hs1]
    exact hret
  have hc2 : cpu_cycle s1 = instr_00ee (fetch s1).2 0 0xe 0xe :=
    cpu_cycle_word s1 0 0 0xe 0xe (by norm_num) (by norm_num) (by norm_num) (by norm_num)
      hw1 hop1
  have hsp2 : (fetch s1).2.sp > 0 ∧ (fetch s1).2.sp ≤ 0xf := by
    rw [hs1]
    show s.sp + 1 > 0 ∧ s.sp + 1 ≤ 0xf
    omega
  simp only [instr_00ee, if_pos hsp2] at hc2
  have htop : upd s.stack s.sp (s.pc + 2) (s.sp + 1 - 1) = s.pc + 2 := by
    rw [Nat.add_sub_cancel]; simp [upd]
  refine ⟨s1, _, hc1, hc2, ?_, ?_, ?_, ?_, ?_, ?_, ?_⟩
  · rw [hs1]
  · rw [hs1]
  · rw [hs1]; show upd s.stack s.sp (s.pc + 2) s.sp = s.pc + 2
    simp [upd]
  · rw [hs1]; exact htop
  · rw [hs1]; show s.sp + 1 - 1 = s.sp
    omega
  · rw [hs1]; exact ⟨rfl, rfl, rfl, rfl, rfl, rfl, rfl⟩
  · rw [hs1]; exact ⟨rfl, rfl, rfl, rfl, rfl, rfl, rfl⟩

theorem c25_call_return_witness :
    ∃ s1 s2, cpu_cycle call_state = .ok s1 ∧ cpu_cycle s1 = .ok s2 ∧
      s1.pc = 0x300 ∧ s1.sp = call_state.sp + 1 ∧ s1.stack call_state.sp = call_state.pc + 2 ∧
      s2.pc = call_state.pc + 2 ∧ s2.sp = call_state.sp ∧
      (s1.v = call_state.v ∧ s1.i = call_state.i ∧ s1.mem = call_state.mem ∧
        s1.disp = call_state.disp ∧ s1.dt = call_state.dt ∧ s1.st = call_state.st ∧
        s1.keys = call_state.keys) ∧
      (s2.v = call_state.v ∧ s2.i = call_state.i ∧ s2.mem = call_state.mem ∧
        s2.disp = call_state.disp ∧ s2.dt = call_state.dt ∧ s2.st = call_state.st ∧
        s2.keys = call_state.keys) :=
  c25_call_return call_state 0x300 rfl (by decide) (by decide) (by decide) rfl rfl

/-- On `call_state` the call at `0x200` pushes `0x202` and jumps to `0x300`;
the return there comes back to `0x202` with an empty stack. -/
theorem call_return_example :
    ∃ s2, cycles 2 call_state = .ok s2 ∧ s2.pc = 0x202 ∧ s2.sp = 0 ∧ s2.stack 0 = 0x202 :=
  ⟨_, rfl, rfl, rfl, rfl⟩

/-! ## Memory frame -/

theorem dxyn_px_mem (sx sy row sr : Nat) (t : Chip8) (px : Nat) :
    (dxyn_px sx sy row sr t px).mem = t.mem := by
  unfold dxyn_px xor_pixel
  split
  · simp only []
    split <;> rfl
  · rfl

theorem dxyn_row_mem (sx sy : Nat) (t : Chip8) (row : Nat) :
    (dxyn_row sx sy t row).mem = t.mem := by
  unfold dxyn_row
  exact foldl_keeps _ Chip8.mem (dxyn_px_mem sx sy row _) _ t

/-- Every handler other than `instr_fx33`, `instr_fx55` and `dummy_instr`,
called on nibbles, either returns with memory unchanged or aborts on the stack
assertion of `instr_2nnn` or `instr_00ee`. -/
theorem call_mem (instr : Instrp) (cpu : Chip8) (a b c : Nat) (ha : a < 16) (hb : b < 16)
    (hc : c < 16) (h33 : instr ≠ .p_fx33) (h55 : instr ≠ .p_fx55) (hd : instr ≠ .p_dummy) :
    (∃ cpu', instr.call cpu a b c = .ok cpu' ∧ cpu'.mem = cpu.mem) ∨
    (instr.call cpu a b c = .error .StackOverflow ∧ 15 ≤ cpu.sp) ∨
    (instr.call cpu a b c = .error .StackUnderflow ∧ (cpu.sp = 0 ∨ 15 < cpu.sp)) := by
  cases instr
  case p_fx33 => exact absurd rfl h33
  case p_fx55 => exact absurd rfl h55
  case p_dummy => exact absurd rfl hd
  case p_00ee =>
    by_cases h : cpu.sp > 0 ∧ cpu.sp ≤ 0xf
    · left
      simp only [Instrp.call, instr_00ee, if_pos h]
      exact ⟨_, rfl, rfl⟩
    · right; right
      refine ⟨?_, by omega⟩
      show instr_00ee cpu a b c = _
      unfold instr_00ee
      rw [if_neg h]
  case p_2nnn =>
    by_cases h : cpu.sp < 0xf
    · left
      show ∃ cpu', instr_2nnn cpu a b c = .ok cpu' ∧ cpu'.mem = cpu.mem
      rw [instr_2nnn_ok cpu a b c ha hb hc h]
      exact ⟨_, rfl, rfl⟩
    · right; left
      have h' : ¬ (cpu.sp ≥ 0 ∧ cpu.sp < 0xf) := fun hh => h hh.2
      refine ⟨?_, by omega⟩
      show instr_2nnn cpu a b c = _
      unfold instr_2nnn
      rw [if_neg h']
  case p_dxyn =>
    left
    refine ⟨_, rfl, ?_⟩
    exact foldl_keeps _ Chip8.mem (dxyn_row_mem _ _) _ _
  case p_fx65 =>
    left
    refine ⟨_, rfl, ?_⟩
    exact foldl_keeps _ Chip8.mem (by intro t a; rfl) _ _
  all_goals
    left
    simp only [Instrp.call, instr_0nnn, instr_00e0, instr_1nnn, instr_3xkk, instr_4xkk,
      instr_5xy0, instr_6xkk, instr_7xkk, instr_8xy0, instr_8xy1, instr_8xy2, instr_8xy3,
      instr_8xy4, instr_8xy5, instr_8xy6, instr_8xy7, instr_8xye, instr_9xy0, instr_annn,
      instr_bnnn, instr_cxkk, instr_ex9e, instr_exa1, instr_fx07, instr_fx0a, instr_fx15,
      instr_fx18, instr_fx1e, instr_fx29, write_with_carry,
      nibs2byte_ok b c hb hc, nibs2addr_ok a b c ha hb hc, bind, Except.bind]
    first
    | exact ⟨_, rfl, rfl⟩
    | (split <;> exact ⟨_, rfl, rfl⟩)

theorem ite_eq_elim {α : Type} (c : Prop) [Decidable c] (x y z : α) (P : Prop)
    (h1 : c → x = z → P) (h2 : ¬ c → y = z → P) : (if c then x else y) = z → P := by
  split
  · exact h1 ‹_›
  · exact h2 ‹_›

theorem table_row_fx33 (w : Nat) :
    table_row w = .p_fx33 → w / 0x1000 = 0xF ∧ w % 0x100 = 0x33 := by
  unfold table_row
  dsimp only
  repeat' (first
    | exact fun h => Instrp.noConfusion h
    | exact fun _ => ⟨‹_›, ‹_›⟩
    | (apply ite_eq_elim <;> intro _))

theorem table_row_fx55 (w : Nat) :
    table_row w = .p_fx55 → w / 0x1000 = 0xF ∧ w % 0x100 = 0x55 := by
  unfold table_row
  dsimp only
  repeat' (first
    | exact fun h => Instrp.noConfusion h
    | exact fun _ => ⟨‹_›, ‹_›⟩
    | (apply ite_eq_elim <;> intro _))

theorem cpu_set_key_state_mem (t t' : Chip8) (key state : Nat)
    (h : cpu_set_key_state t key state = .ok t') : t'.mem = t.mem := by
  unfold cpu_set_key_state at h
  by_cases hk : key ≥ 0x0 ∧ key ≤ 0xf
  · rw [if_pos hk] at h
    by_cases hs : state ≠ 0
    · rw [if_pos hs] at h
      dsimp only at h
      by_cases hl : t.wait_key ≠ 0
      · rw [if_pos hl] at h
        cases h; rfl
      · rw [if_neg hl] at h
        cases h; rfl
    · rw [if_neg hs] at h
      cases h; rfl
  · rw [if_neg hk] at h
    cases h

theorem cpu_tick60hz_mem (t : Chip8) : (cpu_tick60hz t).mem = t.mem := by
  unfold cpu_tick60hz
  dsimp only
  split <;> split <;> rfl

/-- Claim C27: with the latch clear, for every fetched opcode that decodes to
a handler (not the not-implemented one) and is not `0xFx33` or `0xFx55`,
`cpu_cycle` either returns a state with every memory byte unchanged or aborts
on the stack assertion of a call or a return; `cpu_tick60hz`,
`cpu_set_key_state` and `cpu_get_pixel` never change memory. -/
theorem c27_memory_frame (s : Chip8) (w : Nat) (instr : Instrp) (hw : s.wait_key = 0)
    (hop : (fetch s).1 = w) (hdec : decode w = .ok instr) (hnd : instr ≠ .p_dummy)
    (h33 : ¬ (w / 0x1000 = 0xF ∧ w % 0x100 = 0x33))
    (h55 : ¬ (w / 0x1000 = 0xF ∧ w % 0x100 = 0x55)) :
    ((∃ s', cpu_cycle s = .ok s' ∧ ∀ a, a < 4096 → s'.mem a = s.mem a) ∨
      (cpu_cycle s = .error .StackOverflow ∧ 15 ≤ s.sp) ∨
      (cpu_cycle s = .error .StackUnderflow ∧ (s.sp = 0 ∨ 15 < s.sp))) ∧
    (∀ t : Chip8, (cpu_tick60hz t).mem = t.mem) ∧
    (∀ (t : Chip8) (key state : Nat), key ≤ 0xf →
      ∃ t', cpu_set_key_state t key state = .ok t' ∧ t'.mem = t.mem) ∧
    (∀ (t : Chip8) (x y : Nat), (cpu_get_pixel_run t x y).2 = t) := by
  have hlt : w < 65536 := by
    rw [← hop]
    show bytes2opcode _ _ < 65536
    unfold bytes2opcode
    exact Nat.mod_lt _ (by norm_num)
  have hrow : instr = table_row w := by
    rw [decode_word w hlt, decode_nibs_table w] at hdec
    cases hdec
    rfl
  have hcyc : cpu_cycle s = (table_row w).call (fetch s).2 (w / 0x100 % 0x10)
      (w / 0x10 % 0x10) (w % 0x10) := by
    rw [← decode_nibs_table w]
    exact cpu_cycle_word s _ _ _ _ (by omega) (by omega) (by omega) (by omega) hw
      (hop.trans (word_nibbles w))
  refine ⟨?_, cpu_tick60hz_mem, ?_, fun _ _ _ => rfl⟩
  · rw [hcyc]
    rcases call_mem (table_row w) (fetch s).2 (w / 0x100 % 0x10) (w / 0x10 % 0x10)
      (w % 0x10) (by omega) (by omega) (by omega)
      (fun h => h33 (table_row_fx33 w h)) (fun h => h55 (table_row_fx55 w h))
      (hrow ▸ hnd) with ⟨s', h1, h2⟩ | h | h
    · exact Or.inl ⟨s', h1, fun a _ => by rw [h2]; rfl⟩
    · exact Or.inr (Or.inl h)
    · exact Or.inr (Or.inr h)
  · intro t key state hk
    have hk' : key ≥ 0x0 ∧ key ≤ 0xf := ⟨Nat.zero_le _, hk⟩
    cases hr : cpu_set_key_state t key state with
    | ok t' => exact ⟨t', rfl, cpu_set_key_state_mem t t' key state hr⟩
    | error e =>
      exfalso
      unfold cpu_set_key_state at hr
      rw [if_pos hk'] at hr
      by_cases hs : state ≠ 0
      · rw [if_pos hs] at hr
        dsimp only at hr
        by_cases hl : t.wait_key ≠ 0
        · rw [if_pos hl] at hr; cases hr
        · rw [if_neg hl] at hr; cases hr
      · rw [if_neg hs] at hr; cases hr

theorem c27_memory_frame_witness :
    ((∃ s', cpu_cycle call_state = .ok s' ∧ ∀ a, a < 4096 → s'.mem a = call_state.mem a) ∨
      (cpu_cycle call_state = .error .StackOverflow ∧ 15 ≤ call_state.sp) ∨
      (cpu_cycle call_state = .error .StackUnderflow ∧
        (call_state.sp = 0 ∨ 15 < call_state.sp))) ∧
    (∀ t : Chip8, (cpu_tick60hz t).mem = t.mem) ∧
    (∀ (t : Chip8) (key state : Nat), key ≤ 0xf →
      ∃ t', cpu_set_key_state t key state = .ok t' ∧ t'.mem = t.mem) ∧
    (∀ (t : Chip8) (x y : Nat), (cpu_get_pixel_run t x y).2 = t) :=
  c27_memory_frame call_state 0x2300 .p_2nnn rfl rfl rfl (by decide) (by decide) (by decide)

/-- The two stores do write memory: `F133` on `bcd_state` changes the byte at
`0x300`, and `F355` on `save_state` changes the byte at `0x300`. -/
theorem store_example :
    (∃ s', cpu_cycle bcd_state = .ok s' ∧ bcd_state.mem 0x300 = 0 ∧ s'.mem 0x300 = 2) ∧
    (∃ s', cpu_cycle save_state = .ok s' ∧ save_state.mem 0x300 = 0 ∧ s'.mem 0x300 = 1) :=
  ⟨⟨_, rfl, rfl, rfl⟩, ⟨_, rfl, rfl, rfl⟩⟩

/-! ## Stack pointer and stores past the end of memory -/

/-- A handler whose `0xFx33` or `0xFx55` stores stay inside `mem` does not
take the stack pointer above 15. -/
theorem call_sp_in (instr : Instrp) (cpu cpu' : Chip8) (a b c : Nat)
    (h : instr.call cpu a b c = .ok cpu') (hsp : cpu.sp ≤ 15)
    (h33 : instr = .p_fx33 → cpu.i + 2 < 4096)
    (h55 : instr = .p_fx55 → cpu.i + a < 4096) : cpu'.sp ≤ 15 := by
  cases instr
  case p_00ee =>
    simp only [Instrp.call, instr_00ee] at h
    split at h
    · cases h; show cpu.sp - 1 ≤ 15; omega
    · cases h
  case p_2nnn =>
    simp only [Instrp.call, instr_2nnn, bind, Except.bind] at h
    split at h
    · split at h
      · cases h
      · cases h; show (cpu.sp + 1) % 256 ≤ 15; omega
    · cases h
  case p_dxyn =>
    simp only [Instrp.call, instr_dxyn] at h
    cases h
    rw [foldl_keeps _ Chip8.sp (dxyn_row_sp _ _)]
    exact hsp
  case p_fx33 =>
    have h' : instr_fx33 cpu a b c = .ok cpu' := h
    rw [instr_fx33_in cpu a b c (h33 rfl)] at h'
    cases h'
    exact hsp
  case p_fx55 =>
    have h' : Except.ok ((List.range (a + 1)).foldl
        (fun cpu i => mem_store cpu (cpu.i + i) (cpu.v i)) cpu) = .ok cpu' := h
    rw [fx55_fold cpu (a + 1) (by have := h55 rfl; omega)] at h'
    cases h'
    exact hsp
  case p_fx65 =>
    simp only [Instrp.call, instr_fx65] at h
    cases h
    exact le_of_eq_of_le (foldl_keeps _ Chip8.sp (by intro t a; rfl) _ _) hsp
  all_goals
    simp only [Instrp.call, instr_0nnn, instr_00e0, instr_1nnn, instr_3xkk, instr_4xkk,
      instr_5xy0, instr_6xkk, instr_7xkk, instr_8xy0, instr_8xy1, instr_8xy2, instr_8xy3,
      instr_8xy4, instr_8xy5, instr_8xy6, instr_8xy7, instr_8xye, instr_9xy0, instr_annn,
      instr_bnnn, instr_cxkk, instr_ex9e, instr_exa1, instr_fx07, instr_fx0a, instr_fx15,
      instr_fx18, instr_fx1e, instr_fx29, dummy_instr, write_with_carry,
      bind, Except.bind] at h
    first
    | (cases h; exact hsp)
    | (cases h)
    | (split at h <;> first | (cases h; exact hsp) | (cases h) |
        (split at h <;> (cases h; exact hsp)))

theorem cpu_cycle_sp_in (s s' : Chip8) (h : cpu_cycle s = .ok s') (hsp : s.sp ≤ 15)
    (hin : store_in_bounds s) : s'.sp ≤ 15 := by
  by_cases hw : s.wait_key = 0
  · have hlt : (fetch s).1 < 65536 := by
      show bytes2opcode _ _ < 65536
      unfold bytes2opcode
      exact Nat.mod_lt _ (by norm_num)
    have hcyc : cpu_cycle s = (table_row (fetch s).1).call (fetch s).2
        ((fetch s).1 / 0x100 % 0x10) ((fetch s).1 / 0x10 % 0x10) ((fetch s).1 % 0x10) := by
      rw [← decode_nibs_table (fetch s).1]
      exact cpu_cycle_word s _ _ _ _ (by omega) (by omega) (by omega) (by omega) hw
        (word_nibbles _)
    rw [hcyc] at h
    exact call_sp_in _ (fetch s).2 s' _ _ _ h hsp
      (fun e => (hin hw).1 (table_row_fx33 _ e)) (fun e => (hin hw).2 (table_row_fx55 _ e))
  · rw [cpu_cycle_latched s hw] at h
    cases h
    exact hsp

theorem reachable_in_sp (s : Chip8) (h : ReachableIn s) : s.sp ≤ 15 := by
  induction h with
  | reset s => exact Nat.zero_le _
  | cycle _ hin hc ih => exact cpu_cycle_sp_in _ _ hc ih hin
  | tick _ ih => rw [cpu_tick60hz_sp]; exact ih
  | key k d _ hk ih => rw [cpu_set_key_state_sp _ _ k d hk]; exact ih
  | mem m _ ih => exact ih

theorem reachable_cycles (n : Nat) (s s' : Chip8) (hs : Reachable s)
    (h : cycles n s = .ok s') : Reachable s' := by
  induction n generalizing s with
  | zero =>
    cases h
    exact hs
  | succ n ih =>
    unfold cycles at h
    cases hc : cpu_cycle s with
    | ok s1 =>
      rw [hc] at h
      exact ih s1 (Reachable.cycle hs hc) h
    | error e =>
      rw [hc] at h
      cases h

/-- Claim C14 on the code: the state `oob_state` is reached from `cpu_reset`
by loading a program, has stack pointer 0, and runs five non-failing cycles;
after four of them `I` is 4116 and register 0 is 255, and the store of the
fifth, `0xF055`, goes to `mem[4116]`, which is past the end of `mem` and is the
byte of `sp` in `struct chip8`: the state reached has stack pointer 255, above
16.  When every `0xFx33` and `0xFx55` store stays inside `mem` the stack
pointer of a reachable state is at most 15; and in every state a `0x00EE` that
does not abort reads, and a `0x2nnn` that does not abort writes, a stack slot
with index below 16. -/
theorem c14_store_past_memory_sets_sp :
    (Reachable oob_state ∧ oob_state.sp = 0 ∧
      (∃ s4, cycles 4 oob_state = .ok s4 ∧ s4.i = 4116 ∧ s4.v 0 = 255 ∧ s4.sp = 0) ∧
      ∃ s5, cycles 5 oob_state = .ok s5 ∧ Reachable s5 ∧ s5.sp = 255 ∧ 16 < s5.sp) ∧
    (∀ s, ReachableIn s → s.sp ≤ 15) ∧
    (∀ s a b c s', instr_00ee s a b c = .ok s' →
      s.sp - 1 < 16 ∧ s'.pc = s.stack (s.sp - 1)) ∧
    (∀ s a b c s', instr_2nnn s a b c = .ok s' →
      s'.sp - 1 < 16 ∧ s'.stack (s'.sp - 1) = s.pc) := by
  have hr : Reachable oob_state := Reachable.mem _ (Reachable.reset blank)
  refine ⟨⟨hr, rfl, ⟨_, rfl, rfl, rfl, rfl⟩, ⟨_, rfl, reachable_cycles 5 _ _ hr rfl, rfl,
    by decide⟩⟩, reachable_in_sp, ?_, ?_⟩
  · intro s a b c s' hr
    simp only [instr_00ee] at hr
    split at hr
    · cases hr
      exact ⟨by omega, rfl⟩
    · cases hr
  · intro s a b c s' hc
    simp only [instr_2nnn, bind, Except.bind] at hc
    split at hc
    · split at hc
      · cases hc
      · cases hc
        refine ⟨?_, ?_⟩
        · show (s.sp + 1) % 256 - 1 < 16
          omega
        · show upd s.stack ((s.sp + 1) % 256 - 1) s.pc ((s.sp + 1) % 256 - 1) = s.pc
          simp [upd]
    · cases hc

end Chippy
